import Mathlib

/-!
# QFS tools: formatter, chain reader and signature carver

A shallow embedding of the C programs `mkfs_qfs.c`, `list_information.c`,
`read_file.c` and `recover_files.c` of the repository.

Modelling conventions.

* A disk image is a `List Nat` of bytes (each entry below 256).
* The header `qfs.h` is not among the sources.  What the programs take from
  it, the sizes of `superblock_t` and `direntry_t` and the widths of the
  `label` and `filename` fields, is the parameter `Layout`.  The field order
  inside the two structs is never needed: a decoded `Superblock` and the
  decoded directory table are passed next to the raw image.
* `long` is 64 bits wide.  File sizes and offsets stay far below `2^63`, so
  `long` arithmetic is done over `Int`/`Nat`; the narrowing casts to
  `uint16_t`, `uint8_t` and `uint32_t` are explicit `%`.
* `memcpy` of the two trailing bytes of a block into a `uint16_t` uses the
  byte order of the host, taken to be little-endian.
* Loops that the C code bounds by a counter are structural recursions on the
  number of iterations left; the `while` loop of `read_file.c`, which has no
  such bound, takes fuel and returns `none` when the fuel runs out.
-/

namespace QFS

/-! ## Layout model -/

/-- Sizes fixed by `qfs.h`: `sizeof(superblock_t)`, `sizeof(direntry_t)`,
`sizeof(entry.filename)` and `sizeof(sb.label)`. -/
structure Layout where
  sbSize : Nat
  deSize : Nat
  fnLen : Nat
  labelLen : Nat
deriving DecidableEq, Repr

/-- The fields of `superblock_t` that the programs read or write. -/
structure Superblock where
  fs_type : Nat
  label : List Nat
  bytes_per_block : Nat
  total_blocks : Nat
  available_blocks : Nat
  total_direntries : Nat
  available_direntries : Nat
deriving DecidableEq, Repr

/-- The fields of `direntry_t` that the programs read. -/
structure DirEntry where
  filename : List Nat
  file_size : Nat
  starting_block : Nat
deriving DecidableEq, Repr

/-- A layout used for the concrete examples: 32-byte superblock, 32-byte
directory entries, 23-byte file names, 15-byte label. -/
def demoLayout : Layout := ⟨32, 32, 23, 15⟩

/-- Conversion of a `long` to `uint16_t`. -/
def to_uint16 (x : Int) : Nat := (x % 65536).toNat

/-- Conversion of an `int` to `uint32_t`. -/
def to_uint32 (x : Int) : Nat := (x % 4294967296).toNat

/-! ## mkfs_qfs.c -/

def MAX_DIR_ENTRIES : Nat := 255

def SIZE_30MB : Int := 30 * 1024 * 1024

def SIZE_60MB : Int := 60 * 1024 * 1024

/-- Lines 109-115 of mkfs_qfs.c: the block size chosen from the image size. -/
def select_bytes_per_block (file_size : Int) : Nat :=
  if file_size ≤ SIZE_30MB then 512
  else if file_size ≤ SIZE_60MB then 1024
  else 2048

/-- Line 105 of mkfs_qfs.c: bytes left for data blocks after the metadata.
The value is negative when the image is smaller than the metadata. -/
def total_data_available (L : Layout) (file_size : Int) : Int :=
  file_size - (L.sbSize : Int) - ((L.deSize : Int) * (MAX_DIR_ENTRIES : Int))

/-- Line 122 of mkfs_qfs.c: `(uint16_t)(total_data_available / bytes_per_block)`;
C division truncates toward zero. -/
def compute_total_blocks (L : Layout) (file_size : Int) : Nat :=
  to_uint16 (Int.tdiv (total_data_available L file_size)
    (select_bytes_per_block file_size : Int))

/-- Lines 91-93 of mkfs_qfs.c: `strncpy` of the label argument (a C string,
given without its terminating NUL) into the zeroed field, last byte forced
to NUL. -/
def make_label (L : Layout) (arg : Option (List Nat)) : List Nat :=
  match arg with
  | none => List.replicate L.labelLen 0
  | some s =>
      let copied := s.take (L.labelLen - 1)
      copied ++ List.replicate (L.labelLen - copied.length) 0

/-- Lines 84-135 of mkfs_qfs.c: the superblock that is written. -/
def mkfs_superblock (L : Layout) (file_size : Int) (label : Option (List Nat)) :
    Superblock :=
  let tb := compute_total_blocks L file_size
  let td := MAX_DIR_ENTRIES % 256
  { fs_type := 0x51
    label := make_label L label
    bytes_per_block := select_bytes_per_block file_size
    total_blocks := tb
    available_blocks := tb
    total_direntries := td
    available_direntries := td }

/-- An `fwrite` of `bytes` at position `pos` of a file opened with "rb+":
bytes inside the file are overwritten, a write that passes the end lengthens
the file, and a gap left by seeking past the end is filled with zeros. -/
def pwrite (img : List Nat) (pos : Nat) (bytes : List Nat) : List Nat :=
  let base := img ++ List.replicate (pos - img.length) 0
  base.take pos ++ bytes ++ base.drop (pos + bytes.length)

/-- Lines 163-168 of mkfs_qfs.c: `n` iterations left, file position `pos`.
Each iteration writes one zero byte and seeks `bytes_per_block - 1` ahead. -/
def clear_blocks (bytes_per_block : Nat) : Nat → Nat → List Nat → List Nat
  | 0, _, img => img
  | n + 1, pos, img =>
      clear_blocks bytes_per_block n (pos + 1 + (bytes_per_block - 1)) (pwrite img pos [0])

/-- Outcome of a run of mkfs_qfs on an image that could be opened. -/
structure MkfsResult where
  status : Nat
  sb : Superblock
  image : List Nat
deriving DecidableEq, Repr

/-- Lines 74-174 of mkfs_qfs.c, from the point where the image is open.
`encode` is the in-memory representation of `superblock_t` (its layout is
fixed by `qfs.h`; it has `sizeof(superblock_t)` bytes).  The two earlier
exits, status 1 for a wrong argument count and status 2 when `fopen` fails,
do not look at the image size; no later statement returns anything but 0. -/
def mkfs_qfs (L : Layout) (encode : Superblock → List Nat) (img : List Nat)
    (label : Option (List Nat)) : MkfsResult :=
  let file_size : Int := img.length
  let sb := mkfs_superblock L file_size label
  let dir_zeros := List.replicate (L.deSize * MAX_DIR_ENTRIES) 0
  let img1 := pwrite img 0 (encode sb)
  let img2 := pwrite img1 (encode sb).length dir_zeros
  let img3 := clear_blocks sb.bytes_per_block sb.total_blocks
    (L.sbSize + dir_zeros.length) img2
  { status := 0, sb := sb, image := img3 }

/-! ## File reads shared by read_file.c and recover_files.c -/

/-- The bytes an `fread(buffer, 1, n, fp)` at file position `off` obtains:
what the file holds from `off` on, at most `n` bytes.  Fewer than `n` bytes
is a short read. -/
def file_bytes (img : List Nat) (off n : Nat) : List Nat :=
  (img.drop off).take n

/-- The buffer after an `fread` that obtained `got`: the bytes read replace
the front of the buffer, the rest of the buffer keeps its old content. -/
def fread_into (buffer got : List Nat) : List Nat :=
  got ++ buffer.drop got.length

/-- Offset of the data block region (read_file.c lines 74-75,
recover_files.c lines 50-51). -/
def data_region_offset (L : Layout) (sb : Superblock) : Nat :=
  L.sbSize + sb.total_direntries * L.deSize

/-! ## read_file.c -/

/-- `strncmp(s1, s2, n) == 0`, with `n` bytes left to compare and `i` the
current index.  The comparison stops at the first difference and at the
first NUL the two strings share.  A C string is given without its
terminating NUL, which `getD` supplies. -/
def strncmp_eq (s1 s2 : List Nat) : Nat → Nat → Bool
  | 0, _ => true
  | n + 1, i =>
      let c1 := s1.getD i 0
      let c2 := s2.getD i 0
      if c1 ≠ c2 then false
      else if c1 = 0 then true
      else strncmp_eq s1 s2 n (i + 1)

/-- Lines 41-55 of read_file.c: the directory scan, `n` iterations left,
`i` the index of the next entry.  `table` holds the entries the image
contains, so reading entry `i` fails (status 5) when the table is shorter.
The result is the value of `target_entry` when `found` is set. -/
def find_entry (L : Layout) (table : List DirEntry) (fileName : List Nat) :
    Nat → Nat → Except Nat (Option DirEntry)
  | 0, _ => .ok none
  | n + 1, i =>
      match table.get? i with
      | none => .error 5
      | some entry =>
          if entry.filename.getD 0 0 = 0 then find_entry L table fileName n (i + 1)
          else if strncmp_eq entry.filename fileName L.fnLen 0 then .ok (some entry)
          else find_entry L table fileName n (i + 1)

/-- Test the directory scan applies to an entry it has read: the first
filename byte is not 0 and `strncmp` over the filename width reports
equality (read_file.c lines 48-50). -/
def selects (L : Layout) (fileName : List Nat) (entry : DirEntry) : Bool :=
  decide (entry.filename.getD 0 0 ≠ 0) && strncmp_eq entry.filename fileName L.fnLen 0

/-- What a run of read_file did: exit status, the bytes written to the
output file (`none` when the output file was never opened) and the indices
of the data blocks it read, in order. -/
structure ReadResult where
  status : Nat
  output : Option (List Nat)
  reads : List Nat
deriving DecidableEq, Repr

/-- Little-endian value of the two trailing bytes of a block buffer
(read_file.c line 115). -/
def next_of_buffer (buffer : List Nat) (block_size : Nat) : Nat :=
  buffer.getD (block_size - 2) 0 + 256 * buffer.getD (block_size - 1) 0

/-- Lines 87-130 of read_file.c: the `while (remaining > 0)` loop.  The first
argument is fuel; `none` means the fuel ran out before the loop ended.
`out` is what has been written so far and `reads` the blocks read so far.
`fseek` to a non-negative offset and `fwrite` are taken to succeed, so the
exits with status 9 and 11 do not occur. -/
def chain_walk (img : List Nat) (sb : Superblock) (data_offset : Nat) :
    Nat → Nat → Nat → List Nat → List Nat → Option ReadResult
  | 0, remaining, _, out, reads =>
      if remaining = 0 then some ⟨0, some out, reads⟩ else none
  | fuel + 1, remaining, current_block, out, reads =>
      if remaining = 0 then some ⟨0, some out, reads⟩
      else if current_block ≥ sb.total_blocks then some ⟨8, some out, reads⟩
      else
        let block_size := sb.bytes_per_block
        let payload_per_block := to_uint32 ((block_size : Int) - 3)
        let block_offset := data_offset + current_block * block_size
        let buffer := file_bytes img block_offset block_size
        if buffer.length ≠ block_size then some ⟨10, some out, reads ++ [current_block]⟩
        else
          let next_block := next_of_buffer buffer block_size
          let to_write := if remaining < payload_per_block then remaining else payload_per_block
          chain_walk img sb data_offset fuel (remaining - to_write) next_block
            (out ++ (buffer.drop 1).take to_write) (reads ++ [current_block])

/-- Outcomes of the calls of read_file that depend on the environment:
whether the output file can be opened and whether `malloc` succeeds. -/
structure ReadEnv where
  out_opens : Bool
  alloc_ok : Bool
deriving DecidableEq, Repr

/-- Lines 37-136 of read_file.c, from the point where the image is open and
its superblock has been read (the exits with status 1 to 4 come before). -/
def read_file (L : Layout) (env : ReadEnv) (sb : Superblock) (table : List DirEntry)
    (img : List Nat) (fileName : List Nat) (fuel : Nat) : Option ReadResult :=
  match find_entry L table fileName sb.total_direntries 0 with
  | .error s => some ⟨s, none, []⟩
  | .ok none => some ⟨0, none, []⟩
  | .ok (some target_entry) =>
      if !env.out_opens then some ⟨6, none, []⟩
      else if !env.alloc_ok then some ⟨7, some [], []⟩
      else chain_walk img sb (data_region_offset L sb) fuel
        target_entry.file_size target_entry.starting_block [] []

/-! ### The chain as the specification describes it -/

/-- The `block_size` bytes of block `idx`. -/
def block_bytes (img : List Nat) (data_offset block_size idx : Nat) : List Nat :=
  file_bytes img (data_offset + idx * block_size) block_size

/-- Payload region of block `idx`: bytes 1 .. block_size - 3 of the block. -/
def payload_region (img : List Nat) (data_offset block_size idx : Nat) : List Nat :=
  ((block_bytes img data_offset block_size idx).drop 1).take (block_size - 3)

/-- The trailing 16-bit next pointer of block `idx`. -/
def next_pointer (img : List Nat) (data_offset block_size idx : Nat) : Nat :=
  next_of_buffer (block_bytes img data_offset block_size idx) block_size

/-- The first `n` blocks of the chain that starts at `start` and follows the
next pointers. -/
def chain_blocks (img : List Nat) (data_offset block_size : Nat) : Nat → Nat → List Nat
  | 0, _ => []
  | n + 1, start =>
      start :: chain_blocks img data_offset block_size n
        (next_pointer img data_offset block_size start)

/-- Concatenation of the payload regions of the listed blocks. -/
def chain_payload (img : List Nat) (data_offset block_size : Nat) (blocks : List Nat) :
    List Nat :=
  (blocks.map (payload_region img data_offset block_size)).flatten

/-- A writer has laid `content` out along the chain `blocks`: every block is
in range and wholly inside the image, every block but the last holds a full
payload of content and points to the next block of the list, and the last
block holds the rest of the content (at least one byte) at the front of its
payload.  Empty content uses no block. -/
def laid_out (img : List Nat) (sb : Superblock) (data_offset : Nat) :
    List Nat → List Nat → Bool
  | [], content => content.isEmpty
  | [b], content =>
      decide (b < sb.total_blocks)
      && decide ((block_bytes img data_offset sb.bytes_per_block b).length = sb.bytes_per_block)
      && decide (0 < content.length)
      && decide (content.length ≤ sb.bytes_per_block - 3)
      && decide ((payload_region img data_offset sb.bytes_per_block b).take content.length
          = content)
  | b :: b' :: rest, content =>
      decide (b < sb.total_blocks)
      && decide ((block_bytes img data_offset sb.bytes_per_block b).length = sb.bytes_per_block)
      && decide (sb.bytes_per_block - 3 < content.length)
      && decide (payload_region img data_offset sb.bytes_per_block b
          = content.take (sb.bytes_per_block - 3))
      && decide (next_pointer img data_offset sb.bytes_per_block b = b')
      && laid_out img sb data_offset (b' :: rest) (content.drop (sb.bytes_per_block - 3))

/-- Example image for the chain reader: two bytes in front of the data
region, then three blocks of 6 bytes (status, 3 payload bytes, next pointer).
Block 0 points to block 2, block 2 carries a pointer (7) outside the image. -/
def demoChainImage : List Nat :=
  [0xAA, 0xBB,
   1, 10, 11, 12, 2, 0,
   0, 20, 21, 22, 0, 0,
   1, 13, 14, 99, 7, 0]

/-- Superblock going with `demoChainImage`: 3 blocks of 6 bytes. -/
def demoChainSb : Superblock :=
  { fs_type := 0x51, label := [], bytes_per_block := 6, total_blocks := 3,
    available_blocks := 1, total_direntries := 0, available_direntries := 0 }

/-! ## recover_files.c -/

def is_jpg_start (a b : Nat) : Bool := a = 0xFF && b = 0xD8

def is_jpg_end (a b : Nat) : Bool := a = 0xFF && b = 0xD9

/-- Variables of the emission loops of recover_files.c (lines 95-99 and the
bytes written to the open output so far). -/
structure EmitState where
  out : List Nat
  prev : Nat
  has_prev : Bool
  found_end : Bool
deriving DecidableEq, Repr

/-- Lines 114-127 of recover_files.c: the loop over `j`, with `n` iterations
left (`payload_len - j`).  Every byte is written before it is tested; the
loop breaks on the byte that completes FF D9. -/
def emit_bytes (buffer : List Nat) : Nat → Nat → EmitState → EmitState
  | 0, _, s => s
  | n + 1, j, s =>
      let byte := buffer.getD (1 + j) 0
      if s.has_prev && is_jpg_end s.prev byte then
        { s with out := s.out ++ [byte], found_end := true }
      else
        emit_bytes buffer n (j + 1)
          { out := s.out ++ [byte], prev := byte, has_prev := true, found_end := s.found_end }

/-- Lines 102-128 of recover_files.c: the loop over `cur_block`, with `n`
iterations left (`total_blocks - cur_block`).  `b` is the outer loop variable,
which the loop sets to the block that holds the end marker; `i` is the
position of the start marker.  Returns the emission state, the buffer and
`b`.  The return value of `fread` is not checked, so a short read leaves
old bytes in the buffer. -/
def emit_blocks (img : List Nat) (block_size data_offset payload_len i : Nat) :
    Nat → Nat → Nat → List Nat → EmitState → EmitState × List Nat × Nat
  | 0, _, b, buffer, s => (s, buffer, b)
  | n + 1, cur_block, b, buffer, s =>
      if s.found_end then (s, buffer, b)
      else
        let buffer1 :=
          if cur_block ≠ b then
            fread_into buffer (file_bytes img (data_offset + cur_block * block_size) block_size)
          else buffer
        let start_index := if cur_block = b then i else 0
        let s1 := emit_bytes buffer1 (payload_len - start_index) start_index s
        let b1 := if s1.found_end then cur_block else b
        emit_blocks img block_size data_offset payload_len i n (cur_block + 1) b1 buffer1 s1

/-- Lines 77-82 of recover_files.c: the search for a start marker inside one
block, `n` iterations left (the `i` with `i + 1 < payload_len`).  Returns
the first `i` at which the payload bytes `i`, `i + 1` are FF D8. -/
def find_start (buffer : List Nat) : Nat → Nat → Option Nat
  | 0, _ => none
  | n + 1, i =>
      if is_jpg_start (buffer.getD (1 + i) 0) (buffer.getD (1 + i + 1) 0) then some i
      else find_start buffer n (i + 1)

/-- Lines 70-138 of recover_files.c: the loop over `b`.  The loop variable
only grows, so the loop makes at most `total_blocks` iterations; the first
argument counts the iterations still allowed.  `outs` are the recovered
files so far, `recovered_file_0` first.  Opening an output file is taken to
succeed (otherwise the run ends with status 5). -/
def scan_blocks (img : List Nat) (block_size total_blocks data_offset payload_len : Nat) :
    Nat → Nat → List Nat → List (List Nat) → List (List Nat)
  | 0, _, _, outs => outs
  | fuel + 1, b, buffer, outs =>
      if b ≥ total_blocks then outs
      else
        let buffer1 :=
          fread_into buffer (file_bytes img (data_offset + b * block_size) block_size)
        match find_start buffer1 (payload_len - 1) 0 with
        | none =>
            scan_blocks img block_size total_blocks data_offset payload_len fuel (b + 1)
              buffer1 outs
        | some i =>
            let r := emit_blocks img block_size data_offset payload_len i
              (total_blocks - b) b b buffer1 ⟨[], 0, false, false⟩
            scan_blocks img block_size total_blocks data_offset payload_len fuel (r.2.2 + 1)
              r.2.1 (outs ++ [r.1.out])

/-- Lines 47-143 of recover_files.c, from the point where the image is open
and its superblock has been read.  `buffer0` is the content of the freshly
allocated block buffer (`malloc` is taken to succeed; its failure ends the
run with status 4).  The result lists the bytes of `recovered_file_0`,
`recovered_file_1`, ... in order. -/
def recover_files (L : Layout) (sb : Superblock) (img : List Nat) (buffer0 : List Nat) :
    List (List Nat) :=
  let block_size := sb.bytes_per_block
  let payload_len := to_uint32 ((block_size : Int) - 3)
  scan_blocks img block_size sb.total_blocks (data_region_offset L sb) payload_len
    sb.total_blocks 0 buffer0 []

/-- Two block buffers hold the same bytes in the payload region, positions
`1 .. payload_len` of the buffer. -/
def PayloadEq (payload_len : Nat) (buffer1 buffer2 : List Nat) : Prop :=
  ∀ j, j < payload_len → buffer1.getD (1 + j) 0 = buffer2.getD (1 + j) 0

/-- The emission loop run over a list of bytes instead of a buffer: each
byte is appended to the output, and the run stops after the byte that
completes FF D9. -/
def emit_list : List Nat → EmitState → EmitState
  | [], s => s
  | byte :: rest, s =>
      if s.has_prev && is_jpg_end s.prev byte then
        { s with out := s.out ++ [byte], found_end := true }
      else
        emit_list rest
          { out := s.out ++ [byte], prev := byte, has_prev := true, found_end := s.found_end }

/-- The logical payload stream of `n` consecutive blocks starting at block
`c`: their payload regions, in block order, with nothing in between. -/
def payload_stream (img : List Nat) (data_offset block_size : Nat) : Nat → Nat → List Nat
  | 0, _ => []
  | n + 1, c =>
      payload_region img data_offset block_size c
        ++ payload_stream img data_offset block_size n (c + 1)

/-- Position `t` of the stream `S` holds the D9 of the first end marker:
bytes `t - 1`, `t` are FF D9 and no earlier pair of neighbours is. -/
def first_end_at (S : List Nat) (t : Nat) : Prop :=
  1 ≤ t ∧ S[t - 1]? = some 0xFF ∧ S[t]? = some 0xD9 ∧
    ∀ t', t' < t → 1 ≤ t' → ¬ (S[t' - 1]? = some 0xFF ∧ S[t']? = some 0xD9)

instance (S : List Nat) (t : Nat) : Decidable (first_end_at S t) := by
  unfold first_end_at
  infer_instance

/-- Superblock of the carver examples with 6-byte blocks (3 payload bytes):
`n` blocks, one directory entry, so that under `demoLayout` the data region
starts at offset 64. -/
def demoCarveSb (n : Nat) : Superblock :=
  { fs_type := 0x51, label := [], bytes_per_block := 6, total_blocks := n,
    available_blocks := 0, total_direntries := 1, available_direntries := 0 }

/-- Four blocks: a start marker at the front of block 1 and the end marker
in block 3. -/
def demoCarveImage : List Nat :=
  List.replicate 64 0 ++
  [0, 1, 2, 3, 0, 0,
   1, 0xFF, 0xD8, 6, 2, 0,
   1, 1, 2, 3, 3, 0,
   1, 4, 0xFF, 0xD9, 0, 0]

/-- The payload bytes of `demoCarveImage` under other metadata, status bytes
and next pointers. -/
def demoCarveImage2 : List Nat :=
  List.replicate 64 7 ++
  [9, 1, 2, 3, 5, 5,
   0, 0xFF, 0xD8, 6, 0, 0,
   0, 1, 2, 3, 0, 0,
   0, 4, 0xFF, 0xD9, 7, 7]

/-- Superblock of the single-block example: 2 blocks of 11 bytes (8 payload
bytes). -/
def demoSingleSb : Superblock :=
  { fs_type := 0x51, label := [], bytes_per_block := 11, total_blocks := 2,
    available_blocks := 0, total_direntries := 1, available_direntries := 0 }

/-- Block 0 holds FF D8 41 42 FF D9 at payload positions 1 .. 6; block 1
holds no marker. -/
def demoSingleImage : List Nat :=
  List.replicate 64 0 ++
  [0, 7, 0xFF, 0xD8, 0x41, 0x42, 0xFF, 0xD9, 7, 0, 0,
   0, 1, 2, 3, 4, 5, 6, 7, 8, 0, 0]

/-- Three blocks of 6 bytes: FF is the last payload byte of block 0 and D8
the first payload byte of block 1; block 2 holds FF D9. -/
def demoStraddleImage : List Nat :=
  List.replicate 64 0 ++
  [0, 1, 2, 0xFF, 0, 0,
   0, 0xD8, 5, 6, 0, 0,
   0, 0xFF, 0xD9, 9, 0, 0]

/-- Superblock of the directory examples: two directory entries. -/
def demoDirSb : Superblock :=
  { fs_type := 0x51, label := [], bytes_per_block := 6, total_blocks := 3,
    available_blocks := 1, total_direntries := 2, available_direntries := 0 }

/-- A 23-byte filename field that holds "a", a NUL and then the stale
bytes "xyz" before the NUL padding. -/
def demoStaleName : List Nat := [97, 0, 120, 121, 122] ++ List.replicate 18 0

/-- Directory table of two entries: an empty slot and the entry with the
filename field `demoStaleName`. -/
def demoTable : List DirEntry :=
  [⟨List.replicate 23 0, 0, 0⟩, ⟨demoStaleName, 5, 0⟩]

/-- Example image whose chain is a cycle: block 0 of `demoChainSb` points
to itself. -/
def demoCycleImage : List Nat :=
  [0xAA, 0xBB,
   1, 10, 11, 12, 0, 0,
   0, 20, 21, 22, 0, 0,
   0, 30, 31, 32, 0, 0]

/-- Copy of `demoChainImage` in which the next pointer of block 2 is 0
instead of 7. -/
def demoChainImage2 : List Nat :=
  [0xAA, 0xBB,
   1, 10, 11, 12, 2, 0,
   0, 20, 21, 22, 0, 0,
   1, 13, 14, 99, 0, 0]

/-- A 9300-byte image filled with the byte EE, and a superblock encoding of
32 bytes, for the formatter examples under `demoLayout`. -/
def demoFormatImage : List Nat := List.replicate 9300 0xEE

/-- Stand-in for the in-memory bytes of `superblock_t`: 32 bytes that start
with the format tag. -/
def demoEncode (sb : Superblock) : List Nat := sb.fs_type :: List.replicate 31 0

/-! ## Exit statuses -/

/-- The three programs whose exit statuses are compared. -/
inductive Tool where
  | list_information
  | read_file
  | recover_files
deriving DecidableEq, Repr

/-- The places at which a run of one of the programs ends with a failure:
wrong argument count, `fopen` of the image, `fread` of the superblock,
`fseek` to the directory, `fread` of a directory entry, `fopen` of an output
file, `malloc` of the block buffer, a block index out of range, `fseek` to a
data block, `fread` of a data block, `fwrite` to the output. -/
inductive ExitPoint where
  | usage
  | open_image
  | read_superblock
  | seek_directory
  | read_direntry
  | open_output
  | allocate
  | block_bounds
  | seek_block
  | read_block
  | write_output
deriving DecidableEq, Repr

/-- The failure classes named by the exit-status convention. -/
inductive FailureClass where
  | usage
  | open
  | read
  | seek
  | allocate
  | bounds
  | write
deriving DecidableEq, Repr

def failure_class : ExitPoint → FailureClass
  | .usage => .usage
  | .open_image => .open
  | .read_superblock => .read
  | .seek_directory => .seek
  | .read_direntry => .read
  | .open_output => .open
  | .allocate => .allocate
  | .block_bounds => .bounds
  | .seek_block => .seek
  | .read_block => .read
  | .write_output => .write

/-- The value of the `return` statement at each failure exit of each
program (`none`: the program has no such exit).  list_information.c lines
19, 24, 36, 51, 61; read_file.c lines 10, 20, 27, 34, 45, 67, 84, 93, 103,
111, 125; recover_files.c lines 28, 36, 44, 58, 92. -/
def exit_status : Tool → ExitPoint → Option Nat
  | .list_information, .usage => some 1
  | .list_information, .open_image => some 2
  | .list_information, .read_superblock => some 3
  | .list_information, .seek_directory => some 4
  | .list_information, .read_direntry => some 5
  | .list_information, _ => none
  | .read_file, .usage => some 1
  | .read_file, .open_image => some 2
  | .read_file, .read_superblock => some 3
  | .read_file, .seek_directory => some 4
  | .read_file, .read_direntry => some 5
  | .read_file, .open_output => some 6
  | .read_file, .allocate => some 7
  | .read_file, .block_bounds => some 8
  | .read_file, .seek_block => some 9
  | .read_file, .read_block => some 10
  | .read_file, .write_output => some 11
  | .recover_files, .usage => some 1
  | .recover_files, .open_image => some 2
  | .recover_files, .read_superblock => some 3
  | .recover_files, .allocate => some 4
  | .recover_files, .open_output => some 5
  | .recover_files, _ => none

/-- Lines 54-143 of recover_files.c with the outcome of `malloc` made
explicit: exit status and recovered files. -/
def recover_files_main (alloc_ok : Bool) (L : Layout) (sb : Superblock) (img : List Nat)
    (buffer0 : List Nat) : Nat × List (List Nat) :=
  if !alloc_ok then (4, []) else (0, recover_files L sb img buffer0)

/-- Lines 57-75 of list_information.c: the loop over the directory, `n`
iterations left, `i` the index of the next entry, `printed` the entries
listed so far.  Returns the exit status of the loop (5 when an entry cannot
be read, 0 when the loop ends) and the entries listed. -/
def list_entries (table : List DirEntry) : Nat → Nat → List DirEntry → Nat × List DirEntry
  | 0, _, printed => (0, printed)
  | n + 1, i, printed =>
      match table.get? i with
      | none => (5, printed)
      | some entry =>
          if entry.filename.getD 0 0 = 0 then list_entries table n (i + 1) printed
          else list_entries table n (i + 1) (printed ++ [entry])

/-- Lines 39-83 of list_information.c, from the point where the superblock
has been read: exit status and the directory entries listed. -/
def list_information (sb : Superblock) (table : List DirEntry) : Nat × List DirEntry :=
  list_entries table sb.total_direntries 0 []

/-- The stream `S` completes no end marker: no two neighbouring bytes of
`S` are FF D9. -/
def no_end_marker (S : List Nat) : Prop :=
  ∀ t, t < S.length → 1 ≤ t → ¬ (S[t - 1]? = some 0xFF ∧ S[t]? = some 0xD9)

instance (S : List Nat) : Decidable (no_end_marker S) := by
  unfold no_end_marker
  infer_instance

/-- Three blocks of 6 bytes: start markers at the front of blocks 1 and 2
and no end marker anywhere. -/
def demoOpenImage : List Nat :=
  List.replicate 64 0 ++
  [0, 1, 2, 3, 0, 0,
   0, 0xFF, 0xD8, 6, 0, 0,
   0, 0xFF, 0xD8, 9, 0, 0]

/-- Superblock of the resume examples: 3 blocks of 11 bytes (8 payload
bytes). -/
def demoResumeSb : Superblock :=
  { fs_type := 0x51, label := [], bytes_per_block := 11, total_blocks := 3,
    available_blocks := 0, total_direntries := 1, available_direntries := 0 }

/-- Block 0 holds FF D8 01 FF D9 and then a second start marker FF D8;
block 1 holds a start marker at payload position 1 and an end marker; block
2 holds no marker. -/
def demoResumeImage : List Nat :=
  List.replicate 64 0 ++
  [0, 0xFF, 0xD8, 1, 0xFF, 0xD9, 0xFF, 0xD8, 7, 0, 0,
   0, 0, 0xFF, 0xD8, 2, 3, 0xFF, 0xD9, 0, 0, 0,
   0, 1, 2, 3, 4, 5, 6, 7, 8, 0, 0]

/-- The image `demoResumeImage` with the markers of block 1 removed. -/
def demoResumeImage2 : List Nat :=
  List.replicate 64 0 ++
  [0, 0xFF, 0xD8, 1, 0xFF, 0xD9, 0xFF, 0xD8, 7, 0, 0,
   0, 0, 1, 1, 2, 3, 1, 1, 0, 0, 0,
   0, 1, 2, 3, 4, 5, 6, 7, 8, 0, 0]

/-! # Theorems -/

/-! ## Formatter -/

theorem mkfs_qfs_sb (L : Layout) (encode : Superblock → List Nat) (img : List Nat)
    (label : Option (List Nat)) :
    (mkfs_qfs L encode img label).sb = mkfs_superblock L (img.length : Int) label := rfl

theorem select_bytes_per_block_pos (S : Int) : 0 < select_bytes_per_block S := by
  unfold select_bytes_per_block
  split_ifs <;> decide

theorem to_uint16_natCast (q : Nat) : to_uint16 (q : Int) = q % 65536 := by
  unfold to_uint16
  omega

theorem compute_total_blocks_of_fits (L : Layout) (S : Nat)
    (h : L.sbSize + 255 * L.deSize ≤ S) :
    compute_total_blocks L (S : Int)
      = ((S - L.sbSize - 255 * L.deSize) / select_bytes_per_block (S : Int)) % 65536 := by
  have hpos := select_bytes_per_block_pos (S : Int)
  have hda : total_data_available L (S : Int) = ((S - L.sbSize - 255 * L.deSize : Nat) : Int) := by
    unfold total_data_available MAX_DIR_ENTRIES
    push_cast
    omega
  unfold compute_total_blocks
  rw [hda, Int.tdiv_eq_ediv (Int.natCast_nonneg _) (Int.natCast_nonneg _)]
  rw [← Int.natCast_div, to_uint16_natCast]

theorem length_pwrite (img : List Nat) (pos : Nat) (bytes : List Nat) :
    (pwrite img pos bytes).length = max img.length (pos + bytes.length) := by
  unfold pwrite
  simp only [List.length_append, List.length_take, List.length_drop, List.length_replicate]
  omega

theorem length_clear_blocks_ge (bytes_per_block : Nat) (n : Nat) :
    ∀ (pos : Nat) (img : List Nat),
    pos + n * bytes_per_block + 1 ≤ (clear_blocks bytes_per_block (n + 1) pos img).length := by
  induction n with
  | zero =>
      intro pos img
      simp only [clear_blocks, length_pwrite, List.length_singleton]
      omega
  | succ n ih =>
      intro pos img
      rw [clear_blocks]
      have h := ih (pos + 1 + (bytes_per_block - 1)) (pwrite img pos [0])
      have e : (n + 1) * bytes_per_block = n * bytes_per_block + bytes_per_block := by
        rw [Nat.add_mul, Nat.one_mul]
      omega

/-- C9: the block size stored by mkfs_qfs is 512 for sizes up to 30 MiB,
1024 for sizes above 30 MiB up to 60 MiB and 2048 above that; it is always
one of the three values and never decreases when the size grows. -/
theorem mkfs_block_size_tiers (L : Layout) (label : Option (List Nat)) :
    (∀ S : Int, S ≤ 30 * 1024 * 1024 →
        (mkfs_superblock L S label).bytes_per_block = 512) ∧
    (∀ S : Int, 30 * 1024 * 1024 < S → S ≤ 60 * 1024 * 1024 →
        (mkfs_superblock L S label).bytes_per_block = 1024) ∧
    (∀ S : Int, 60 * 1024 * 1024 < S →
        (mkfs_superblock L S label).bytes_per_block = 2048) ∧
    (∀ S : Int, (mkfs_superblock L S label).bytes_per_block = 512 ∨
        (mkfs_superblock L S label).bytes_per_block = 1024 ∨
        (mkfs_superblock L S label).bytes_per_block = 2048) ∧
    (∀ S T : Int, S ≤ T →
        (mkfs_superblock L S label).bytes_per_block
          ≤ (mkfs_superblock L T label).bytes_per_block) := by
  simp only [mkfs_superblock, select_bytes_per_block, SIZE_30MB, SIZE_60MB]
  refine ⟨?_, ?_, ?_, ?_, ?_⟩
  · intro S h
    rw [if_pos (by omega)]
  · intro S h1 h2
    rw [if_neg (by omega), if_pos (by omega)]
  · intro S h
    rw [if_neg (by omega), if_neg (by omega)]
  · intro S
    split_ifs <;> simp
  · intro S T h
    split_ifs <;> omega

/-- C3 (amended): for an image of size `S` that holds the metadata, the
stored block count is the quotient `(S - sizeof(superblock) - 255 *
sizeof(direntry)) / bytes_per_block` reduced modulo 65536; it is the quotient
itself whenever the quotient is below 65536, and in particular for a 4 MiB
image, where the block size is 512. -/
theorem mkfs_total_blocks (L : Layout) (label : Option (List Nat)) (S : Nat)
    (h : L.sbSize + 255 * L.deSize ≤ S) :
    (mkfs_superblock L (S : Int) label).total_blocks
        = ((S - L.sbSize - 255 * L.deSize)
            / (mkfs_superblock L (S : Int) label).bytes_per_block) % 65536 ∧
    ((S - L.sbSize - 255 * L.deSize)
          / (mkfs_superblock L (S : Int) label).bytes_per_block < 65536 →
      (mkfs_superblock L (S : Int) label).total_blocks
        = (S - L.sbSize - 255 * L.deSize)
            / (mkfs_superblock L (S : Int) label).bytes_per_block) ∧
    (S = 4 * 1024 * 1024 →
      (mkfs_superblock L (S : Int) label).bytes_per_block = 512 ∧
      (mkfs_superblock L (S : Int) label).total_blocks
        = (4 * 1024 * 1024 - L.sbSize - 255 * L.deSize) / 512) := by
  have key := compute_total_blocks_of_fits L S h
  have e1 : (mkfs_superblock L (S : Int) label).total_blocks
      = compute_total_blocks L (S : Int) := rfl
  have e2 : (mkfs_superblock L (S : Int) label).bytes_per_block
      = select_bytes_per_block (S : Int) := rfl
  rw [e1, e2, key]
  refine ⟨rfl, fun hq => Nat.mod_eq_of_lt hq, ?_⟩
  intro hS
  subst hS
  have hb : select_bytes_per_block ((4 * 1024 * 1024 : Nat) : Int) = 512 := by
    unfold select_bytes_per_block SIZE_30MB
    rw [if_pos (by norm_num)]
  rw [hb]
  refine ⟨rfl, Nat.mod_eq_of_lt ?_⟩
  omega

/-- Witness of C3 (amended): a 4 MiB image under the example layout gets
8176 blocks of 512 bytes. -/
theorem mkfs_total_blocks_witness :
    demoLayout.sbSize + 255 * demoLayout.deSize ≤ 4 * 1024 * 1024 ∧
    (mkfs_superblock demoLayout ((4 * 1024 * 1024 : Nat) : Int) none).bytes_per_block = 512 ∧
    (mkfs_superblock demoLayout ((4 * 1024 * 1024 : Nat) : Int) none).total_blocks
      = (4 * 1024 * 1024 - demoLayout.sbSize - 255 * demoLayout.deSize) / 512 :=
  ⟨by decide, (mkfs_total_blocks demoLayout none (4 * 1024 * 1024) (by decide)).2.2 rfl⟩

/-- C3 as stated fails: a 256 MiB image holds the metadata and the quotient
is 131068, but the stored block count is 131068 - 65536 = 65532. -/
theorem mkfs_total_blocks_narrowed :
    demoLayout.sbSize + 255 * demoLayout.deSize ≤ 268435456 ∧
    (mkfs_superblock demoLayout (268435456 : Int) none).bytes_per_block = 2048 ∧
    (268435456 - demoLayout.sbSize - 255 * demoLayout.deSize) / 2048 = 131068 ∧
    (mkfs_superblock demoLayout (268435456 : Int) none).total_blocks = 65532 := by
  refine ⟨by decide, by decide, by decide, by decide⟩

/-- C4 fails on the code: an empty image, smaller than the 8192 bytes of
metadata of the example layout, is formatted with exit status 0; the
superblock written for it announces 65520 blocks of 512 bytes, and the
status-byte writes lengthen the file to 8192 + 65519 * 512 + 1 bytes or
more. -/
theorem mkfs_accepts_empty_image (encode : Superblock → List Nat) :
    (([] : List Nat).length : Int) < demoLayout.sbSize + 255 * demoLayout.deSize ∧
    total_data_available demoLayout (([] : List Nat).length : Int) = -8192 ∧
    (mkfs_qfs demoLayout encode [] none).status = 0 ∧
    (mkfs_qfs demoLayout encode [] none).sb.total_blocks = 65520 ∧
    (mkfs_qfs demoLayout encode [] none).sb.available_blocks = 65520 ∧
    (mkfs_qfs demoLayout encode [] none).sb.bytes_per_block = 512 ∧
    33553921 ≤ (mkfs_qfs demoLayout encode [] none).image.length := by
  have e1 : (mkfs_superblock demoLayout (([] : List Nat).length : Int) none).total_blocks
      = 65519 + 1 := by decide
  have e2 : (mkfs_superblock demoLayout (([] : List Nat).length : Int) none).bytes_per_block
      = 512 := by decide
  have e3 : demoLayout.sbSize + (List.replicate (demoLayout.deSize * MAX_DIR_ENTRIES) 0).length
      = 8192 := by
    rw [List.length_replicate]
    decide
  have hlen : 33553921 ≤ (mkfs_qfs demoLayout encode [] none).image.length := by
    simp only [mkfs_qfs]
    rw [e1, e2, e3]
    exact le_trans (by norm_num) (length_clear_blocks_ge 512 65519 8192 _)
  refine ⟨by decide, by decide, rfl, ?_, ?_, ?_, hlen⟩ <;> rw [mkfs_qfs_sb] <;> decide

/-! ## Directory scan -/

theorem find_entry_succ (L : Layout) (table : List DirEntry) (fileName : List Nat)
    (n i : Nat) (entry : DirEntry) (h : table[i]? = some entry) :
    find_entry L table fileName (n + 1) i
      = if selects L fileName entry then .ok (some entry)
        else find_entry L table fileName n (i + 1) := by
  have e : find_entry L table fileName (n + 1) i
      = if entry.filename.getD 0 0 = 0 then find_entry L table fileName n (i + 1)
        else if strncmp_eq entry.filename fileName L.fnLen 0 then .ok (some entry)
        else find_entry L table fileName n (i + 1) := by
    simp only [find_entry, List.get?_eq_getElem?, h]
  rw [e]
  unfold selects
  by_cases h0 : entry.filename.getD 0 0 = 0
  · have hd : decide (entry.filename.getD 0 0 ≠ 0) = false := decide_eq_false (not_not.2 h0)
    rw [if_pos h0, hd]
    rfl
  · have hd : decide (entry.filename.getD 0 0 ≠ 0) = true := decide_eq_true h0
    rw [if_neg h0, hd, Bool.true_and]

theorem find_entry_found_iff (L : Layout) (table : List DirEntry) (fileName : List Nat)
    (e : DirEntry) (n : Nat) : ∀ i0 : Nat,
    find_entry L table fileName n i0 = .ok (some e) ↔
      ∃ i, i0 ≤ i ∧ i < i0 + n ∧ table[i]? = some e ∧ selects L fileName e = true ∧
        ∀ j, i0 ≤ j → j < i → ∀ e', table[j]? = some e' → selects L fileName e' = false := by
  induction n with
  | zero =>
      intro i0
      simp only [find_entry]
      constructor
      · intro h
        cases h
      · rintro ⟨i, h1, h2, -⟩
        omega
  | succ n ih =>
      intro i0
      cases hti : table[i0]? with
      | none =>
          have hfe : find_entry L table fileName (n + 1) i0 = .error 5 := by
            simp [find_entry, hti]
          rw [hfe]
          constructor
          · intro h
            cases h
          · rintro ⟨i, h1, h2, h3, -, -⟩
            exfalso
            have hlen : table.length ≤ i0 := by
              by_contra hc
              push_neg at hc
              rw [List.getElem?_eq_getElem hc] at hti
              cases hti
            have : i < table.length := by
              by_contra hc
              push_neg at hc
              rw [List.getElem?_eq_none hc] at h3
              cases h3
            omega
      | some entry =>
          rw [find_entry_succ L table fileName n i0 entry hti]
          by_cases hs : selects L fileName entry = true
          · rw [if_pos hs]
            constructor
            · intro h
              have he : entry = e := by
                injection h with h'
                injection h'
              subst he
              exact ⟨i0, le_refl _, by omega, hti, hs, fun j h1 h2 => by omega⟩
            · rintro ⟨i, h1, h2, h3, h4, h5⟩
              rcases Nat.eq_or_lt_of_le h1 with heq | hlt
              · subst heq
                rw [hti] at h3
                rw [h3]
              · have := h5 i0 (le_refl _) hlt entry hti
                rw [hs] at this
                cases this
          · rw [if_neg hs, ih (i0 + 1)]
            have hs' : selects L fileName entry = false := by
              cases hb : selects L fileName entry
              · rfl
              · exact absurd hb hs
            constructor
            · rintro ⟨i, h1, h2, h3, h4, h5⟩
              refine ⟨i, by omega, by omega, h3, h4, ?_⟩
              intro j hj1 hj2 e' he'
              rcases Nat.eq_or_lt_of_le hj1 with heq | hlt
              · subst heq
                rw [hti] at he'
                injection he' with he'
                subst he'
                exact hs'
              · exact h5 j hlt hj2 e' he'
            · rintro ⟨i, h1, h2, h3, h4, h5⟩
              have hne : i ≠ i0 := by
                rintro rfl
                rw [hti] at h3
                injection h3 with h3
                subst h3
                rw [hs'] at h4
                cases h4
              refine ⟨i, by omega, by omega, h3, h4, ?_⟩
              intro j hj1 hj2 e' he'
              exact h5 j (by omega) hj2 e' he'

theorem find_entry_all_empty (L : Layout) (table : List DirEntry) (fileName : List Nat)
    (hempty : ∀ e ∈ table, e.filename.getD 0 0 = 0) (n : Nat) : ∀ i0 : Nat,
    i0 + n ≤ table.length → find_entry L table fileName n i0 = .ok none := by
  induction n with
  | zero =>
      intro i0 _
      rfl
  | succ n ih =>
      intro i0 hle
      have hlt : i0 < table.length := by omega
      have hti : table[i0]? = some table[i0] := List.getElem?_eq_getElem hlt
      rw [find_entry_succ L table fileName n i0 _ hti]
      have h0 := hempty table[i0] (List.getElem_mem hlt)
      have hs : selects L fileName table[i0] = false := by
        unfold selects
        rw [h0]
        rfl
      rw [hs]
      exact ih (i0 + 1) (by omega)

/-- C6: the directory scan of read_file selects entry `e` exactly when `e`
sits at the lowest table index (below `total_direntries`) whose entry has a
non-zero first filename byte and a matching filename; a selected entry never
has first filename byte 0; and on a table of `total_direntries` or more
entries that all have first filename byte 0 the scan reports not found for
every name. -/
theorem find_entry_lowest_match (L : Layout) (table : List DirEntry) (total_direntries : Nat) :
    (∀ (fileName : List Nat) (e : DirEntry),
      find_entry L table fileName total_direntries 0 = .ok (some e) ↔
        ∃ i, i < total_direntries ∧ table[i]? = some e ∧
          (e.filename.getD 0 0 ≠ 0 ∧ strncmp_eq e.filename fileName L.fnLen 0 = true) ∧
          ∀ j, j < i → ∀ e', table[j]? = some e' →
            ¬ (e'.filename.getD 0 0 ≠ 0 ∧ strncmp_eq e'.filename fileName L.fnLen 0 = true)) ∧
    (∀ (fileName : List Nat) (e : DirEntry),
      find_entry L table fileName total_direntries 0 = .ok (some e) →
        e.filename.getD 0 0 ≠ 0) ∧
    ((∀ e ∈ table, e.filename.getD 0 0 = 0) → total_direntries ≤ table.length →
      ∀ fileName : List Nat,
        find_entry L table fileName total_direntries 0 = .ok none) := by
  have hsel : ∀ (fileName : List Nat) (e : DirEntry), selects L fileName e = true ↔
      (e.filename.getD 0 0 ≠ 0 ∧ strncmp_eq e.filename fileName L.fnLen 0 = true) := by
    intro fileName e
    simp [selects]
  have hsel' : ∀ (fileName : List Nat) (e : DirEntry), selects L fileName e = false ↔
      ¬ (e.filename.getD 0 0 ≠ 0 ∧ strncmp_eq e.filename fileName L.fnLen 0 = true) := by
    intro fileName e
    rw [← hsel, Bool.not_eq_true]
  have main : ∀ (fileName : List Nat) (e : DirEntry),
      find_entry L table fileName total_direntries 0 = .ok (some e) ↔
        ∃ i, i < total_direntries ∧ table[i]? = some e ∧
          (e.filename.getD 0 0 ≠ 0 ∧ strncmp_eq e.filename fileName L.fnLen 0 = true) ∧
          ∀ j, j < i → ∀ e', table[j]? = some e' →
            ¬ (e'.filename.getD 0 0 ≠ 0 ∧
                strncmp_eq e'.filename fileName L.fnLen 0 = true) := by
    intro fileName e
    rw [find_entry_found_iff L table fileName e total_direntries 0]
    constructor
    · rintro ⟨i, -, h2, h3, h4, h5⟩
      refine ⟨i, by omega, h3, (hsel fileName e).1 h4, ?_⟩
      intro j hj e' he'
      exact (hsel' fileName e').1 (h5 j (Nat.zero_le _) hj e' he')
    · rintro ⟨i, h2, h3, h4, h5⟩
      refine ⟨i, Nat.zero_le _, by omega, h3, (hsel fileName e).2 h4, ?_⟩
      intro j _ hj e' he'
      exact (hsel' fileName e').2 (h5 j hj e' he')
  refine ⟨main, ?_, ?_⟩
  · intro fileName e h
    obtain ⟨i, -, -, h4, -⟩ := (main fileName e).1 h
    exact h4.1
  · intro hempty hlen fileName
    exact find_entry_all_empty L table fileName hempty total_direntries 0 (by omega)

/-! ## Chain walk -/

theorem to_uint32_sub_three (block_size : Nat) (h3 : 3 ≤ block_size)
    (h16 : block_size < 65536) : to_uint32 ((block_size : Int) - 3) = block_size - 3 := by
  unfold to_uint32
  omega

theorem chain_walk_zero (img : List Nat) (sb : Superblock) (data_offset fuel cur : Nat)
    (out reads : List Nat) :
    chain_walk img sb data_offset fuel 0 cur out reads = some ⟨0, some out, reads⟩ := by
  cases fuel <;> simp [chain_walk]

theorem chain_walk_invalid (img : List Nat) (sb : Superblock) (data_offset fuel remaining cur : Nat)
    (out reads : List Nat) (hrem : 0 < remaining) (hcur : sb.total_blocks ≤ cur) :
    chain_walk img sb data_offset (fuel + 1) remaining cur out reads
      = some ⟨8, some out, reads⟩ := by
  have h0 : remaining ≠ 0 := by omega
  simp only [chain_walk, if_neg h0, ge_iff_le, if_pos hcur]

theorem chain_walk_short (img : List Nat) (sb : Superblock) (data_offset fuel remaining cur : Nat)
    (out reads : List Nat) (hrem : 0 < remaining) (hcur : cur < sb.total_blocks)
    (hlen : (block_bytes img data_offset sb.bytes_per_block cur).length ≠ sb.bytes_per_block) :
    chain_walk img sb data_offset (fuel + 1) remaining cur out reads
      = some ⟨10, some out, reads ++ [cur]⟩ := by
  have h0 : remaining ≠ 0 := by omega
  have h1 : ¬ sb.total_blocks ≤ cur := by omega
  unfold block_bytes at hlen
  simp only [chain_walk, if_neg h0, ge_iff_le, if_neg h1, ne_eq, hlen, not_false_eq_true,
    if_true]

theorem chain_walk_step (img : List Nat) (sb : Superblock) (data_offset fuel remaining cur : Nat)
    (out reads : List Nat) (hrem : 0 < remaining) (hcur : cur < sb.total_blocks)
    (hlen : (block_bytes img data_offset sb.bytes_per_block cur).length = sb.bytes_per_block) :
    chain_walk img sb data_offset (fuel + 1) remaining cur out reads
      = chain_walk img sb data_offset fuel
          (remaining - min remaining (to_uint32 ((sb.bytes_per_block : Int) - 3)))
          (next_pointer img data_offset sb.bytes_per_block cur)
          (out ++ ((block_bytes img data_offset sb.bytes_per_block cur).drop 1).take
            (min remaining (to_uint32 ((sb.bytes_per_block : Int) - 3))))
          (reads ++ [cur]) := by
  have h0 : remaining ≠ 0 := by omega
  have h1 : ¬ sb.total_blocks ≤ cur := by omega
  have hmin : (if remaining < to_uint32 ((sb.bytes_per_block : Int) - 3) then remaining
      else to_uint32 ((sb.bytes_per_block : Int) - 3))
      = min remaining (to_uint32 ((sb.bytes_per_block : Int) - 3)) := by
    split_ifs <;> omega
  unfold block_bytes at hlen
  simp only [chain_walk, if_neg h0, ge_iff_le, if_neg h1, ne_eq, hlen, not_true_eq_false,
    if_false, hmin, next_pointer, block_bytes]

theorem chain_walk_reads_in_range (img : List Nat) (sb : Superblock) (data_offset : Nat)
    (fuel : Nat) : ∀ (remaining cur : Nat) (out reads : List Nat) (r : ReadResult),
    chain_walk img sb data_offset fuel remaining cur out reads = some r →
    ∀ b ∈ r.reads, b ∈ reads ∨ b < sb.total_blocks := by
  induction fuel with
  | zero =>
      intro remaining cur out reads r h b hb
      by_cases h0 : remaining = 0
      · simp only [chain_walk, if_pos h0, Option.some.injEq] at h
        subst h
        exact Or.inl hb
      · simp only [chain_walk, if_neg h0] at h
        cases h
  | succ fuel ih =>
      intro remaining cur out reads r h b hb
      by_cases h0 : remaining = 0
      · subst h0
        rw [chain_walk_zero] at h
        injection h with h
        subst h
        exact Or.inl hb
      · have hrem : 0 < remaining := by omega
        by_cases hcur : sb.total_blocks ≤ cur
        · rw [chain_walk_invalid img sb data_offset fuel remaining cur out reads hrem hcur] at h
          injection h with h
          subst h
          exact Or.inl hb
        · have hcur' : cur < sb.total_blocks := by omega
          by_cases hlen : (block_bytes img data_offset sb.bytes_per_block cur).length
              = sb.bytes_per_block
          · rw [chain_walk_step img sb data_offset fuel remaining cur out reads hrem hcur'
              hlen] at h
            rcases ih _ _ _ _ r h b hb with hin | hlt
            · rcases List.mem_append.1 hin with h1 | h1
              · exact Or.inl h1
              · rw [List.mem_singleton] at h1
                subst h1
                exact Or.inr hcur'
            · exact Or.inr hlt
          · rw [chain_walk_short img sb data_offset fuel remaining cur out reads hrem hcur'
              hlen] at h
            injection h with h
            subst h
            rcases List.mem_append.1 hb with h1 | h1
            · exact Or.inl h1
            · rw [List.mem_singleton] at h1
              subst h1
              exact Or.inr hcur'

/-- C5: every data block read_file reads has an index below `total_blocks`,
in the loop alone and in the whole run; and when bytes remain and the current
block index is `total_blocks` or more, the next iteration ends the run with
status 8, with the output and the list of blocks read left as they were. -/
theorem read_file_bounds (L : Layout) (sb : Superblock) (img : List Nat) :
    (∀ (data_offset fuel remaining cur : Nat) (r : ReadResult),
      chain_walk img sb data_offset fuel remaining cur [] [] = some r →
        ∀ b ∈ r.reads, b < sb.total_blocks) ∧
    (∀ (env : ReadEnv) (table : List DirEntry) (fileName : List Nat) (fuel : Nat)
        (r : ReadResult),
      read_file L env sb table img fileName fuel = some r →
        ∀ b ∈ r.reads, b < sb.total_blocks) ∧
    (∀ (data_offset fuel remaining cur : Nat) (out reads : List Nat),
      0 < remaining → sb.total_blocks ≤ cur →
        chain_walk img sb data_offset (fuel + 1) remaining cur out reads
          = some ⟨8, some out, reads⟩) := by
  have hloop : ∀ (data_offset fuel remaining cur : Nat) (r : ReadResult),
      chain_walk img sb data_offset fuel remaining cur [] [] = some r →
        ∀ b ∈ r.reads, b < sb.total_blocks := by
    intro data_offset fuel remaining cur r h b hb
    rcases chain_walk_reads_in_range img sb data_offset fuel remaining cur [] [] r h b hb
      with h1 | h1
    · cases h1
    · exact h1
  refine ⟨hloop, ?_, ?_⟩
  · intro env table fileName fuel r h b hb
    unfold read_file at h
    split at h
    · injection h with h
      subst h
      cases hb
    · injection h with h
      subst h
      cases hb
    · split_ifs at h
      · injection h with h
        subst h
        cases hb
      · injection h with h
        subst h
        cases hb
      · exact hloop _ _ _ _ r h b hb
  · intro data_offset fuel remaining cur out reads hrem hcur
    exact chain_walk_invalid img sb data_offset fuel remaining cur out reads hrem hcur

theorem read_file_found (L : Layout) (env : ReadEnv) (sb : Superblock) (table : List DirEntry)
    (img fileName : List Nat) (fuel : Nat) (e : DirEntry)
    (hfind : find_entry L table fileName sb.total_direntries 0 = .ok (some e))
    (hout : env.out_opens = true) (halloc : env.alloc_ok = true) :
    read_file L env sb table img fileName fuel
      = chain_walk img sb (data_region_offset L sb) fuel e.file_size e.starting_block [] [] := by
  unfold read_file
  rw [hfind]
  simp [hout, halloc]

theorem chain_walk_total (img : List Nat) (sb : Superblock) (data_offset : Nat)
    (h3 : 3 < sb.bytes_per_block) (h16 : sb.bytes_per_block < 65536) (fuel : Nat) :
    ∀ (remaining cur : Nat) (out reads : List Nat), remaining ≤ fuel →
    ∃ r, chain_walk img sb data_offset fuel remaining cur out reads = some r := by
  have hP := to_uint32_sub_three sb.bytes_per_block (by omega) h16
  induction fuel with
  | zero =>
      intro remaining cur out reads hle
      have h0 : remaining = 0 := by omega
      subst h0
      exact ⟨_, chain_walk_zero img sb data_offset 0 cur out reads⟩
  | succ fuel ih =>
      intro remaining cur out reads hle
      by_cases h0 : remaining = 0
      · subst h0
        exact ⟨_, chain_walk_zero img sb data_offset _ cur out reads⟩
      · have hrem : 0 < remaining := by omega
        by_cases hcur : sb.total_blocks ≤ cur
        · exact ⟨_, chain_walk_invalid img sb data_offset fuel remaining cur out reads hrem hcur⟩
        · have hcur' : cur < sb.total_blocks := by omega
          by_cases hlen : (block_bytes img data_offset sb.bytes_per_block cur).length
              = sb.bytes_per_block
          · rw [chain_walk_step img sb data_offset fuel remaining cur out reads hrem hcur' hlen]
            apply ih
            rw [hP]
            omega
          · exact ⟨_, chain_walk_short img sb data_offset fuel remaining cur out reads hrem
              hcur' hlen⟩

theorem payload_region_eq (img : List Nat) (data_offset block_size idx : Nat) :
    payload_region img data_offset block_size idx
      = ((block_bytes img data_offset block_size idx).drop 1).take (block_size - 3) := rfl

theorem payload_region_length (img : List Nat) (data_offset block_size idx : Nat)
    (h3 : 3 ≤ block_size)
    (hlen : (block_bytes img data_offset block_size idx).length = block_size) :
    (payload_region img data_offset block_size idx).length = block_size - 3 := by
  rw [payload_region_eq, List.length_take, List.length_drop, hlen]
  omega

theorem chain_payload_cons (img : List Nat) (data_offset block_size b : Nat) (bs : List Nat) :
    chain_payload img data_offset block_size (b :: bs)
      = payload_region img data_offset block_size b
        ++ chain_payload img data_offset block_size bs := by
  simp [chain_payload]

/-- Number of blocks a file of `remaining` bytes occupies when each block
carries `block_size - 3` bytes. -/
theorem blocks_needed_step (remaining P : Nat) (hP : 0 < P) (hrem : 0 < remaining) :
    (remaining + P - 1) / P = (remaining - min remaining P + P - 1) / P + 1 := by
  by_cases h : remaining < P
  · have h1 : min remaining P = remaining := Nat.min_eq_left (le_of_lt h)
    rw [h1, Nat.sub_self, Nat.zero_add]
    have h2 : (P - 1) / P = 0 := Nat.div_eq_of_lt (by omega)
    rw [h2]
    have h3 : remaining + P - 1 = (remaining - 1) + P := by omega
    rw [h3, Nat.add_div_right _ hP, Nat.div_eq_of_lt (by omega)]
  · have h1 : min remaining P = P := Nat.min_eq_right (by omega)
    rw [h1]
    have h3 : remaining + P - 1 = (remaining - P + P - 1) + P := by omega
    rw [h3, Nat.add_div_right _ hP]

theorem chain_walk_success (img : List Nat) (sb : Superblock) (data_offset : Nat)
    (h3 : 3 < sb.bytes_per_block) (h16 : sb.bytes_per_block < 65536) (fuel : Nat) :
    ∀ (remaining cur : Nat) (out reads : List Nat) (r : ReadResult),
    chain_walk img sb data_offset fuel remaining cur out reads = some r → r.status = 0 →
      r.reads = reads ++ chain_blocks img data_offset sb.bytes_per_block
        ((remaining + (sb.bytes_per_block - 3) - 1) / (sb.bytes_per_block - 3)) cur ∧
      r.output = some (out ++ (chain_payload img data_offset sb.bytes_per_block
        (chain_blocks img data_offset sb.bytes_per_block
          ((remaining + (sb.bytes_per_block - 3) - 1) / (sb.bytes_per_block - 3)) cur)).take
            remaining) ∧
      ∀ o, r.output = some o → o.length = out.length + remaining := by
  have hP := to_uint32_sub_three sb.bytes_per_block (by omega) h16
  have hPpos : 0 < sb.bytes_per_block - 3 := by omega
  have hk0 : (0 + (sb.bytes_per_block - 3) - 1) / (sb.bytes_per_block - 3) = 0 := by
    rw [Nat.zero_add]
    exact Nat.div_eq_of_lt (by omega)
  have hzero : ∀ (cur : Nat) (out reads : List Nat) (r : ReadResult),
      (some (⟨0, some out, reads⟩ : ReadResult)) = some r →
      r.reads = reads ++ chain_blocks img data_offset sb.bytes_per_block
        ((0 + (sb.bytes_per_block - 3) - 1) / (sb.bytes_per_block - 3)) cur ∧
      r.output = some (out ++ (chain_payload img data_offset sb.bytes_per_block
        (chain_blocks img data_offset sb.bytes_per_block
          ((0 + (sb.bytes_per_block - 3) - 1) / (sb.bytes_per_block - 3)) cur)).take 0) ∧
      ∀ o, r.output = some o → o.length = out.length + 0 := by
    intro cur out reads r h
    injection h with h
    subst h
    rw [hk0]
    refine ⟨by simp [chain_blocks], by simp, ?_⟩
    intro o ho
    injection ho with ho
    subst ho
    rfl
  induction fuel with
  | zero =>
      intro remaining cur out reads r h hs
      by_cases h0 : remaining = 0
      · subst h0
        rw [chain_walk_zero] at h
        exact hzero cur out reads r h
      · simp only [chain_walk, if_neg h0] at h
        cases h
  | succ fuel ih =>
      intro remaining cur out reads r h hs
      by_cases h0 : remaining = 0
      · subst h0
        rw [chain_walk_zero] at h
        exact hzero cur out reads r h
      · have hrem : 0 < remaining := by omega
        by_cases hcur : sb.total_blocks ≤ cur
        · rw [chain_walk_invalid img sb data_offset fuel remaining cur out reads hrem hcur] at h
          injection h with h
          subst h
          cases hs
        · have hcur' : cur < sb.total_blocks := by omega
          by_cases hlen : (block_bytes img data_offset sb.bytes_per_block cur).length
              = sb.bytes_per_block
          · rw [chain_walk_step img sb data_offset fuel remaining cur out reads hrem hcur'
              hlen, hP] at h
            obtain ⟨ih1, ih2, ih3⟩ := ih _ _ _ _ r h hs
            rw [blocks_needed_step remaining (sb.bytes_per_block - 3) hPpos hrem]
            have hpl := payload_region_length img data_offset sb.bytes_per_block cur
              (by omega) hlen
            have hA : ((block_bytes img data_offset sb.bytes_per_block cur).drop 1).take
                (min remaining (sb.bytes_per_block - 3))
                = (payload_region img data_offset sb.bytes_per_block cur).take remaining := by
              rw [payload_region_eq, List.take_take]
            have hsub : remaining - (payload_region img data_offset sb.bytes_per_block
                cur).length = remaining - min remaining (sb.bytes_per_block - 3) := by
              rw [hpl]
              omega
            refine ⟨?_, ?_, ?_⟩
            · rw [ih1]
              simp [chain_blocks]
            · rw [ih2, chain_blocks, chain_payload_cons, List.take_append_eq_append_take,
                hA, hsub, List.append_assoc]
            · intro o ho
              rw [ih3 o ho, List.length_append, List.length_take, List.length_drop, hlen]
              omega
          · rw [chain_walk_short img sb data_offset fuel remaining cur out reads hrem hcur'
              hlen] at h
            injection h with h
            subst h
            cases hs

theorem chain_walk_laid_out (img : List Nat) (sb : Superblock) (data_offset : Nat)
    (h3 : 3 < sb.bytes_per_block) (h16 : sb.bytes_per_block < 65536) (blocks : List Nat) :
    ∀ (content : List Nat) (fuel cur : Nat) (out reads : List Nat),
    laid_out img sb data_offset blocks content = true →
    (∀ b, blocks.head? = some b → cur = b) →
    content.length ≤ fuel →
    chain_walk img sb data_offset fuel content.length cur out reads
      = some ⟨0, some (out ++ content), reads ++ blocks⟩ := by
  have hP := to_uint32_sub_three sb.bytes_per_block (by omega) h16
  induction blocks with
  | nil =>
      intro content fuel cur out reads hl _ _
      simp only [laid_out, List.isEmpty_iff] at hl
      subst hl
      simp [chain_walk_zero]
  | cons b rest ih =>
      intro content fuel cur out reads hl hhead hfuel
      have hcur : cur = b := hhead b rfl
      subst hcur
      cases rest with
      | nil =>
          simp only [laid_out, Bool.and_eq_true, decide_eq_true_eq] at hl
          obtain ⟨⟨⟨⟨hb, hlen⟩, hpos⟩, hle⟩, hpay⟩ := hl
          obtain ⟨fuel', rfl⟩ : ∃ f, fuel = f + 1 := ⟨fuel - 1, by omega⟩
          rw [chain_walk_step img sb data_offset fuel' content.length cur out reads hpos hb
            hlen, hP]
          have hmin : min content.length (sb.bytes_per_block - 3) = content.length :=
            Nat.min_eq_left hle
          rw [hmin, Nat.sub_self, chain_walk_zero]
          rw [payload_region_eq, List.take_take, hmin] at hpay
          rw [hpay]
      | cons b' rest' =>
          simp only [laid_out, Bool.and_eq_true, decide_eq_true_eq] at hl
          obtain ⟨⟨⟨⟨⟨hb, hlen⟩, hlt⟩, hpay⟩, hnext⟩, hrest⟩ := hl
          obtain ⟨fuel', rfl⟩ : ∃ f, fuel = f + 1 := ⟨fuel - 1, by omega⟩
          have hpos : 0 < content.length := by omega
          rw [chain_walk_step img sb data_offset fuel' content.length cur out reads hpos hb
            hlen, hP]
          have hmin : min content.length (sb.bytes_per_block - 3) = sb.bytes_per_block - 3 :=
            Nat.min_eq_right (le_of_lt hlt)
          rw [hmin, ← payload_region_eq, hpay, hnext]
          have hdl : content.length - (sb.bytes_per_block - 3)
              = (content.drop (sb.bytes_per_block - 3)).length := by
            rw [List.length_drop]
          rw [hdl, ih (content.drop (sb.bytes_per_block - 3)) fuel' b'
            (out ++ content.take (sb.bytes_per_block - 3)) (reads ++ [cur]) hrest
            (fun b hb' => by simpa using hb')
            (by rw [List.length_drop]; omega)]
          simp

/-- C1: with a block size above 3 (and within 16 bits) the chain walk of
read_file always ends within `file_size` iterations; when it ends with
status 0 the blocks it read are the chain from `starting_block` along the
next pointers, and the output is the first `file_size` bytes of the
concatenated payload regions of those blocks, exactly `file_size` bytes
long.  In particular, when a writer has laid `content` out along a chain of
in-range blocks, the walk ends with status 0 and outputs `content`, whatever
the number of blocks (none for empty content). -/
theorem read_file_chain_result (img : List Nat) (sb : Superblock)
    (data_offset file_size starting_block fuel : Nat)
    (h3 : 3 < sb.bytes_per_block) (h16 : sb.bytes_per_block < 65536)
    (hfuel : file_size ≤ fuel) :
    (∃ r, chain_walk img sb data_offset fuel file_size starting_block [] [] = some r ∧
      (r.status = 0 →
        r.reads = chain_blocks img data_offset sb.bytes_per_block
          ((file_size + (sb.bytes_per_block - 3) - 1) / (sb.bytes_per_block - 3))
          starting_block ∧
        r.output = some ((chain_payload img data_offset sb.bytes_per_block r.reads).take
          file_size) ∧
        ∀ o, r.output = some o → o.length = file_size)) ∧
    (∀ blocks content : List Nat, content.length = file_size →
      laid_out img sb data_offset blocks content = true →
      (∀ b, blocks.head? = some b → starting_block = b) →
      chain_walk img sb data_offset fuel file_size starting_block [] []
        = some ⟨0, some content, blocks⟩) := by
  constructor
  · obtain ⟨r, hr⟩ := chain_walk_total img sb data_offset h3 h16 fuel file_size
      starting_block [] [] hfuel
    refine ⟨r, hr, ?_⟩
    intro hs
    obtain ⟨h1, h2, h4⟩ := chain_walk_success img sb data_offset h3 h16 fuel file_size
      starting_block [] [] r hr hs
    rw [List.nil_append] at h1 h2
    refine ⟨h1, ?_, ?_⟩
    · rw [h2, h1]
    · intro o ho
      rw [h4 o ho]
      simp
  · intro blocks content hlen hl hhead
    subst hlen
    have := chain_walk_laid_out img sb data_offset h3 h16 blocks content fuel
      starting_block [] [] hl hhead hfuel
    simpa using this

/-- Witness of C1 on `demoChainImage`: a 5-byte file laid out over blocks 0
and 2, a 2-byte file in block 1 and an empty file are extracted exactly. -/
theorem read_file_chain_result_witness :
    chain_walk demoChainImage demoChainSb 2 5 5 0 [] []
        = some ⟨0, some [10, 11, 12, 13, 14], [0, 2]⟩ ∧
    chain_walk demoChainImage demoChainSb 2 2 2 1 [] []
        = some ⟨0, some [20, 21], [1]⟩ ∧
    chain_walk demoChainImage demoChainSb 2 0 0 9 [] []
        = some ⟨0, some [], []⟩ :=
  ⟨(read_file_chain_result demoChainImage demoChainSb 2 5 0 5 (by decide) (by decide)
      (by decide)).2 [0, 2] [10, 11, 12, 13, 14] rfl (by decide) (by decide),
   (read_file_chain_result demoChainImage demoChainSb 2 2 1 2 (by decide) (by decide)
      (by decide)).2 [1] [20, 21] rfl (by decide) (by decide),
   (read_file_chain_result demoChainImage demoChainSb 2 0 9 0 (by decide) (by decide)
      (by decide)).2 [] [] rfl (by decide) (by decide)⟩

/-! ## Carver: dependence on the payload only -/

theorem getD_fread_into (buffer img : List Nat) (off n k : Nat) (hk : k < n) :
    (fread_into buffer (file_bytes img off n)).getD k 0
      = (img[off + k]?).getD (buffer.getD k 0) := by
  unfold fread_into file_bytes
  rw [List.getD_eq_getElem?_getD, List.getD_eq_getElem?_getD, List.getElem?_append]
  have hlen : ((img.drop off).take n).length = min n (img.length - off) := by
    rw [List.length_take, List.length_drop]
  by_cases hlt : k < ((img.drop off).take n).length
  · rw [if_pos hlt, List.getElem?_take, if_pos hk, List.getElem?_drop]
    have h1 : off + k < img.length := by
      rw [hlen] at hlt
      omega
    rw [List.getElem?_eq_getElem h1]
    rfl
  · rw [if_neg hlt, List.getElem?_drop]
    have h1 : img.length ≤ off + k := by
      rw [hlen] at hlt
      omega
    rw [List.getElem?_eq_none h1]
    have h2 : ((img.drop off).take n).length + (k - ((img.drop off).take n).length) = k := by
      omega
    rw [h2]
    rfl

theorem emit_bytes_congr (buffer1 buffer2 : List Nat) (n : Nat) :
    ∀ (j : Nat) (s : EmitState),
    (∀ k, j ≤ k → k < j + n → buffer1.getD (1 + k) 0 = buffer2.getD (1 + k) 0) →
    emit_bytes buffer1 n j s = emit_bytes buffer2 n j s := by
  induction n with
  | zero =>
      intro j s _
      rfl
  | succ n ih =>
      intro j s h
      have hj := h j (le_refl _) (by omega)
      simp only [emit_bytes, hj]
      rw [ih (j + 1) _ (fun k hk1 hk2 => h k (by omega) (by omega))]

theorem find_start_congr (buffer1 buffer2 : List Nat) (n : Nat) :
    ∀ (i : Nat),
    (∀ k, n ≠ 0 → i ≤ k → k ≤ i + n → buffer1.getD (1 + k) 0 = buffer2.getD (1 + k) 0) →
    find_start buffer1 n i = find_start buffer2 n i := by
  induction n with
  | zero =>
      intro i _
      rfl
  | succ n ih =>
      intro i h
      have h1 := h i (by omega) (le_refl _) (by omega)
      have h2 := h (i + 1) (by omega) (by omega) (by omega)
      have h2' : buffer1.getD (1 + i + 1) 0 = buffer2.getD (1 + i + 1) 0 := by
        rw [show 1 + i + 1 = 1 + (i + 1) by omega]
        exact h2
      simp only [find_start, h1, h2']
      rw [ih (i + 1) (fun k _ hk1 hk2 => h k (by omega) (by omega) (by omega))]

theorem emit_blocks_congr (img1 img2 : List Nat)
    (block_size total_blocks data_offset payload_len i : Nat)
    (R : List Nat → List Nat → Prop)
    (hread : ∀ c, c < total_blocks → ∀ b1 b2 : List Nat, R b1 b2 →
      PayloadEq payload_len
        (fread_into b1 (file_bytes img1 (data_offset + c * block_size) block_size))
        (fread_into b2 (file_bytes img2 (data_offset + c * block_size) block_size)) ∧
      R (fread_into b1 (file_bytes img1 (data_offset + c * block_size) block_size))
        (fread_into b2 (file_bytes img2 (data_offset + c * block_size) block_size)))
    (n : Nat) : ∀ (cur b : Nat) (b1 b2 : List Nat) (s : EmitState),
    cur + n ≤ total_blocks → PayloadEq payload_len b1 b2 → R b1 b2 →
    (emit_blocks img1 block_size data_offset payload_len i n cur b b1 s).1
        = (emit_blocks img2 block_size data_offset payload_len i n cur b b2 s).1 ∧
    (emit_blocks img1 block_size data_offset payload_len i n cur b b1 s).2.2
        = (emit_blocks img2 block_size data_offset payload_len i n cur b b2 s).2.2 ∧
    PayloadEq payload_len
      (emit_blocks img1 block_size data_offset payload_len i n cur b b1 s).2.1
      (emit_blocks img2 block_size data_offset payload_len i n cur b b2 s).2.1 ∧
    R (emit_blocks img1 block_size data_offset payload_len i n cur b b1 s).2.1
      (emit_blocks img2 block_size data_offset payload_len i n cur b b2 s).2.1 := by
  induction n with
  | zero =>
      intro cur b b1 b2 s _ hp hr
      exact ⟨rfl, rfl, hp, hr⟩
  | succ n ih =>
      intro cur b b1 b2 s hle hp hr
      by_cases hf : s.found_end = true
      · have e1 : emit_blocks img1 block_size data_offset payload_len i (n + 1) cur b b1 s
            = (s, b1, b) := by
          simp only [emit_blocks, hf, if_true]
        have e2 : emit_blocks img2 block_size data_offset payload_len i (n + 1) cur b b2 s
            = (s, b2, b) := by
          simp only [emit_blocks, hf, if_true]
        rw [e1, e2]
        exact ⟨rfl, rfl, hp, hr⟩
      · have hcur : cur < total_blocks := by omega
        simp only [emit_blocks, hf, Bool.false_eq_true, if_false]
        by_cases hcb : cur = b
        · subst hcb
          simp only [ne_eq, not_true_eq_false, if_false, if_true]
          have he : emit_bytes b1 (payload_len - i) i s = emit_bytes b2 (payload_len - i) i s :=
            emit_bytes_congr b1 b2 _ i s (fun k hk1 hk2 => hp k (by omega))
          rw [he]
          exact ih (cur + 1) _ b1 b2 _ (by omega) hp hr
        · obtain ⟨hp', hr'⟩ := hread cur hcur b1 b2 hr
          simp only [ne_eq, hcb, not_false_eq_true, if_true, if_false]
          have he : emit_bytes
              (fread_into b1 (file_bytes img1 (data_offset + cur * block_size) block_size))
              (payload_len - 0) 0 s
              = emit_bytes
              (fread_into b2 (file_bytes img2 (data_offset + cur * block_size) block_size))
              (payload_len - 0) 0 s :=
            emit_bytes_congr _ _ _ 0 s (fun k _ hk2 => hp' k (by omega))
          rw [he]
          exact ih (cur + 1) _ _ _ _ (by omega) hp' hr'

theorem scan_blocks_congr (img1 img2 : List Nat)
    (block_size total_blocks data_offset payload_len : Nat)
    (R : List Nat → List Nat → Prop)
    (hread : ∀ c, c < total_blocks → ∀ b1 b2 : List Nat, R b1 b2 →
      PayloadEq payload_len
        (fread_into b1 (file_bytes img1 (data_offset + c * block_size) block_size))
        (fread_into b2 (file_bytes img2 (data_offset + c * block_size) block_size)) ∧
      R (fread_into b1 (file_bytes img1 (data_offset + c * block_size) block_size))
        (fread_into b2 (file_bytes img2 (data_offset + c * block_size) block_size)))
    (fuel : Nat) : ∀ (b : Nat) (b1 b2 : List Nat) (outs : List (List Nat)), R b1 b2 →
    scan_blocks img1 block_size total_blocks data_offset payload_len fuel b b1 outs
      = scan_blocks img2 block_size total_blocks data_offset payload_len fuel b b2 outs := by
  induction fuel with
  | zero =>
      intro b b1 b2 outs _
      rfl
  | succ fuel ih =>
      intro b b1 b2 outs hr
      by_cases hb : total_blocks ≤ b
      · simp only [scan_blocks, ge_iff_le, hb, if_true]
      · have hb' : b < total_blocks := by omega
        obtain ⟨hp', hr'⟩ := hread b hb' b1 b2 hr
        have hfs := find_start_congr _ _ (payload_len - 1) 0
          (fun k hn _ hk2 => hp' k (by omega))
        simp only [scan_blocks, ge_iff_le, hb, if_false]
        rw [hfs]
        cases hfind : find_start
            (fread_into b2 (file_bytes img2 (data_offset + b * block_size) block_size))
            (payload_len - 1) 0 with
        | none =>
            exact ih (b + 1) _ _ outs hr'
        | some i =>
            obtain ⟨e1, e2, e3, e4⟩ := emit_blocks_congr img1 img2 block_size total_blocks
              data_offset payload_len i R hread (total_blocks - b) b b _ _
              ⟨[], 0, false, false⟩ (by omega) hp' hr'
            simp only []
            rw [e1, e2]
            exact ih _ _ _ _ e4

/-- C10: the outputs of recover_files depend on the payload bytes of blocks
`0 .. total_blocks - 1` only.  When two images with the same superblock both
hold every payload byte of every block and agree on them, the recovered
files are the same, in number, content and order, whatever the two runs find
in their freshly allocated buffers (so two runs on one image agree); the
images may differ in every other byte.  When payload bytes may be missing
(truncated images) the same holds for images that agree on which payload
bytes exist and on their values, for runs that start from the same buffer
content. -/
theorem recover_files_payload_only (L : Layout) (sb : Superblock) (img1 img2 : List Nat)
    (h3 : 3 ≤ sb.bytes_per_block) (h16 : sb.bytes_per_block < 65536) :
    ((∀ b, b < sb.total_blocks → ∀ j, j < sb.bytes_per_block - 3 →
        ∃ v, img1[data_region_offset L sb + b * sb.bytes_per_block + (1 + j)]? = some v ∧
             img2[data_region_offset L sb + b * sb.bytes_per_block + (1 + j)]? = some v) →
      ∀ buffer1 buffer2 : List Nat,
        recover_files L sb img1 buffer1 = recover_files L sb img2 buffer2) ∧
    ((∀ b, b < sb.total_blocks → ∀ j, j < sb.bytes_per_block - 3 →
        img1[data_region_offset L sb + b * sb.bytes_per_block + (1 + j)]?
          = img2[data_region_offset L sb + b * sb.bytes_per_block + (1 + j)]?) →
      ∀ buffer0 : List Nat,
        recover_files L sb img1 buffer0 = recover_files L sb img2 buffer0) := by
  have hP := to_uint32_sub_three sb.bytes_per_block h3 h16
  constructor
  · intro hpay buffer1 buffer2
    unfold recover_files
    simp only [hP]
    apply scan_blocks_congr img1 img2 sb.bytes_per_block sb.total_blocks
      (data_region_offset L sb) (sb.bytes_per_block - 3) (fun _ _ => True)
    · intro c hc b1 b2 _
      refine ⟨?_, trivial⟩
      intro j hj
      obtain ⟨v, hv1, hv2⟩ := hpay c hc j hj
      rw [getD_fread_into _ _ _ _ _ (by omega), getD_fread_into _ _ _ _ _ (by omega), hv1, hv2]
      rfl
    · trivial
  · intro hpay buffer0
    unfold recover_files
    simp only [hP]
    apply scan_blocks_congr img1 img2 sb.bytes_per_block sb.total_blocks
      (data_region_offset L sb) (sb.bytes_per_block - 3) (PayloadEq (sb.bytes_per_block - 3))
    · intro c hc b1 b2 hb
      have hpe : PayloadEq (sb.bytes_per_block - 3)
          (fread_into b1 (file_bytes img1 (data_region_offset L sb + c * sb.bytes_per_block)
            sb.bytes_per_block))
          (fread_into b2 (file_bytes img2 (data_region_offset L sb + c * sb.bytes_per_block)
            sb.bytes_per_block)) := by
        intro j hj
        rw [getD_fread_into _ _ _ _ _ (by omega), getD_fread_into _ _ _ _ _ (by omega),
          hpay c hc j hj, hb j hj]
      exact ⟨hpe, hpe⟩
    · intro j _
      rfl

/-! ## Carver: the emission loops as a scan of the payload stream -/

theorem emit_list_append (l1 l2 : List Nat) : ∀ s : EmitState, s.found_end = false →
    emit_list (l1 ++ l2) s
      = if (emit_list l1 s).found_end then emit_list l1 s
        else emit_list l2 (emit_list l1 s) := by
  induction l1 with
  | nil =>
      intro s hs
      simp [emit_list, hs]
  | cons x l1 ih =>
      intro s hs
      by_cases he : (s.has_prev && is_jpg_end s.prev x) = true
      · simp [emit_list, he]
      · simp only [List.cons_append, emit_list, he, Bool.false_eq_true, if_false]
        exact ih _ hs

theorem emit_bytes_eq_emit_list (buffer : List Nat) (n : Nat) : ∀ (j : Nat) (s : EmitState),
    1 + j + n ≤ buffer.length →
    emit_bytes buffer n j s = emit_list ((buffer.drop (1 + j)).take n) s := by
  induction n with
  | zero =>
      intro j s _
      simp [emit_bytes, emit_list]
  | succ n ih =>
      intro j s hlen
      have hlt : 1 + j < buffer.length := by omega
      have hd : buffer.drop (1 + j) = buffer[1 + j] :: buffer.drop (1 + j + 1) :=
        List.drop_eq_getElem_cons hlt
      have hg : buffer.getD (1 + j) 0 = buffer[1 + j] := by
        rw [List.getD_eq_getElem?_getD, List.getElem?_eq_getElem hlt]
        rfl
      rw [hd, List.take_succ_cons]
      simp only [emit_bytes, emit_list, hg]
      rw [ih (j + 1) _ (by omega), show 1 + (j + 1) = 1 + j + 1 by omega]

theorem emit_list_first_end_prev (S : List Nat) : ∀ (s : EmitState) (t : Nat),
    s.has_prev = true →
    (s.prev :: S)[t]? = some 0xFF → S[t]? = some 0xD9 →
    (∀ t', t' < t → ¬ ((s.prev :: S)[t']? = some 0xFF ∧ S[t']? = some 0xD9)) →
    (emit_list S s).out = s.out ++ S.take (t + 1) ∧ (emit_list S s).found_end = true := by
  induction S with
  | nil =>
      intro s t _ _ h2 _
      cases h2
  | cons x S ih =>
      intro s t hp h1 h2 hfirst
      cases t with
      | zero =>
          simp only [List.getElem?_cons_zero, Option.some.injEq] at h1 h2
          have he : (s.has_prev && is_jpg_end s.prev x) = true := by
            rw [hp, h1, h2]
            rfl
          simp [emit_list, he]
      | succ t =>
          have hne : ¬ (s.prev = 0xFF ∧ x = 0xD9) := by
            intro hc
            apply hfirst 0 (by omega)
            simp [hc.1, hc.2]
          have he : (s.has_prev && is_jpg_end s.prev x) = false := by
            rw [hp, Bool.true_and]
            unfold is_jpg_end
            by_cases ha : s.prev = 0xFF
            · have hb : x ≠ 0xD9 := fun hb => hne ⟨ha, hb⟩
              simp [ha, hb]
            · simp [ha]
          simp only [emit_list, he, Bool.false_eq_true, if_false]
          have h1' : (x :: S)[t]? = some 0xFF := by
            simpa using h1
          have h2' : S[t]? = some 0xD9 := by
            simpa using h2
          obtain ⟨r1, r2⟩ := ih ⟨s.out ++ [x], x, true, s.found_end⟩ t rfl h1' h2'
            (fun t' ht' hc => hfirst (t' + 1) (by omega) (by simpa using hc))
          refine ⟨?_, r2⟩
          rw [r1]
          simp

theorem emit_list_first_end (S : List Nat) (t : Nat) (h : first_end_at S t) :
    (emit_list S ⟨[], 0, false, false⟩).out = S.take (t + 1) ∧
    (emit_list S ⟨[], 0, false, false⟩).found_end = true := by
  obtain ⟨ht, h1, h2, hfirst⟩ := h
  cases S with
  | nil => cases h2
  | cons x S =>
      obtain ⟨t0, rfl⟩ : ∃ t0, t = t0 + 1 := ⟨t - 1, by omega⟩
      have he : ((false : Bool) && is_jpg_end 0 x) = false := rfl
      simp only [emit_list, he, Bool.false_eq_true, if_false]
      have h1' : (x :: S)[t0]? = some 0xFF := by
        simpa using h1
      have h2' : S[t0]? = some 0xD9 := by
        simpa using h2
      obtain ⟨r1, r2⟩ := emit_list_first_end_prev S ⟨[] ++ [x], x, true, false⟩ t0 rfl h1' h2'
        (fun t' ht' hc => hfirst (t' + 1) (by omega) (by omega) (by simpa using hc))
      refine ⟨?_, r2⟩
      rw [r1]
      simp

/-! ## Carver: blocks of an image that holds all its blocks -/

theorem block_end_le (data_offset block_size total_blocks c len : Nat)
    (hwf : data_offset + total_blocks * block_size ≤ len) (hc : c < total_blocks) :
    data_offset + c * block_size + block_size ≤ len := by
  have h : (c + 1) * block_size ≤ total_blocks * block_size := Nat.mul_le_mul_right _ hc
  rw [Nat.add_mul, Nat.one_mul] at h
  omega

theorem block_bytes_length (img : List Nat) (data_offset block_size total_blocks c : Nat)
    (hwf : data_offset + total_blocks * block_size ≤ img.length) (hc : c < total_blocks) :
    (block_bytes img data_offset block_size c).length = block_size := by
  have h := block_end_le data_offset block_size total_blocks c img.length hwf hc
  unfold block_bytes file_bytes
  rw [List.length_take, List.length_drop]
  omega

theorem getD_block_bytes (img : List Nat) (data_offset block_size total_blocks c k : Nat)
    (hwf : data_offset + total_blocks * block_size ≤ img.length) (hc : c < total_blocks)
    (hk : k < block_size) :
    img[data_offset + c * block_size + k]?
      = some ((block_bytes img data_offset block_size c).getD k 0) := by
  have h := block_end_le data_offset block_size total_blocks c img.length hwf hc
  have hlt : data_offset + c * block_size + k < img.length := by omega
  unfold block_bytes file_bytes
  rw [List.getD_eq_getElem?_getD, List.getElem?_take, if_pos hk, List.getElem?_drop,
    List.getElem?_eq_getElem hlt]
  rfl

theorem payloadEq_fread (img buffer : List Nat) (data_offset block_size total_blocks c : Nat)
    (h3 : 3 ≤ block_size)
    (hwf : data_offset + total_blocks * block_size ≤ img.length) (hc : c < total_blocks) :
    PayloadEq (block_size - 3)
      (fread_into buffer (file_bytes img (data_offset + c * block_size) block_size))
      (block_bytes img data_offset block_size c) := by
  intro j hj
  rw [getD_fread_into _ _ _ _ _ (by omega),
    getD_block_bytes img data_offset block_size total_blocks c (1 + j) hwf hc (by omega)]
  rfl

theorem getElem?_payload_region (img : List Nat) (data_offset block_size total_blocks c j : Nat)
    (h3 : 3 ≤ block_size)
    (hwf : data_offset + total_blocks * block_size ≤ img.length) (hc : c < total_blocks)
    (hj : j < block_size - 3) :
    (payload_region img data_offset block_size c)[j]?
      = some ((block_bytes img data_offset block_size c).getD (1 + j) 0) := by
  have hlen := block_bytes_length img data_offset block_size total_blocks c hwf hc
  have hlt : 1 + j < (block_bytes img data_offset block_size c).length := by omega
  rw [payload_region_eq, List.getElem?_take, if_pos hj, List.getElem?_drop,
    List.getD_eq_getElem?_getD, List.getElem?_eq_getElem hlt]
  rfl

theorem emit_bytes_payload (img buffer : List Nat)
    (data_offset block_size total_blocks c j : Nat) (s : EmitState)
    (h3 : 3 ≤ block_size)
    (hwf : data_offset + total_blocks * block_size ≤ img.length) (hc : c < total_blocks)
    (hj : j ≤ block_size - 3)
    (hb : PayloadEq (block_size - 3) buffer (block_bytes img data_offset block_size c)) :
    emit_bytes buffer (block_size - 3 - j) j s
      = emit_list ((payload_region img data_offset block_size c).drop j) s := by
  have hlen := block_bytes_length img data_offset block_size total_blocks c hwf hc
  rw [emit_bytes_congr buffer (block_bytes img data_offset block_size c) _ j s
    (fun k hk1 hk2 => hb k (by omega))]
  rw [emit_bytes_eq_emit_list _ _ _ _ (by omega), payload_region_eq, List.drop_take,
    List.drop_drop]

theorem is_start_iff (img buffer : List Nat) (data_offset block_size total_blocks c j : Nat)
    (h3 : 3 ≤ block_size)
    (hwf : data_offset + total_blocks * block_size ≤ img.length) (hc : c < total_blocks)
    (hj : j + 1 < block_size - 3)
    (hb : PayloadEq (block_size - 3) buffer (block_bytes img data_offset block_size c)) :
    is_jpg_start (buffer.getD (1 + j) 0) (buffer.getD (1 + j + 1) 0) = true ↔
      ((payload_region img data_offset block_size c)[j]? = some 0xFF ∧
       (payload_region img data_offset block_size c)[j + 1]? = some 0xD8) := by
  rw [getElem?_payload_region img data_offset block_size total_blocks c j h3 hwf hc (by omega),
    getElem?_payload_region img data_offset block_size total_blocks c (j + 1) h3 hwf hc hj,
    ← hb j (by omega), ← hb (j + 1) hj, show 1 + (j + 1) = 1 + j + 1 by omega]
  simp [is_jpg_start]

theorem find_start_none (buffer : List Nat) (n : Nat) : ∀ i : Nat,
    (∀ j, i ≤ j → j < i + n →
      is_jpg_start (buffer.getD (1 + j) 0) (buffer.getD (1 + j + 1) 0) = false) →
    find_start buffer n i = none := by
  induction n with
  | zero =>
      intro i _
      rfl
  | succ n ih =>
      intro i h
      simp only [find_start, h i (le_refl _) (by omega), Bool.false_eq_true, if_false]
      exact ih (i + 1) (fun j h1 h2 => h j (by omega) (by omega))

theorem find_start_some (buffer : List Nat) (n : Nat) : ∀ i i0 : Nat,
    i ≤ i0 → i0 < i + n →
    is_jpg_start (buffer.getD (1 + i0) 0) (buffer.getD (1 + i0 + 1) 0) = true →
    (∀ j, i ≤ j → j < i0 →
      is_jpg_start (buffer.getD (1 + j) 0) (buffer.getD (1 + j + 1) 0) = false) →
    find_start buffer n i = some i0 := by
  induction n with
  | zero =>
      intro i i0 h1 h2
      omega
  | succ n ih =>
      intro i i0 h1 h2 hs hn
      rcases Nat.eq_or_lt_of_le h1 with heq | hlt
      · subst heq
        simp only [find_start, hs, if_true]
      · simp only [find_start, hn i (le_refl _) hlt, Bool.false_eq_true, if_false]
        exact ih (i + 1) i0 (by omega) (by omega) hs (fun j h3 h4 => hn j (by omega) h4)

theorem emit_blocks_found (img : List Nat) (block_size data_offset payload_len i n cur b : Nat)
    (buffer : List Nat) (s : EmitState) (hs : s.found_end = true) :
    emit_blocks img block_size data_offset payload_len i n cur b buffer s = (s, buffer, b) := by
  cases n with
  | zero => rfl
  | succ n => simp only [emit_blocks, hs, if_true]

theorem emit_blocks_succ_ne (img : List Nat) (block_size data_offset payload_len i n cur b : Nat)
    (buffer : List Nat) (s : EmitState) (hs : s.found_end = false) (hcb : cur ≠ b) :
    emit_blocks img block_size data_offset payload_len i (n + 1) cur b buffer s
      = emit_blocks img block_size data_offset payload_len i n (cur + 1)
          (if (emit_bytes
                (fread_into buffer (file_bytes img (data_offset + cur * block_size) block_size))
                (payload_len - 0) 0 s).found_end = true then cur else b)
          (fread_into buffer (file_bytes img (data_offset + cur * block_size) block_size))
          (emit_bytes
            (fread_into buffer (file_bytes img (data_offset + cur * block_size) block_size))
            (payload_len - 0) 0 s) := by
  rw [emit_blocks]
  simp only [hs, Bool.false_eq_true, if_false, ne_eq, hcb, not_false_eq_true, if_true]

theorem emit_blocks_succ_eq (img : List Nat) (block_size data_offset payload_len i n b : Nat)
    (buffer : List Nat) (s : EmitState) (hs : s.found_end = false) :
    emit_blocks img block_size data_offset payload_len i (n + 1) b b buffer s
      = emit_blocks img block_size data_offset payload_len i n (b + 1) b buffer
          (emit_bytes buffer (payload_len - i) i s) := by
  rw [emit_blocks]
  simp only [hs, Bool.false_eq_true, if_false, ne_eq, not_true_eq_false, if_true, ite_self]

theorem emit_blocks_later (img : List Nat) (data_offset block_size total_blocks i : Nat)
    (h3 : 3 ≤ block_size)
    (hwf : data_offset + total_blocks * block_size ≤ img.length) (n : Nat) :
    ∀ (cur b : Nat) (buffer : List Nat) (s : EmitState),
    b < cur → cur + n ≤ total_blocks → s.found_end = false →
    (emit_blocks img block_size data_offset (block_size - 3) i n cur b buffer s).1
        = emit_list (payload_stream img data_offset block_size n cur) s ∧
    b ≤ (emit_blocks img block_size data_offset (block_size - 3) i n cur b buffer s).2.2 := by
  induction n with
  | zero =>
      intro cur b buffer s _ _ _
      exact ⟨rfl, le_refl _⟩
  | succ n ih =>
      intro cur b buffer s hbc hle hs
      have hcur : cur < total_blocks := by omega
      have hcb : cur ≠ b := by omega
      rw [emit_blocks_succ_ne img block_size data_offset (block_size - 3) i n cur b buffer s
        hs hcb]
      have hs1 := emit_bytes_payload img
        (fread_into buffer (file_bytes img (data_offset + cur * block_size) block_size))
        data_offset block_size total_blocks cur 0 s h3 hwf hcur (Nat.zero_le _)
        (payloadEq_fread img buffer data_offset block_size total_blocks cur h3 hwf hcur)
      rw [List.drop_zero] at hs1
      rw [hs1, payload_stream, emit_list_append _ _ s hs]
      by_cases hf : (emit_list (payload_region img data_offset block_size cur) s).found_end
          = true
      · rw [if_pos hf, if_pos hf, emit_blocks_found _ _ _ _ _ _ _ _ _ _ hf]
        exact ⟨rfl, le_of_lt hbc⟩
      · rw [if_neg hf, if_neg hf]
        have hf' : (emit_list (payload_region img data_offset block_size cur) s).found_end
            = false := by
          simpa using hf
        exact ih (cur + 1) b _ _ (by omega) (by omega) hf'

theorem emit_blocks_first (img : List Nat) (data_offset block_size total_blocks i : Nat)
    (h3 : 3 ≤ block_size)
    (hwf : data_offset + total_blocks * block_size ≤ img.length) (n b : Nat)
    (buffer : List Nat) (s : EmitState)
    (hle : b + (n + 1) ≤ total_blocks) (hi : i ≤ block_size - 3) (hs : s.found_end = false)
    (hb : PayloadEq (block_size - 3) buffer (block_bytes img data_offset block_size b)) :
    (emit_blocks img block_size data_offset (block_size - 3) i (n + 1) b b buffer s).1
        = emit_list ((payload_region img data_offset block_size b).drop i
            ++ payload_stream img data_offset block_size n (b + 1)) s ∧
    b ≤ (emit_blocks img block_size data_offset (block_size - 3) i (n + 1) b b buffer s).2.2 := by
  have hcur : b < total_blocks := by omega
  rw [emit_blocks_succ_eq img block_size data_offset (block_size - 3) i n b buffer s hs,
    emit_bytes_payload img buffer data_offset block_size total_blocks b i s h3 hwf hcur hi hb,
    emit_list_append _ _ s hs]
  by_cases hf : (emit_list ((payload_region img data_offset block_size b).drop i) s).found_end
      = true
  · rw [if_pos hf, emit_blocks_found _ _ _ _ _ _ _ _ _ _ hf]
    exact ⟨rfl, le_refl _⟩
  · rw [if_neg hf]
    have hf' : (emit_list ((payload_region img data_offset block_size b).drop i) s).found_end
        = false := by
      simpa using hf
    exact emit_blocks_later img data_offset block_size total_blocks i h3 hwf n (b + 1) b
      buffer _ (by omega) (by omega) hf'

/-! ## Carver: the scan for start markers -/

theorem scan_blocks_skip (img : List Nat) (data_offset block_size total_blocks : Nat)
    (h3 : 3 ≤ block_size)
    (hwf : data_offset + total_blocks * block_size ≤ img.length)
    (fuel b : Nat) (buffer : List Nat) (outs : List (List Nat)) (hb : b < total_blocks)
    (hno : ∀ j, ¬ ((payload_region img data_offset block_size b)[j]? = some 0xFF ∧
      (payload_region img data_offset block_size b)[j + 1]? = some 0xD8)) :
    scan_blocks img block_size total_blocks data_offset (block_size - 3) (fuel + 1) b buffer outs
      = scan_blocks img block_size total_blocks data_offset (block_size - 3) fuel (b + 1)
          (fread_into buffer (file_bytes img (data_offset + b * block_size) block_size))
          outs := by
  have hfs : find_start
      (fread_into buffer (file_bytes img (data_offset + b * block_size) block_size))
      (block_size - 3 - 1) 0 = none := by
    apply find_start_none
    intro j _ hj
    have hiff := is_start_iff img
      (fread_into buffer (file_bytes img (data_offset + b * block_size) block_size))
      data_offset block_size total_blocks b j h3 hwf hb (by omega)
      (payloadEq_fread img buffer data_offset block_size total_blocks b h3 hwf hb)
    cases hv : is_jpg_start
        ((fread_into buffer (file_bytes img (data_offset + b * block_size)
          block_size)).getD (1 + j) 0)
        ((fread_into buffer (file_bytes img (data_offset + b * block_size)
          block_size)).getD (1 + j + 1) 0)
    · rfl
    · exact absurd (hiff.1 hv) (hno j)
  have hnb : ¬ total_blocks ≤ b := by omega
  rw [scan_blocks]
  simp only [ge_iff_le, hnb, if_false, hfs]

theorem scan_blocks_no_marker (img : List Nat) (data_offset block_size total_blocks : Nat)
    (h3 : 3 ≤ block_size)
    (hwf : data_offset + total_blocks * block_size ≤ img.length) (fuel : Nat) :
    ∀ (b : Nat) (buffer : List Nat) (outs : List (List Nat)),
    (∀ c, b ≤ c → c < total_blocks →
      ∀ j, ¬ ((payload_region img data_offset block_size c)[j]? = some 0xFF ∧
        (payload_region img data_offset block_size c)[j + 1]? = some 0xD8)) →
    scan_blocks img block_size total_blocks data_offset (block_size - 3) fuel b buffer outs
      = outs := by
  induction fuel with
  | zero =>
      intro b buffer outs _
      rfl
  | succ fuel ih =>
      intro b buffer outs hno
      by_cases hb : total_blocks ≤ b
      · rw [scan_blocks]
        simp only [ge_iff_le, hb, if_true]
      · rw [scan_blocks_skip img data_offset block_size total_blocks h3 hwf fuel b buffer outs
          (by omega) (hno b (le_refl _) (by omega))]
        exact ih (b + 1) _ outs (fun c hc1 hc2 => hno c (by omega) hc2)

theorem scan_blocks_skip_to (img : List Nat) (data_offset block_size total_blocks : Nat)
    (h3 : 3 ≤ block_size)
    (hwf : data_offset + total_blocks * block_size ≤ img.length)
    (fuel N : Nat) (outs : List (List Nat)) (hN : N ≤ total_blocks)
    (hno : ∀ c, c < N →
      ∀ j, ¬ ((payload_region img data_offset block_size c)[j]? = some 0xFF ∧
        (payload_region img data_offset block_size c)[j + 1]? = some 0xD8))
    (k : Nat) : ∀ (b : Nat) (buffer : List Nat), b + k = N →
    ∃ buffer', scan_blocks img block_size total_blocks data_offset (block_size - 3)
        (fuel + k) b buffer outs
      = scan_blocks img block_size total_blocks data_offset (block_size - 3) fuel N buffer'
          outs := by
  induction k with
  | zero =>
      intro b buffer hb
      have : b = N := by omega
      subst this
      exact ⟨buffer, rfl⟩
  | succ k ih =>
      intro b buffer hb
      rw [show fuel + (k + 1) = (fuel + k) + 1 by omega,
        scan_blocks_skip img data_offset block_size total_blocks h3 hwf (fuel + k) b buffer outs
          (by omega) (hno b (by omega))]
      exact ih (b + 1) _ (by omega)

theorem scan_blocks_hit (img : List Nat) (data_offset block_size total_blocks : Nat)
    (h3 : 3 ≤ block_size)
    (hwf : data_offset + total_blocks * block_size ≤ img.length)
    (fuel N i : Nat) (buffer : List Nat) (outs : List (List Nat)) (hN : N < total_blocks)
    (hi : i + 1 < block_size - 3)
    (hstart : (payload_region img data_offset block_size N)[i]? = some 0xFF ∧
      (payload_region img data_offset block_size N)[i + 1]? = some 0xD8)
    (hno : ∀ j, j < i → ¬ ((payload_region img data_offset block_size N)[j]? = some 0xFF ∧
      (payload_region img data_offset block_size N)[j + 1]? = some 0xD8)) :
    scan_blocks img block_size total_blocks data_offset (block_size - 3) (fuel + 1) N buffer outs
      = scan_blocks img block_size total_blocks data_offset (block_size - 3) fuel
          ((emit_blocks img block_size data_offset (block_size - 3) i (total_blocks - N) N N
            (fread_into buffer (file_bytes img (data_offset + N * block_size) block_size))
            ⟨[], 0, false, false⟩).2.2 + 1)
          (emit_blocks img block_size data_offset (block_size - 3) i (total_blocks - N) N N
            (fread_into buffer (file_bytes img (data_offset + N * block_size) block_size))
            ⟨[], 0, false, false⟩).2.1
          (outs ++ [(emit_blocks img block_size data_offset (block_size - 3) i
            (total_blocks - N) N N
            (fread_into buffer (file_bytes img (data_offset + N * block_size) block_size))
            ⟨[], 0, false, false⟩).1.out]) := by
  have hpe := payloadEq_fread img buffer data_offset block_size total_blocks N h3 hwf hN
  have hfs : find_start
      (fread_into buffer (file_bytes img (data_offset + N * block_size) block_size))
      (block_size - 3 - 1) 0 = some i := by
    apply find_start_some _ _ 0 i (Nat.zero_le _) (by omega)
    · exact (is_start_iff img _ data_offset block_size total_blocks N i h3 hwf hN hi hpe).2
        hstart
    · intro j _ hj
      have hiff := is_start_iff img
        (fread_into buffer (file_bytes img (data_offset + N * block_size) block_size))
        data_offset block_size total_blocks N j h3 hwf hN (by omega) hpe
      cases hv : is_jpg_start
          ((fread_into buffer (file_bytes img (data_offset + N * block_size)
            block_size)).getD (1 + j) 0)
          ((fread_into buffer (file_bytes img (data_offset + N * block_size)
            block_size)).getD (1 + j + 1) 0)
      · rfl
      · exact absurd (hiff.1 hv) (hno j hj)
  have hnb : ¬ total_blocks ≤ N := by omega
  rw [scan_blocks]
  simp only [ge_iff_le, hnb, if_false, hfs]

/-! ## Carver: the bound of the outer loop -/

theorem emit_blocks_b_ge (img : List Nat) (block_size data_offset payload_len i n : Nat) :
    ∀ (cur b : Nat) (buffer : List Nat) (s : EmitState), b ≤ cur →
    b ≤ (emit_blocks img block_size data_offset payload_len i n cur b buffer s).2.2 := by
  induction n with
  | zero =>
      intro cur b buffer s _
      exact le_refl _
  | succ n ih =>
      intro cur b buffer s hle
      rw [emit_blocks]
      by_cases hf : s.found_end = true
      · rw [if_pos hf]
      · rw [if_neg hf]
        simp only []
        split_ifs <;>
          first
          | exact ih (cur + 1) b _ _ (by omega)
          | exact le_trans hle (ih (cur + 1) cur _ _ (by omega))

/-- The loop over `b` never runs out of its iteration allowance: any two
allowances of `total_blocks - b` or more give the same result. -/
theorem scan_blocks_fuel (img : List Nat)
    (block_size total_blocks data_offset payload_len : Nat) (fuel1 : Nat) :
    ∀ (fuel2 b : Nat) (buffer : List Nat) (outs : List (List Nat)),
    total_blocks - b ≤ fuel1 → total_blocks - b ≤ fuel2 →
    scan_blocks img block_size total_blocks data_offset payload_len fuel1 b buffer outs
      = scan_blocks img block_size total_blocks data_offset payload_len fuel2 b buffer outs := by
  induction fuel1 with
  | zero =>
      intro fuel2 b buffer outs h1 _
      have hb : total_blocks ≤ b := by omega
      cases fuel2 with
      | zero => rfl
      | succ k => simp only [scan_blocks, ge_iff_le, hb, if_true]
  | succ k ih =>
      intro fuel2 b buffer outs h1 h2
      by_cases hb : total_blocks ≤ b
      · cases fuel2 with
        | zero => simp only [scan_blocks, ge_iff_le, hb, if_true]
        | succ k2 => simp only [scan_blocks, ge_iff_le, hb, if_true]
      · obtain ⟨k2, rfl⟩ : ∃ k2, fuel2 = k2 + 1 := ⟨fuel2 - 1, by omega⟩
        simp only [scan_blocks, ge_iff_le, hb, if_false]
        cases hfind : find_start
            (fread_into buffer (file_bytes img (data_offset + b * block_size) block_size))
            (payload_len - 1) 0 with
        | none =>
            exact ih k2 (b + 1) _ outs (by omega) (by omega)
        | some i =>
            have hge := emit_blocks_b_ge img block_size data_offset payload_len i
              (total_blocks - b) b b
              (fread_into buffer (file_bytes img (data_offset + b * block_size) block_size))
              ⟨[], 0, false, false⟩ (le_refl _)
            exact ih k2 _ _ _ (by omega) (by omega)

/-! ## Carver: an image with one start marker -/

theorem first_end_at_append (S rest : List Nat) (t : Nat) (h : first_end_at S t) :
    first_end_at (S ++ rest) t := by
  obtain ⟨ht, h1, h2, hfirst⟩ := h
  have hlt : t < S.length := by
    by_contra hc
    rw [List.getElem?_eq_none (by omega)] at h2
    cases h2
  refine ⟨ht, ?_, ?_, ?_⟩
  · rw [List.getElem?_append_left (by omega)]
    exact h1
  · rw [List.getElem?_append_left hlt]
    exact h2
  · intro t' h3 h4
    rw [List.getElem?_append_left (by omega), List.getElem?_append_left (by omega)]
    exact hfirst t' h3 h4

theorem recover_files_unique_marker (L : Layout) (sb : Superblock) (img buffer0 : List Nat)
    (N i t : Nat)
    (h3 : 3 ≤ sb.bytes_per_block) (h16 : sb.bytes_per_block < 65536)
    (hwf : data_region_offset L sb + sb.total_blocks * sb.bytes_per_block ≤ img.length)
    (hN : N < sb.total_blocks)
    (hstart : (payload_region img (data_region_offset L sb) sb.bytes_per_block N)[i]?
        = some 0xFF ∧
      (payload_region img (data_region_offset L sb) sb.bytes_per_block N)[i + 1]? = some 0xD8)
    (huniq : ∀ c, c < sb.total_blocks → ∀ j, j < sb.bytes_per_block - 3 →
      ((payload_region img (data_region_offset L sb) sb.bytes_per_block c)[j]? = some 0xFF ∧
       (payload_region img (data_region_offset L sb) sb.bytes_per_block c)[j + 1]? = some 0xD8)
      → c = N ∧ j = i)
    (hend : first_end_at
      ((payload_region img (data_region_offset L sb) sb.bytes_per_block N).drop i
        ++ payload_stream img (data_region_offset L sb) sb.bytes_per_block
            (sb.total_blocks - N - 1) (N + 1)) t) :
    recover_files L sb img buffer0
      = [((payload_region img (data_region_offset L sb) sb.bytes_per_block N).drop i
          ++ payload_stream img (data_region_offset L sb) sb.bytes_per_block
              (sb.total_blocks - N - 1) (N + 1)).take (t + 1)] := by
  have hP := to_uint32_sub_three sb.bytes_per_block h3 h16
  have hplen := payload_region_length img (data_region_offset L sb) sb.bytes_per_block N h3
    (block_bytes_length img (data_region_offset L sb) sb.bytes_per_block sb.total_blocks N
      hwf hN)
  have hi : i + 1 < sb.bytes_per_block - 3 := by
    by_contra hc
    have h2 := hstart.2
    rw [List.getElem?_eq_none (by omega)] at h2
    cases h2
  have huniq' : ∀ c, c < sb.total_blocks → ∀ j,
      ((payload_region img (data_region_offset L sb) sb.bytes_per_block c)[j]? = some 0xFF ∧
       (payload_region img (data_region_offset L sb) sb.bytes_per_block c)[j + 1]? = some 0xD8)
      → c = N ∧ j = i := by
    intro c hc j hj
    have hcl := payload_region_length img (data_region_offset L sb) sb.bytes_per_block c h3
      (block_bytes_length img (data_region_offset L sb) sb.bytes_per_block sb.total_blocks c
        hwf hc)
    have hjlt : j < sb.bytes_per_block - 3 := by
      by_contra hcon
      have h1 := hj.1
      rw [List.getElem?_eq_none (by omega)] at h1
      cases h1
    exact huniq c hc j hjlt hj
  unfold recover_files
  simp only [hP]
  obtain ⟨m, hm⟩ : ∃ m, sb.total_blocks - N - 1 = m := ⟨_, rfl⟩
  rw [hm] at hend ⊢
  have e1 : sb.total_blocks - N = m + 1 := by omega
  have hfuel : m + 1 + N = sb.total_blocks := by omega
  obtain ⟨buffer', hskip⟩ := scan_blocks_skip_to img (data_region_offset L sb) sb.bytes_per_block
    sb.total_blocks h3 hwf (m + 1) N [] (le_of_lt hN)
    (fun c hc j hj => by
      have := (huniq' c (by omega) j hj).1
      omega)
    N 0 buffer0 (by omega)
  rw [hfuel] at hskip
  rw [hskip, scan_blocks_hit img (data_region_offset L sb) sb.bytes_per_block sb.total_blocks
      h3 hwf m N i buffer' [] hN hi hstart
      (fun j hj hc => by
        have := (huniq' N hN j hc).2
        omega),
    e1]
  obtain ⟨hf1, hf2⟩ := emit_blocks_first img (data_region_offset L sb) sb.bytes_per_block
    sb.total_blocks i h3 hwf m N
    (fread_into buffer' (file_bytes img (data_region_offset L sb + N * sb.bytes_per_block)
      sb.bytes_per_block)) ⟨[], 0, false, false⟩ (by omega) (by omega) rfl
    (payloadEq_fread img buffer' (data_region_offset L sb) sb.bytes_per_block sb.total_blocks N
      h3 hwf hN)
  rw [scan_blocks_no_marker img (data_region_offset L sb) sb.bytes_per_block sb.total_blocks
    h3 hwf _ _ _ _ (fun c hc1 hc2 j hj => by
      have := (huniq' c hc2 j hj).1
      omega)]
  rw [hf1, (emit_list_first_end _ t hend).1]
  rfl

/-- C2: in an image that holds all its blocks, with exactly one start marker
inside a block payload (at payload position `i` of block `N`) and with the
first end marker after it inside the payload of block `N + 2` (FF at payload
position `e`, D9 at `e + 1`), recover_files produces exactly one output: the
payload of block `N` from position `i` on, the whole payload of block
`N + 1`, and the payload of block `N + 2` up to the D9, with no status or
next-pointer byte in between. -/
theorem recover_files_block_spanning (L : Layout) (sb : Superblock) (img buffer0 : List Nat)
    (N i e : Nat)
    (h3 : 3 ≤ sb.bytes_per_block) (h16 : sb.bytes_per_block < 65536)
    (hwf : data_region_offset L sb + sb.total_blocks * sb.bytes_per_block ≤ img.length)
    (hN : N + 2 < sb.total_blocks)
    (hstart : (payload_region img (data_region_offset L sb) sb.bytes_per_block N)[i]?
        = some 0xFF ∧
      (payload_region img (data_region_offset L sb) sb.bytes_per_block N)[i + 1]? = some 0xD8)
    (huniq : ∀ c, c < sb.total_blocks → ∀ j, j < sb.bytes_per_block - 3 →
      ((payload_region img (data_region_offset L sb) sb.bytes_per_block c)[j]? = some 0xFF ∧
       (payload_region img (data_region_offset L sb) sb.bytes_per_block c)[j + 1]? = some 0xD8)
      → c = N ∧ j = i)
    (hend : first_end_at
      ((payload_region img (data_region_offset L sb) sb.bytes_per_block N).drop i
        ++ payload_region img (data_region_offset L sb) sb.bytes_per_block (N + 1)
        ++ payload_region img (data_region_offset L sb) sb.bytes_per_block (N + 2))
      ((sb.bytes_per_block - 3 - i) + (sb.bytes_per_block - 3) + e + 1)) :
    recover_files L sb img buffer0
      = [(payload_region img (data_region_offset L sb) sb.bytes_per_block N).drop i
          ++ payload_region img (data_region_offset L sb) sb.bytes_per_block (N + 1)
          ++ (payload_region img (data_region_offset L sb) sb.bytes_per_block (N + 2)).take
              (e + 2)] := by
  have hlenA := payload_region_length img (data_region_offset L sb) sb.bytes_per_block N h3
    (block_bytes_length img (data_region_offset L sb) sb.bytes_per_block sb.total_blocks N
      hwf (by omega))
  have hlenB := payload_region_length img (data_region_offset L sb) sb.bytes_per_block (N + 1)
    h3 (block_bytes_length img (data_region_offset L sb) sb.bytes_per_block sb.total_blocks
      (N + 1) hwf (by omega))
  have hlenC := payload_region_length img (data_region_offset L sb) sb.bytes_per_block (N + 2)
    h3 (block_bytes_length img (data_region_offset L sb) sb.bytes_per_block sb.total_blocks
      (N + 2) hwf (by omega))
  obtain ⟨m, hm⟩ : ∃ m, sb.total_blocks - N - 1 = m + 2 := ⟨sb.total_blocks - N - 3, by omega⟩
  have hS : (payload_region img (data_region_offset L sb) sb.bytes_per_block N).drop i
      ++ payload_stream img (data_region_offset L sb) sb.bytes_per_block
          (sb.total_blocks - N - 1) (N + 1)
      = ((payload_region img (data_region_offset L sb) sb.bytes_per_block N).drop i
          ++ payload_region img (data_region_offset L sb) sb.bytes_per_block (N + 1)
          ++ payload_region img (data_region_offset L sb) sb.bytes_per_block (N + 2))
        ++ payload_stream img (data_region_offset L sb) sb.bytes_per_block m (N + 3) := by
    rw [hm, payload_stream, payload_stream]
    simp only [List.append_assoc]
  have ht : (sb.bytes_per_block - 3 - i) + (sb.bytes_per_block - 3) + e + 1
      < (sb.bytes_per_block - 3 - i) + (sb.bytes_per_block - 3) + (sb.bytes_per_block - 3) := by
    by_contra hc
    have h2 := hend.2.2.1
    rw [List.getElem?_eq_none (by
      rw [List.length_append, List.length_append, List.length_drop, hlenA, hlenB, hlenC]
      omega)] at h2
    cases h2
  have hlenAB : ((payload_region img (data_region_offset L sb) sb.bytes_per_block N).drop i
      ++ payload_region img (data_region_offset L sb) sb.bytes_per_block (N + 1)).length
      = (sb.bytes_per_block - 3 - i) + (sb.bytes_per_block - 3) := by
    rw [List.length_append, List.length_drop, hlenA, hlenB]
  rw [recover_files_unique_marker L sb img buffer0 N i _ h3 h16 hwf (by omega) hstart huniq
    (by rw [hS]; exact first_end_at_append _ _ _ hend), hS,
    List.take_append_of_le_length (by
      rw [List.length_append, hlenAB, hlenC]
      omega)]
  rw [show (sb.bytes_per_block - 3 - i) + (sb.bytes_per_block - 3) + e + 1 + 1
      = ((payload_region img (data_region_offset L sb) sb.bytes_per_block N).drop i
          ++ payload_region img (data_region_offset L sb) sb.bytes_per_block (N + 1)).length
        + (e + 2) by rw [hlenAB]; omega,
    List.take_append]

/-- Witness of C2 on `demoCarveImage`: the marker at the front of block 1
and the end marker in block 3 give the single output FF D8 06 01 02 03 04 FF
D9. -/
theorem recover_files_block_spanning_witness :
    recover_files demoLayout (demoCarveSb 4) demoCarveImage (List.replicate 6 0)
      = [[0xFF, 0xD8, 6, 1, 2, 3, 4, 0xFF, 0xD9]] :=
  Eq.trans
    (recover_files_block_spanning demoLayout (demoCarveSb 4) demoCarveImage
      (List.replicate 6 0) 1 0 1 (by decide) (by decide) (by decide) (by decide) (by decide)
      (by decide) (by decide))
    (by decide)

/-- C8 (amended): in an image that holds all its blocks, when the payload
of one block contains FF D8 41 42 FF D9 and no block payload contains another
start marker, recover_files yields exactly one output, the 6 bytes FF D8 41
42 FF D9: the start marker is part of the output. -/
theorem recover_files_single_block (L : Layout) (sb : Superblock) (img buffer0 : List Nat)
    (N i : Nat)
    (h3 : 3 ≤ sb.bytes_per_block) (h16 : sb.bytes_per_block < 65536)
    (hwf : data_region_offset L sb + sb.total_blocks * sb.bytes_per_block ≤ img.length)
    (hN : N < sb.total_blocks)
    (hbytes : ((payload_region img (data_region_offset L sb) sb.bytes_per_block N).drop i).take 6
      = [0xFF, 0xD8, 0x41, 0x42, 0xFF, 0xD9])
    (huniq : ∀ c, c < sb.total_blocks → ∀ j, j < sb.bytes_per_block - 3 →
      ((payload_region img (data_region_offset L sb) sb.bytes_per_block c)[j]? = some 0xFF ∧
       (payload_region img (data_region_offset L sb) sb.bytes_per_block c)[j + 1]? = some 0xD8)
      → c = N ∧ j = i) :
    recover_files L sb img buffer0 = [[0xFF, 0xD8, 0x41, 0x42, 0xFF, 0xD9]] := by
  have hA : (payload_region img (data_region_offset L sb) sb.bytes_per_block N).drop i
      = [0xFF, 0xD8, 0x41, 0x42, 0xFF, 0xD9]
        ++ ((payload_region img (data_region_offset L sb) sb.bytes_per_block N).drop i).drop
            6 := by
    rw [← hbytes, List.take_append_drop]
  have h0 : (payload_region img (data_region_offset L sb) sb.bytes_per_block N)[i]?
      = some 0xFF := by
    have := List.getElem?_drop
      (payload_region img (data_region_offset L sb) sb.bytes_per_block N) i 0
    rw [Nat.add_zero] at this
    rw [← this, hA]
    rfl
  have h1 : (payload_region img (data_region_offset L sb) sb.bytes_per_block N)[i + 1]?
      = some 0xD8 := by
    rw [← List.getElem?_drop, hA]
    rfl
  have hfe : first_end_at [0xFF, 0xD8, 0x41, 0x42, 0xFF, 0xD9] 5 := by decide
  rw [recover_files_unique_marker L sb img buffer0 N i 5 h3 h16 hwf hN ⟨h0, h1⟩ huniq
    (by
      rw [hA, List.append_assoc]
      exact first_end_at_append _ _ _ hfe),
    hA, List.append_assoc]
  rfl

/-- Witness of C8 (amended) on `demoSingleImage`. -/
theorem recover_files_single_block_witness :
    recover_files demoLayout demoSingleSb demoSingleImage (List.replicate 11 0)
      = [[0xFF, 0xD8, 0x41, 0x42, 0xFF, 0xD9]] :=
  recover_files_single_block demoLayout demoSingleSb demoSingleImage (List.replicate 11 0) 0 1
    (by decide) (by decide) (by decide) (by decide) (by decide) (by decide)

/-- C8 as stated fails: on `demoSingleImage`, whose block 0 holds FF D8 41
42 FF D9 at payload positions 1 .. 6 and which has no other start marker, the
single recovered output has 6 bytes, not the 4 bytes 41 42 FF D9. -/
theorem recover_files_single_block_six_bytes :
    ((payload_region demoSingleImage (data_region_offset demoLayout demoSingleSb) 11 0).drop
        1).take 6 = [0xFF, 0xD8, 0x41, 0x42, 0xFF, 0xD9] ∧
    payload_region demoSingleImage (data_region_offset demoLayout demoSingleSb) 11 1
      = [1, 2, 3, 4, 5, 6, 7, 8] ∧
    recover_files demoLayout demoSingleSb demoSingleImage (List.replicate 11 0)
      = [[0xFF, 0xD8, 0x41, 0x42, 0xFF, 0xD9]] ∧
    recover_files demoLayout demoSingleSb demoSingleImage (List.replicate 11 0)
      ≠ [[0x41, 0x42, 0xFF, 0xD9]] := by
  refine ⟨by decide, by decide, by decide, by decide⟩

/-- C7 fails on the code: in `demoStraddleImage` the payload stream of
blocks 0 .. 2 is 01 02 FF D8 05 06 FF D9 09, with FF D8 at stream positions
2 and 3 (last payload byte of block 0, first payload byte of block 1), and
recover_files produces no output at all. -/
theorem recover_files_misses_straddling_marker :
    payload_stream demoStraddleImage (data_region_offset demoLayout (demoCarveSb 3)) 6 3 0
      = [1, 2, 0xFF, 0xD8, 5, 6, 0xFF, 0xD9, 9] ∧
    recover_files demoLayout (demoCarveSb 3) demoStraddleImage (List.replicate 6 0) = [] := by
  refine ⟨by decide, by decide⟩

/-- Witness of C10: `demoCarveImage` and `demoCarveImage2` differ in
metadata, status bytes and next pointers only, and give the same outputs
from different initial buffers. -/
theorem recover_files_payload_only_witness :
    recover_files demoLayout (demoCarveSb 4) demoCarveImage (List.replicate 6 0)
      = recover_files demoLayout (demoCarveSb 4) demoCarveImage2 (List.replicate 6 9) ∧
    demoCarveImage ≠ demoCarveImage2 :=
  ⟨(recover_files_payload_only demoLayout (demoCarveSb 4) demoCarveImage demoCarveImage2
      (by decide) (by decide)).1
      (by
        intro b hb j hj
        have hb' : b < 4 := hb
        have hj' : j < 3 := hj
        interval_cases b <;> interval_cases j <;> exact ⟨_, rfl, rfl⟩)
      (List.replicate 6 0) (List.replicate 6 9),
   by decide⟩

/-! ## Post-format counts -/

/-- C12: the superblock mkfs_qfs writes has `total_direntries = 255`,
`available_direntries = total_direntries` and `available_blocks =
total_blocks`, for every image. -/
theorem mkfs_counts (L : Layout) (encode : Superblock → List Nat) (img : List Nat)
    (label : Option (List Nat)) :
    (mkfs_qfs L encode img label).sb.total_direntries = 255 ∧
    (mkfs_qfs L encode img label).sb.available_direntries
      = (mkfs_qfs L encode img label).sb.total_direntries ∧
    (mkfs_qfs L encode img label).sb.available_blocks
      = (mkfs_qfs L encode img label).sb.total_blocks :=
  ⟨rfl, rfl, rfl⟩

/-! ## Not found -/

theorem find_entry_none (L : Layout) (table : List DirEntry) (fileName : List Nat) (n : Nat) :
    ∀ i0 : Nat, i0 + n ≤ table.length →
    (∀ i, i0 ≤ i → i < i0 + n → ∀ e, table[i]? = some e → selects L fileName e = false) →
    find_entry L table fileName n i0 = .ok none := by
  induction n with
  | zero =>
      intro i0 _ _
      rfl
  | succ n ih =>
      intro i0 hle hno
      have hlt : i0 < table.length := by omega
      have hti : table[i0]? = some table[i0] := List.getElem?_eq_getElem hlt
      rw [find_entry_succ L table fileName n i0 _ hti,
        hno i0 (le_refl _) (by omega) _ hti]
      exact ih (i0 + 1) (by omega) (fun i h1 h2 => hno i (by omega) (by omega))

/-- C13: when the image holds its `total_direntries` directory entries and
none of them is non-empty with a matching filename, read_file ends with
status 0 without having opened the output file and without having read a
data block, whatever the rest of the image and the environment. -/
theorem read_file_not_found (L : Layout) (env : ReadEnv) (sb : Superblock)
    (table : List DirEntry) (img fileName : List Nat) (fuel : Nat)
    (hlen : sb.total_direntries ≤ table.length)
    (hno : ∀ e ∈ table.take sb.total_direntries,
      ¬ (e.filename.getD 0 0 ≠ 0 ∧ strncmp_eq e.filename fileName L.fnLen 0 = true)) :
    find_entry L table fileName sb.total_direntries 0 = .ok none ∧
    read_file L env sb table img fileName fuel = some ⟨0, none, []⟩ := by
  have hfind : find_entry L table fileName sb.total_direntries 0 = .ok none := by
    apply find_entry_none L table fileName sb.total_direntries 0 (by omega)
    intro i _ hi e he
    have hmem : e ∈ table.take sb.total_direntries := by
      have h1 : (table.take sb.total_direntries)[i]? = some e := by
        rw [List.getElem?_take, if_pos (by omega)]
        exact he
      exact List.mem_iff_getElem?.2 ⟨i, h1⟩
    have := hno e hmem
    cases hs : selects L fileName e
    · rfl
    · exfalso
      apply this
      simpa [selects] using hs
  refine ⟨hfind, ?_⟩
  unfold read_file
  rw [hfind]

/-- Witness of C13: the name "b" is not in `demoTable`. -/
theorem read_file_not_found_witness :
    read_file demoLayout ⟨false, false⟩ demoDirSb demoTable demoChainImage [98] 0
      = some ⟨0, none, []⟩ :=
  (read_file_not_found demoLayout ⟨false, false⟩ demoDirSb demoTable demoChainImage [98] 0
    (by decide) (by decide)).2

/-! ## Filename comparison -/

theorem getD_name_ne_zero (s : List Nat) (hname : ∀ b ∈ s, b ≠ 0) (k : Nat)
    (hk : k < s.length) : s.getD k 0 ≠ 0 := by
  rw [List.getD_eq_getElem?_getD, List.getElem?_eq_getElem hk]
  exact hname _ (List.getElem_mem hk)

theorem getD_name_eq_zero (s : List Nat) (k : Nat) (hk : s.length ≤ k) : s.getD k 0 = 0 := by
  rw [List.getD_eq_getElem?_getD, List.getElem?_eq_none hk]
  rfl

theorem strncmp_eq_iff (s1 s2 : List Nat) (hname : ∀ b ∈ s2, b ≠ 0) (n : Nat) :
    ∀ i, i ≤ s2.length →
    (strncmp_eq s1 s2 n i = true ↔
      ∀ k, i ≤ k → k < i + n → k ≤ s2.length → s1.getD k 0 = s2.getD k 0) := by
  induction n with
  | zero =>
      intro i _
      simp only [strncmp_eq, true_iff]
      intro k h1 h2
      omega
  | succ n ih =>
      intro i hi
      by_cases hc : s1.getD i 0 = s2.getD i 0
      · by_cases hz : s1.getD i 0 = 0
        · have hlhs : strncmp_eq s1 s2 (n + 1) i = true := by
            simp only [strncmp_eq, ne_eq, hc, not_true_eq_false, if_false]
            rw [← hc, if_pos hz]
          have hlen : i = s2.length := by
            by_contra hne
            exact getD_name_ne_zero s2 hname i (by omega) (hc ▸ hz)
          simp only [hlhs, true_iff]
          intro k h1 _ h3
          have : k = i := by omega
          rw [this]
          exact hc
        · have hlhs : strncmp_eq s1 s2 (n + 1) i = strncmp_eq s1 s2 n (i + 1) := by
            simp only [strncmp_eq, ne_eq, hc, not_true_eq_false, if_false]
            rw [← hc, if_neg hz]
          have hlt : i < s2.length := by
            by_contra hge
            exact hz (hc.trans (getD_name_eq_zero s2 i (by omega)))
          rw [hlhs, ih (i + 1) (by omega)]
          constructor
          · intro h k h1 h2 h3
            rcases Nat.eq_or_lt_of_le h1 with heq | hlt'
            · rw [← heq]
              exact hc
            · exact h k (by omega) (by omega) h3
          · intro h k h1 h2 h3
            exact h k (by omega) (by omega) h3
      · have hlhs : strncmp_eq s1 s2 (n + 1) i = false := by
          simp only [strncmp_eq, ne_eq, hc, not_false_eq_true, if_true]
        simp only [hlhs, Bool.false_eq_true, false_iff]
        intro h
        exact hc (h i (le_refl _) (by omega) hi)

/-- C11 (amended): for an entry with a non-zero first filename byte and a
name given as a C string, read_file treats the entry as matching exactly
when field and name agree at every position below the field width up to and
including the position of the name's terminating NUL; field bytes after that
NUL are not compared.  Equality over the whole field width (name
NUL-padded) is sufficient for a match. -/
theorem filename_match_iff (L : Layout) (entry : DirEntry) (fileName : List Nat)
    (h0 : entry.filename.getD 0 0 ≠ 0) (hname : ∀ b ∈ fileName, b ≠ 0) :
    (selects L fileName entry = true ↔
      ∀ k, k < L.fnLen → k ≤ fileName.length →
        entry.filename.getD k 0 = fileName.getD k 0) ∧
    ((∀ k, k < L.fnLen → entry.filename.getD k 0 = fileName.getD k 0) →
      selects L fileName entry = true) := by
  have hiff : selects L fileName entry = true ↔
      ∀ k, k < L.fnLen → k ≤ fileName.length →
        entry.filename.getD k 0 = fileName.getD k 0 := by
    have hd : decide (entry.filename.getD 0 0 ≠ 0) = true := decide_eq_true h0
    unfold selects
    rw [hd, Bool.true_and, strncmp_eq_iff entry.filename fileName hname L.fnLen 0
      (Nat.zero_le _)]
    constructor
    · intro h k h1 h2
      exact h k (Nat.zero_le _) (by omega) h2
    · intro h k _ h1 h2
      exact h k (by omega) h2
  exact ⟨hiff, fun h => hiff.2 (fun k h1 _ => h k h1)⟩

/-- Witness of C11 (amended): the field `demoStaleName` matches the name
"a". -/
theorem filename_match_iff_witness :
    selects demoLayout [97] ⟨demoStaleName, 5, 0⟩ = true :=
  (filename_match_iff demoLayout ⟨demoStaleName, 5, 0⟩ [97] (by decide) (by decide)).1.2
    (by decide)

/-- C11 as stated fails: the 23-byte field `demoStaleName` ("a", NUL,
"xyz", NULs) has a non-zero first byte and differs from the name "a"
NUL-padded to 23 bytes, yet the directory scan selects its entry for the
name "a". -/
theorem filename_match_stops_at_nul :
    demoStaleName.length = demoLayout.fnLen ∧
    demoStaleName.getD 0 0 ≠ 0 ∧
    demoStaleName ≠ [97] ++ List.replicate 22 0 ∧
    strncmp_eq demoStaleName [97] demoLayout.fnLen 0 = true ∧
    find_entry demoLayout demoTable [97] demoDirSb.total_direntries 0
      = .ok (some ⟨demoStaleName, 5, 0⟩) := by
  refine ⟨by decide, by decide, by decide, by decide, rfl⟩

/-! ## Chain walk: termination -/

theorem blocks_needed_zero (remaining P : Nat) (hP : 0 < P)
    (h : (remaining + P - 1) / P = 0) : remaining = 0 := by
  by_contra hne
  have h1 : P ≤ remaining + P - 1 := by omega
  have h2 := Nat.div_le_div_right (c := P) h1
  rw [Nat.div_self hP] at h2
  omega

theorem chain_walk_bounded (img : List Nat) (sb : Superblock) (data_offset : Nat)
    (h3 : 3 < sb.bytes_per_block) (h16 : sb.bytes_per_block < 65536) (K : Nat) :
    ∀ (remaining cur : Nat) (out reads : List Nat),
    (remaining + (sb.bytes_per_block - 3) - 1) / (sb.bytes_per_block - 3) = K →
    ∃ r, chain_walk img sb data_offset K remaining cur out reads = some r ∧
      r.reads.length ≤ reads.length + K := by
  have hP := to_uint32_sub_three sb.bytes_per_block (by omega) h16
  have hPpos : 0 < sb.bytes_per_block - 3 := by omega
  induction K with
  | zero =>
      intro remaining cur out reads hK
      have h0 := blocks_needed_zero remaining _ hPpos hK
      subst h0
      exact ⟨_, chain_walk_zero img sb data_offset 0 cur out reads, le_refl _⟩
  | succ K ih =>
      intro remaining cur out reads hK
      have hrem : 0 < remaining := by
        by_contra hc
        have h0 : remaining = 0 := by omega
        subst h0
        rw [Nat.zero_add, Nat.div_eq_of_lt (by omega)] at hK
        omega
      by_cases hcur : sb.total_blocks ≤ cur
      · exact ⟨_, chain_walk_invalid img sb data_offset K remaining cur out reads hrem hcur,
          by simp⟩
      · have hcur' : cur < sb.total_blocks := by omega
        by_cases hlen : (block_bytes img data_offset sb.bytes_per_block cur).length
            = sb.bytes_per_block
        · rw [chain_walk_step img sb data_offset K remaining cur out reads hrem hcur' hlen, hP]
          have hstep := blocks_needed_step remaining (sb.bytes_per_block - 3) hPpos hrem
          obtain ⟨r, hr, hl⟩ := ih (remaining - min remaining (sb.bytes_per_block - 3))
            (next_pointer img data_offset sb.bytes_per_block cur)
            (out ++ ((block_bytes img data_offset sb.bytes_per_block cur).drop 1).take
              (min remaining (sb.bytes_per_block - 3)))
            (reads ++ [cur]) (by omega)
          refine ⟨r, hr, ?_⟩
          rw [List.length_append, List.length_singleton] at hl
          omega
        · exact ⟨_, chain_walk_short img sb data_offset K remaining cur out reads hrem hcur'
            hlen, by simp⟩

/-- C19: with a block size above 3 the loop of read_file ends within
`ceil(file_size / (bytes_per_block - 3))` iterations on every image, cyclic
chains included, and reads at most that many blocks; an iteration that does
not fail continues with a strictly smaller remaining byte count. -/
theorem chain_walk_terminates (img : List Nat) (sb : Superblock) (data_offset : Nat)
    (h3 : 3 < sb.bytes_per_block) (h16 : sb.bytes_per_block < 65536) :
    (∀ file_size starting_block : Nat,
      ∃ r, chain_walk img sb data_offset
          ((file_size + (sb.bytes_per_block - 3) - 1) / (sb.bytes_per_block - 3))
          file_size starting_block [] [] = some r ∧
        r.reads.length
          ≤ (file_size + (sb.bytes_per_block - 3) - 1) / (sb.bytes_per_block - 3)) ∧
    (∀ (fuel remaining cur : Nat) (out reads : List Nat),
      0 < remaining → cur < sb.total_blocks →
      (block_bytes img data_offset sb.bytes_per_block cur).length = sb.bytes_per_block →
      ∃ remaining' next out', remaining' + 1 ≤ remaining ∧
        chain_walk img sb data_offset (fuel + 1) remaining cur out reads
          = chain_walk img sb data_offset fuel remaining' next out' (reads ++ [cur])) := by
  have hP := to_uint32_sub_three sb.bytes_per_block (by omega) h16
  constructor
  · intro file_size starting_block
    obtain ⟨r, hr, hl⟩ := chain_walk_bounded img sb data_offset h3 h16 _ file_size
      starting_block [] [] rfl
    exact ⟨r, hr, by simpa using hl⟩
  · intro fuel remaining cur out reads hrem hcur hlen
    refine ⟨remaining - min remaining (sb.bytes_per_block - 3),
      next_pointer img data_offset sb.bytes_per_block cur,
      out ++ ((block_bytes img data_offset sb.bytes_per_block cur).drop 1).take
        (min remaining (sb.bytes_per_block - 3)), by omega, ?_⟩
    rw [chain_walk_step img sb data_offset fuel remaining cur out reads hrem hcur hlen, hP]

/-- Witness of C19 on `demoCycleImage`: a 7-byte file whose chain is the
cycle 0, 0, 0, ... is extracted in 3 iterations. -/
theorem chain_walk_terminates_witness :
    (∃ r, chain_walk demoCycleImage demoChainSb 2
        ((7 + (demoChainSb.bytes_per_block - 3) - 1) / (demoChainSb.bytes_per_block - 3))
        7 0 [] [] = some r ∧
      r.reads.length
        ≤ (7 + (demoChainSb.bytes_per_block - 3) - 1) / (demoChainSb.bytes_per_block - 3)) ∧
    chain_walk demoCycleImage demoChainSb 2 3 7 0 [] []
      = some ⟨0, some [10, 11, 12, 10, 11, 12, 10], [0, 0, 0]⟩ :=
  ⟨(chain_walk_terminates demoCycleImage demoChainSb 2 (by decide) (by decide)).1 7 0,
   by decide⟩

/-! ## Chain walk: the next pointer of the last block -/

theorem chain_walk_reads_prefix (img : List Nat) (sb : Superblock) (data_offset : Nat)
    (fuel : Nat) : ∀ (remaining cur : Nat) (out reads : List Nat) (r : ReadResult),
    chain_walk img sb data_offset fuel remaining cur out reads = some r →
    ∃ X, r.reads = reads ++ X := by
  induction fuel with
  | zero =>
      intro remaining cur out reads r h
      by_cases h0 : remaining = 0
      · simp only [chain_walk, if_pos h0, Option.some.injEq] at h
        subst h
        exact ⟨[], by simp⟩
      · simp only [chain_walk, if_neg h0] at h
        cases h
  | succ fuel ih =>
      intro remaining cur out reads r h
      by_cases h0 : remaining = 0
      · subst h0
        rw [chain_walk_zero] at h
        injection h with h
        subst h
        exact ⟨[], by simp⟩
      · have hrem : 0 < remaining := by omega
        by_cases hcur : sb.total_blocks ≤ cur
        · rw [chain_walk_invalid img sb data_offset fuel remaining cur out reads hrem hcur] at h
          injection h with h
          subst h
          exact ⟨[], by simp⟩
        · have hcur' : cur < sb.total_blocks := by omega
          by_cases hlen : (block_bytes img data_offset sb.bytes_per_block cur).length
              = sb.bytes_per_block
          · rw [chain_walk_step img sb data_offset fuel remaining cur out reads hrem hcur'
              hlen] at h
            obtain ⟨X, hX⟩ := ih _ _ _ _ r h
            exact ⟨cur :: X, by rw [hX]; simp⟩
          · rw [chain_walk_short img sb data_offset fuel remaining cur out reads hrem hcur'
              hlen] at h
            injection h with h
            subst h
            exact ⟨[cur], rfl⟩

theorem chain_walk_no_reads (img : List Nat) (sb : Superblock) (data_offset : Nat)
    (fuel remaining cur : Nat) (out reads : List Nat) (r : ReadResult)
    (h : chain_walk img sb data_offset fuel remaining cur out reads = some r)
    (hs : r.status = 0) (hr : r.reads = reads) : remaining = 0 := by
  by_contra h0
  have hrem : 0 < remaining := by omega
  cases fuel with
  | zero =>
      simp only [chain_walk, if_neg h0] at h
      cases h
  | succ fuel =>
      by_cases hcur : sb.total_blocks ≤ cur
      · rw [chain_walk_invalid img sb data_offset fuel remaining cur out reads hrem hcur] at h
        injection h with h
        subst h
        cases hs
      · have hcur' : cur < sb.total_blocks := by omega
        by_cases hlen : (block_bytes img data_offset sb.bytes_per_block cur).length
            = sb.bytes_per_block
        · rw [chain_walk_step img sb data_offset fuel remaining cur out reads hrem hcur'
            hlen] at h
          obtain ⟨X, hX⟩ := chain_walk_reads_prefix img sb data_offset fuel _ _ _ _ r h
          rw [hr] at hX
          have := congrArg List.length hX
          simp at this
        · rw [chain_walk_short img sb data_offset fuel remaining cur out reads hrem hcur'
            hlen] at h
          injection h with h
          subst h
          cases hs

theorem chain_walk_last_pointer (img1 img2 : List Nat) (sb : Superblock) (data_offset : Nat)
    (h3 : 3 ≤ sb.bytes_per_block) (h16 : sb.bytes_per_block < 65536) (bk : Nat)
    (hother : ∀ c, c ≠ bk → block_bytes img2 data_offset sb.bytes_per_block c
      = block_bytes img1 data_offset sb.bytes_per_block c)
    (hlen : (block_bytes img2 data_offset sb.bytes_per_block bk).length
      = (block_bytes img1 data_offset sb.bytes_per_block bk).length)
    (hsame : (block_bytes img2 data_offset sb.bytes_per_block bk).take (sb.bytes_per_block - 2)
      = (block_bytes img1 data_offset sb.bytes_per_block bk).take (sb.bytes_per_block - 2))
    (fuel : Nat) :
    ∀ (remaining cur : Nat) (out acc init o : List Nat),
    chain_walk img1 sb data_offset fuel remaining cur out acc
      = some ⟨0, some o, acc ++ init ++ [bk]⟩ →
    bk ∉ init →
    chain_walk img2 sb data_offset fuel remaining cur out acc
      = some ⟨0, some o, acc ++ init ++ [bk]⟩ := by
  have hP := to_uint32_sub_three sb.bytes_per_block h3 h16
  have hnil : ∀ (acc init : List Nat), acc ≠ acc ++ init ++ [bk] := by
    intro acc init h
    have := congrArg List.length h
    simp at this
  induction fuel with
  | zero =>
      intro remaining cur out acc init o h _
      exfalso
      by_cases h0 : remaining = 0
      · simp only [chain_walk, if_pos h0, Option.some.injEq, ReadResult.mk.injEq] at h
        exact hnil acc init h.2.2
      · simp only [chain_walk, if_neg h0] at h
        cases h
  | succ fuel ih =>
      intro remaining cur out acc init o h hnot
      by_cases h0 : remaining = 0
      · exfalso
        subst h0
        rw [chain_walk_zero] at h
        simp only [Option.some.injEq, ReadResult.mk.injEq] at h
        exact hnil acc init h.2.2
      · have hrem : 0 < remaining := by omega
        by_cases hcur : sb.total_blocks ≤ cur
        · rw [chain_walk_invalid img1 sb data_offset fuel remaining cur out acc hrem hcur] at h
          simp at h
        · have hcur' : cur < sb.total_blocks := by omega
          by_cases hl1 : (block_bytes img1 data_offset sb.bytes_per_block cur).length
              = sb.bytes_per_block
          · rw [chain_walk_step img1 sb data_offset fuel remaining cur out acc hrem hcur' hl1,
              hP] at h
            obtain ⟨X, hX⟩ := chain_walk_reads_prefix img1 sb data_offset fuel _ _ _ _ _ h
            have hX' : init ++ [bk] = cur :: X := by
              have h1 : acc ++ (init ++ [bk]) = acc ++ (cur :: X) := by
                simpa [List.append_assoc] using hX
              exact List.append_cancel_left h1
            cases init with
            | nil =>
                simp only [List.nil_append, List.cons.injEq] at hX'
                obtain ⟨hbk, hXnil⟩ := hX'
                subst hbk
                have hrem0 := chain_walk_no_reads img1 sb data_offset fuel _ _ _ _ _ h rfl
                  (by simp)
                rw [hrem0, chain_walk_zero] at h
                have hl2 : (block_bytes img2 data_offset sb.bytes_per_block bk).length
                    = sb.bytes_per_block := by
                  rw [hlen, hl1]
                rw [chain_walk_step img2 sb data_offset fuel remaining bk out acc hrem hcur'
                  hl2, hP, hrem0, chain_walk_zero]
                have hpay : ((block_bytes img2 data_offset sb.bytes_per_block bk).drop 1).take
                    (min remaining (sb.bytes_per_block - 3))
                    = ((block_bytes img1 data_offset sb.bytes_per_block bk).drop 1).take
                    (min remaining (sb.bytes_per_block - 3)) := by
                  have h1 := congrArg (List.drop 1) hsame
                  rw [List.drop_take, List.drop_take] at h1
                  have h2 := congrArg (List.take (min remaining (sb.bytes_per_block - 3))) h1
                  rw [List.take_take, List.take_take] at h2
                  have hm : min (min remaining (sb.bytes_per_block - 3))
                      (sb.bytes_per_block - 2 - 1) = min remaining (sb.bytes_per_block - 3) := by
                    omega
                  rw [hm] at h2
                  exact h2
                rw [hpay]
                exact h
            | cons c init' =>
                simp only [List.cons_append, List.cons.injEq] at hX'
                obtain ⟨hc, -⟩ := hX'
                subst hc
                have hne : c ≠ bk := by
                  intro hcb
                  apply hnot
                  rw [hcb]
                  exact List.mem_cons_self _ _
                have hblk := hother c hne
                have hl2 : (block_bytes img2 data_offset sb.bytes_per_block c).length
                    = sb.bytes_per_block := by
                  rw [hblk, hl1]
                have hreads : acc ++ c :: init' ++ [bk] = (acc ++ [c]) ++ init' ++ [bk] := by
                  simp
                rw [chain_walk_step img2 sb data_offset fuel remaining c out acc hrem hcur' hl2,
                  hP, next_pointer, hblk, ← next_pointer, hreads]
                rw [hreads] at h
                exact ih _ _ _ _ init' o h (fun hmem => hnot (List.mem_cons_of_mem _ hmem))
          · rw [chain_walk_short img1 sb data_offset fuel remaining cur out acc hrem hcur'
              hl1] at h
            simp at h

/-- C16: when the chain walk on an image ends with status 0 after reading
the blocks `init` and then `bk`, with `bk` not among `init`, it ends with the
same status, output and blocks read on every image that has the same blocks
except for the two trailing next-pointer bytes of block `bk`; those two bytes
may hold any value, an index of `total_blocks` or more included. -/
theorem read_file_final_pointer_unused (img1 img2 : List Nat) (sb : Superblock)
    (data_offset fuel file_size starting_block bk : Nat) (init out : List Nat)
    (h3 : 3 ≤ sb.bytes_per_block) (h16 : sb.bytes_per_block < 65536)
    (hwalk : chain_walk img1 sb data_offset fuel file_size starting_block [] []
      = some ⟨0, some out, init ++ [bk]⟩)
    (hlast : bk ∉ init)
    (hother : ∀ c, c ≠ bk → block_bytes img2 data_offset sb.bytes_per_block c
      = block_bytes img1 data_offset sb.bytes_per_block c)
    (hlen : (block_bytes img2 data_offset sb.bytes_per_block bk).length
      = (block_bytes img1 data_offset sb.bytes_per_block bk).length)
    (hsame : (block_bytes img2 data_offset sb.bytes_per_block bk).take (sb.bytes_per_block - 2)
      = (block_bytes img1 data_offset sb.bytes_per_block bk).take (sb.bytes_per_block - 2)) :
    0 < file_size ∧
    chain_walk img2 sb data_offset fuel file_size starting_block [] []
      = some ⟨0, some out, init ++ [bk]⟩ := by
  constructor
  · by_contra hc
    have h0 : file_size = 0 := by omega
    subst h0
    rw [chain_walk_zero] at hwalk
    simp at hwalk
  · have h := chain_walk_last_pointer img1 img2 sb data_offset h3 h16 bk hother hlen hsame fuel
      file_size starting_block [] [] init out (by simpa using hwalk) hlast
    simpa using h

/-- Witness of C16: `demoChainImage` is `demoChainImage2` with the next
pointer of the last block of the file changed from 0 to 7, an index outside
the 3 blocks; the 5-byte file over blocks 0 and 2 is extracted all the
same. -/
theorem read_file_final_pointer_unused_witness :
    (0 < 5 ∧
      chain_walk demoChainImage demoChainSb 2 5 5 0 [] []
        = some ⟨0, some [10, 11, 12, 13, 14], [0] ++ [2]⟩) ∧
    next_pointer demoChainImage 2 demoChainSb.bytes_per_block 2 = 7 ∧
    demoChainSb.total_blocks = 3 :=
  ⟨read_file_final_pointer_unused demoChainImage2 demoChainImage demoChainSb 2 5 5 0 2 [0]
      [10, 11, 12, 13, 14] (by decide) (by decide) (by decide) (by decide)
      (by
        intro c hc
        by_cases h : c < 3
        · interval_cases c
          · rfl
          · rfl
          · exact absurd rfl hc
        · have e : ∀ img : List Nat, img.length = 20 → block_bytes img 2 6 c = [] := by
            intro img hl
            unfold block_bytes file_bytes
            rw [List.drop_eq_nil_of_le (by omega)]
            rfl
          rw [show demoChainSb.bytes_per_block = 6 from rfl, e demoChainImage rfl,
            e demoChainImage2 rfl])
      (by decide) (by decide),
   by decide, rfl⟩

/-! ## Formatter: what the writes change -/

theorem getElem?_pwrite (img : List Nat) (pos : Nat) (bytes : List Nat) (p : Nat)
    (hfit : pos + bytes.length ≤ img.length) :
    (pwrite img pos bytes)[p]?
      = if pos ≤ p ∧ p < pos + bytes.length then bytes[p - pos]? else img[p]? := by
  unfold pwrite
  have hbase : img ++ List.replicate (pos - img.length) 0 = img := by
    rw [show pos - img.length = 0 by omega]
    simp
  simp only [hbase]
  have hlt : (img.take pos).length = pos := by
    rw [List.length_take]
    omega
  by_cases h1 : p < pos
  · rw [if_neg (by omega), List.append_assoc, List.getElem?_append_left (by omega),
      List.getElem?_take, if_pos h1]
  · by_cases h2 : p < pos + bytes.length
    · rw [if_pos ⟨by omega, h2⟩, List.append_assoc, List.getElem?_append_right (by omega), hlt,
        List.getElem?_append_left (by omega)]
    · rw [if_neg (by omega), List.getElem?_append_right
        (by rw [List.length_append, hlt]; omega), List.length_append, hlt,
        List.getElem?_drop]
      congr 1
      omega

theorem clear_blocks_spec (bytes_per_block : Nat) (hb : 1 ≤ bytes_per_block) (n : Nat) :
    ∀ (pos : Nat) (img : List Nat), pos + n * bytes_per_block ≤ img.length →
    (clear_blocks bytes_per_block n pos img).length = img.length ∧
    (∀ i, i < n →
      (clear_blocks bytes_per_block n pos img)[pos + i * bytes_per_block]? = some 0) ∧
    (∀ p, (∀ i, i < n → p ≠ pos + i * bytes_per_block) →
      (clear_blocks bytes_per_block n pos img)[p]? = img[p]?) := by
  induction n with
  | zero =>
      intro pos img _
      refine ⟨rfl, ?_, ?_⟩
      · intro i hi
        omega
      · intro p _
        rfl
  | succ n ih =>
      intro pos img hfit
      have e : (n + 1) * bytes_per_block = n * bytes_per_block + bytes_per_block := by
        rw [Nat.add_mul, Nat.one_mul]
      have hpos : pos + 1 + (bytes_per_block - 1) = pos + bytes_per_block := by omega
      have hfit1 : pos + ([0] : List Nat).length ≤ img.length := by
        simp only [List.length_singleton]
        omega
      have hlen1 : (pwrite img pos [0]).length = img.length := by
        rw [length_pwrite]
        simp only [List.length_singleton]
        omega
      rw [clear_blocks, hpos]
      obtain ⟨ih1, ih2, ih3⟩ := ih (pos + bytes_per_block) (pwrite img pos [0])
        (by rw [hlen1]; omega)
      refine ⟨by rw [ih1, hlen1], ?_, ?_⟩
      · intro i hi
        cases i with
        | zero =>
            rw [Nat.zero_mul, Nat.add_zero, ih3 pos (fun j _ => by
              have : 0 ≤ j * bytes_per_block := Nat.zero_le _
              omega),
              getElem?_pwrite img pos [0] pos hfit1, if_pos ⟨le_refl _, by simp⟩]
            simp
        | succ j =>
            have := ih2 j (by omega)
            have e2 : pos + (j + 1) * bytes_per_block
                = pos + bytes_per_block + j * bytes_per_block := by
              rw [Nat.add_mul, Nat.one_mul]
              omega
            rw [e2]
            exact this
      · intro p hp
        rw [ih3 p (fun j hj => by
          have := hp (j + 1) (by omega)
          rw [Nat.add_mul, Nat.one_mul] at this
          omega),
          getElem?_pwrite img pos [0] p hfit1]
        have hne : p ≠ pos := by
          have := hp 0 (by omega)
          rw [Nat.zero_mul, Nat.add_zero] at this
          exact this
        rw [if_neg (by
          simp only [List.length_singleton]
          omega)]

theorem mkfs_blocks_fit (L : Layout) (label : Option (List Nat)) (S : Nat)
    (h : L.sbSize + 255 * L.deSize ≤ S) :
    L.sbSize + 255 * L.deSize
        + (mkfs_superblock L (S : Int) label).total_blocks
          * (mkfs_superblock L (S : Int) label).bytes_per_block ≤ S := by
  have key := compute_total_blocks_of_fits L S h
  have e1 : (mkfs_superblock L (S : Int) label).total_blocks
      = compute_total_blocks L (S : Int) := rfl
  have e2 : (mkfs_superblock L (S : Int) label).bytes_per_block
      = select_bytes_per_block (S : Int) := rfl
  rw [e1, e2, key]
  have h1 : (S - L.sbSize - 255 * L.deSize) / select_bytes_per_block (S : Int) % 65536
      ≤ (S - L.sbSize - 255 * L.deSize) / select_bytes_per_block (S : Int) :=
    Nat.mod_le _ _
  have h2 := Nat.mul_le_mul_right (select_bytes_per_block (S : Int)) h1
  have h3 := Nat.div_mul_le_self (S - L.sbSize - 255 * L.deSize)
    (select_bytes_per_block (S : Int))
  omega

theorem mkfs_image_spec (L : Layout) (encode : Superblock → List Nat) (img : List Nat)
    (label : Option (List Nat)) (henc : ∀ sb, (encode sb).length = L.sbSize)
    (hS : L.sbSize + 255 * L.deSize ≤ img.length) :
    (mkfs_qfs L encode img label).image.length = img.length ∧
    (∀ i, i < (mkfs_qfs L encode img label).sb.total_blocks →
      (mkfs_qfs L encode img label).image[L.sbSize + 255 * L.deSize
        + i * (mkfs_qfs L encode img label).sb.bytes_per_block]? = some 0) ∧
    (∀ p, L.sbSize + 255 * L.deSize ≤ p →
      (∀ i, i < (mkfs_qfs L encode img label).sb.total_blocks →
        p ≠ L.sbSize + 255 * L.deSize
          + i * (mkfs_qfs L encode img label).sb.bytes_per_block) →
      (mkfs_qfs L encode img label).image[p]? = img[p]?) := by
  have hfit := mkfs_blocks_fit L label img.length hS
  have hbpos := select_bytes_per_block_pos (img.length : Int)
  have hz : (List.replicate (L.deSize * MAX_DIR_ENTRIES) 0).length = 255 * L.deSize := by
    rw [List.length_replicate, MAX_DIR_ENTRIES, Nat.mul_comm]
  have hl1 : (pwrite img 0 (encode (mkfs_superblock L (img.length : Int) label))).length
      = img.length := by
    rw [length_pwrite, henc]
    omega
  have hl2 : (pwrite (pwrite img 0 (encode (mkfs_superblock L (img.length : Int) label)))
      (encode (mkfs_superblock L (img.length : Int) label)).length
      (List.replicate (L.deSize * MAX_DIR_ENTRIES) 0)).length = img.length := by
    rw [length_pwrite, hl1, henc, hz]
    omega
  have himg : (mkfs_qfs L encode img label).image
      = clear_blocks (mkfs_superblock L (img.length : Int) label).bytes_per_block
          (mkfs_superblock L (img.length : Int) label).total_blocks
          (L.sbSize + 255 * L.deSize)
          (pwrite (pwrite img 0 (encode (mkfs_superblock L (img.length : Int) label)))
            (encode (mkfs_superblock L (img.length : Int) label)).length
            (List.replicate (L.deSize * MAX_DIR_ENTRIES) 0)) := by
    simp only [mkfs_qfs]
    rw [hz]
  have hsb : (mkfs_qfs L encode img label).sb = mkfs_superblock L (img.length : Int) label := rfl
  obtain ⟨c1, c2, c3⟩ := clear_blocks_spec
    (mkfs_superblock L (img.length : Int) label).bytes_per_block hbpos
    (mkfs_superblock L (img.length : Int) label).total_blocks (L.sbSize + 255 * L.deSize)
    (pwrite (pwrite img 0 (encode (mkfs_superblock L (img.length : Int) label)))
      (encode (mkfs_superblock L (img.length : Int) label)).length
      (List.replicate (L.deSize * MAX_DIR_ENTRIES) 0))
    (by rw [hl2]; exact hfit)
  rw [himg, hsb]
  refine ⟨by rw [c1, hl2], c2, ?_⟩
  intro p hp hne
  rw [c3 p hne, getElem?_pwrite _ _ _ _ (by rw [hl1, henc, hz]; omega),
    if_neg (by rw [henc, hz]; omega),
    getElem?_pwrite _ _ _ _ (by rw [henc]; omega),
    if_neg (by rw [henc]; omega)]

/-- C17: for an image that holds the metadata, mkfs_qfs keeps the image
length, leaves 0 in the status byte of every block `i < total_blocks` (at
offset `sizeof(superblock) + 255 * sizeof(direntry) + i * bytes_per_block`),
and leaves every other byte from the start of the data region on as it was
before formatting. -/
theorem mkfs_data_region_frame (L : Layout) (encode : Superblock → List Nat) (img : List Nat)
    (label : Option (List Nat)) (henc : ∀ sb, (encode sb).length = L.sbSize)
    (hS : L.sbSize + 255 * L.deSize ≤ img.length) :
    (mkfs_qfs L encode img label).image.length = img.length ∧
    (∀ i, i < (mkfs_qfs L encode img label).sb.total_blocks →
      (mkfs_qfs L encode img label).image[L.sbSize + 255 * L.deSize
        + i * (mkfs_qfs L encode img label).sb.bytes_per_block]? = some 0) ∧
    (∀ p, L.sbSize + 255 * L.deSize ≤ p →
      (∀ i, i < (mkfs_qfs L encode img label).sb.total_blocks →
        p ≠ L.sbSize + 255 * L.deSize
          + i * (mkfs_qfs L encode img label).sb.bytes_per_block) →
      (mkfs_qfs L encode img label).image[p]? = img[p]?) :=
  mkfs_image_spec L encode img label henc hS

theorem demoFormatImage_length : demoFormatImage.length = 9300 := by
  unfold demoFormatImage
  exact List.length_replicate _ _

/-- Witness of C17 on `demoFormatImage` (9300 bytes, 2 blocks of 512
bytes): the length is kept, the status byte of block 1 is 0 and byte 8193,
the first payload byte of block 0, keeps its value. -/
theorem mkfs_data_region_frame_witness :
    (mkfs_qfs demoLayout demoEncode demoFormatImage none).image.length
      = demoFormatImage.length ∧
    (mkfs_qfs demoLayout demoEncode demoFormatImage none).image[demoLayout.sbSize
      + 255 * demoLayout.deSize
      + 1 * (mkfs_qfs demoLayout demoEncode demoFormatImage none).sb.bytes_per_block]?
      = some 0 ∧
    (mkfs_qfs demoLayout demoEncode demoFormatImage none).image[8193]?
      = demoFormatImage[8193]? := by
  have hsb : (mkfs_qfs demoLayout demoEncode demoFormatImage none).sb
      = mkfs_superblock demoLayout (9300 : Int) none := by
    rw [mkfs_qfs_sb, demoFormatImage_length]
    rfl
  have htb : (mkfs_qfs demoLayout demoEncode demoFormatImage none).sb.total_blocks = 2 := by
    rw [hsb]
    decide
  have hbpb : (mkfs_qfs demoLayout demoEncode demoFormatImage none).sb.bytes_per_block
      = 512 := by
    rw [hsb]
    decide
  have h := mkfs_data_region_frame demoLayout demoEncode demoFormatImage none (fun _ => rfl)
    (by rw [demoFormatImage_length]; decide)
  refine ⟨h.1, h.2.1 1 (by rw [htb]; decide), h.2.2 8193 (by decide) ?_⟩
  intro i _
  rw [hbpb]
  have e : demoLayout.sbSize + 255 * demoLayout.deSize = 8192 := by decide
  rw [e]
  omega

/-! ## Formatter: the layout fits in the image -/

theorem chain_walk_no_short (img : List Nat) (sb : Superblock) (data_offset : Nat)
    (hfull : ∀ c, c < sb.total_blocks →
      (block_bytes img data_offset sb.bytes_per_block c).length = sb.bytes_per_block)
    (fuel : Nat) : ∀ (remaining cur : Nat) (out reads : List Nat) (r : ReadResult),
    chain_walk img sb data_offset fuel remaining cur out reads = some r → r.status ≠ 10 := by
  induction fuel with
  | zero =>
      intro remaining cur out reads r h
      by_cases h0 : remaining = 0
      · simp only [chain_walk, if_pos h0, Option.some.injEq] at h
        subst h
        show (0 : Nat) ≠ 10
        decide
      · simp only [chain_walk, if_neg h0] at h
        cases h
  | succ fuel ih =>
      intro remaining cur out reads r h
      by_cases h0 : remaining = 0
      · subst h0
        rw [chain_walk_zero] at h
        injection h with h
        subst h
        show (0 : Nat) ≠ 10
        decide
      · have hrem : 0 < remaining := by omega
        by_cases hcur : sb.total_blocks ≤ cur
        · rw [chain_walk_invalid img sb data_offset fuel remaining cur out reads hrem hcur] at h
          injection h with h
          subst h
          show (8 : Nat) ≠ 10
          decide
        · have hcur' : cur < sb.total_blocks := by omega
          rw [chain_walk_step img sb data_offset fuel remaining cur out reads hrem hcur'
            (hfull cur hcur')] at h
          exact ih _ _ _ _ r h

/-- C20: for an image of size `S` that holds the metadata, the superblock
mkfs_qfs stores satisfies `sizeof(superblock) + 255 * sizeof(direntry) +
total_blocks * bytes_per_block ≤ S`, with the block count as narrowed to 16
bits; the data region offset read_file and recover_files compute from it is
`sizeof(superblock) + 255 * sizeof(direntry)`; so in every image of that
size each block with an index below `total_blocks` is read in full, and the
chain walk never ends with the short-read status 10.  The formatted image
itself has size `S`. -/
theorem mkfs_layout_fits (L : Layout) (label : Option (List Nat)) (S : Nat)
    (h : L.sbSize + 255 * L.deSize ≤ S) :
    L.sbSize + 255 * L.deSize
        + (mkfs_superblock L (S : Int) label).total_blocks
          * (mkfs_superblock L (S : Int) label).bytes_per_block ≤ S ∧
    data_region_offset L (mkfs_superblock L (S : Int) label) = L.sbSize + 255 * L.deSize ∧
    (∀ img : List Nat, img.length = S →
      ∀ c, c < (mkfs_superblock L (S : Int) label).total_blocks →
        (file_bytes img
          (data_region_offset L (mkfs_superblock L (S : Int) label)
            + c * (mkfs_superblock L (S : Int) label).bytes_per_block)
          (mkfs_superblock L (S : Int) label).bytes_per_block).length
          = (mkfs_superblock L (S : Int) label).bytes_per_block) ∧
    (∀ img : List Nat, img.length = S →
      ∀ (fuel remaining cur : Nat) (out reads : List Nat) (r : ReadResult),
        chain_walk img (mkfs_superblock L (S : Int) label)
          (data_region_offset L (mkfs_superblock L (S : Int) label))
          fuel remaining cur out reads = some r → r.status ≠ 10) ∧
    (∀ (encode : Superblock → List Nat) (img : List Nat),
      (∀ sb, (encode sb).length = L.sbSize) → img.length = S →
        (mkfs_qfs L encode img label).image.length = S ∧
        (mkfs_qfs L encode img label).sb = mkfs_superblock L (S : Int) label) := by
  have hfit := mkfs_blocks_fit L label S h
  have hoff : data_region_offset L (mkfs_superblock L (S : Int) label)
      = L.sbSize + 255 * L.deSize := by
    unfold data_region_offset
    rfl
  have hfull : ∀ img : List Nat, img.length = S →
      ∀ c, c < (mkfs_superblock L (S : Int) label).total_blocks →
        (block_bytes img (data_region_offset L (mkfs_superblock L (S : Int) label))
          (mkfs_superblock L (S : Int) label).bytes_per_block c).length
          = (mkfs_superblock L (S : Int) label).bytes_per_block := by
    intro img hl c hc
    exact block_bytes_length img _ _ (mkfs_superblock L (S : Int) label).total_blocks c
      (by rw [hoff, hl]; exact hfit) hc
  refine ⟨hfit, hoff, hfull, ?_, ?_⟩
  · intro img hl fuel remaining cur out reads r hr
    exact chain_walk_no_short img _ _ (hfull img hl) fuel remaining cur out reads r hr
  · intro encode img henc hl
    subst hl
    exact ⟨(mkfs_image_spec L encode img label henc h).1, rfl⟩

/-- Witness of C20: a 4 MiB image under the example layout. -/
theorem mkfs_layout_fits_witness :
    demoLayout.sbSize + 255 * demoLayout.deSize
        + (mkfs_superblock demoLayout ((4194304 : Nat) : Int) none).total_blocks
          * (mkfs_superblock demoLayout ((4194304 : Nat) : Int) none).bytes_per_block
      ≤ 4194304 ∧
    (mkfs_superblock demoLayout ((4194304 : Nat) : Int) none).total_blocks = 8176 :=
  ⟨(mkfs_layout_fits demoLayout none 4194304 (by decide)).1, by decide⟩

/-! ## Exit statuses -/

theorem exit_status_range (t : Tool) (p : ExitPoint) (s : Nat)
    (h : exit_status t p = some s) : 1 ≤ s ∧ s ≤ 11 := by
  cases t <;> cases p <;> simp [exit_status] at h <;> omega

theorem exit_status_injective (t : Tool) (p q : ExitPoint) (s : Nat)
    (hp : exit_status t p = some s) (hq : exit_status t q = some s) : p = q := by
  cases t <;> cases p <;> simp [exit_status] at hp <;> cases q <;>
    simp [exit_status] at hq <;> first | rfl | omega

theorem list_entries_short (table : List DirEntry) (n : Nat) :
    ∀ (i : Nat) (printed : List DirEntry), table.length < i + n → i ≤ table.length →
    (list_entries table n i printed).1 = 5 := by
  induction n with
  | zero =>
      intro i printed h1 h2
      omega
  | succ n ih =>
      intro i printed h1 h2
      rw [list_entries, List.get?_eq_getElem?]
      by_cases hlt : i < table.length
      · rw [List.getElem?_eq_getElem hlt]
        simp only []
        split_ifs
        · exact ih (i + 1) _ (by omega) (by omega)
        · exact ih (i + 1) _ (by omega) (by omega)
      · rw [List.getElem?_eq_none (by omega)]

/-- C14 (amended): every failure exit returns a status between 1 and 11
and success is 0; inside one program different failure exits return
different statuses; the three programs agree on 1, 2, 3 for usage, image
open and superblock read, and list_information and read_file agree on every
exit they share; recover_files returns 4 when the buffer cannot be allocated
and 5 when an output cannot be opened, where read_file returns 7 and 6.  The
statuses of the table are those the run models return. -/
theorem exit_status_table :
    (∀ (t : Tool) (p : ExitPoint) (s : Nat), exit_status t p = some s → 1 ≤ s ∧ s ≤ 11) ∧
    (∀ (t : Tool) (p q : ExitPoint) (s : Nat),
      exit_status t p = some s → exit_status t q = some s → p = q) ∧
    (∀ t : Tool, exit_status t .usage = some 1 ∧ exit_status t .open_image = some 2 ∧
      exit_status t .read_superblock = some 3) ∧
    (∀ (p : ExitPoint) (s : Nat), exit_status .list_information p = some s →
      exit_status .read_file p = some s) ∧
    (exit_status .recover_files .allocate = some 4 ∧
      exit_status .recover_files .open_output = some 5 ∧
      exit_status .read_file .allocate = some 7 ∧
      exit_status .read_file .open_output = some 6) ∧
    (∀ (L : Layout) (sb : Superblock) (img buffer0 : List Nat),
      (recover_files_main false L sb img buffer0).1 = 4 ∧
      (recover_files_main true L sb img buffer0).1 = 0) ∧
    (∀ (L : Layout) (sb : Superblock) (table : List DirEntry) (img fileName : List Nat)
        (fuel : Nat) (e : DirEntry),
      find_entry L table fileName sb.total_direntries 0 = .ok (some e) →
        read_file L ⟨true, false⟩ sb table img fileName fuel = some ⟨7, some [], []⟩ ∧
        read_file L ⟨false, true⟩ sb table img fileName fuel = some ⟨6, none, []⟩) ∧
    (∀ (sb : Superblock) (table : List DirEntry), table.length < sb.total_direntries →
      (list_information sb table).1 = 5) := by
  refine ⟨exit_status_range, exit_status_injective, ?_, ?_, ⟨rfl, rfl, rfl, rfl⟩, ?_, ?_, ?_⟩
  · intro t
    cases t <;> exact ⟨rfl, rfl, rfl⟩
  · intro p s h
    cases p <;> simp [exit_status] at h ⊢ <;> exact h
  · intro L sb img buffer0
    exact ⟨rfl, rfl⟩
  · intro L sb table img fileName fuel e hfind
    unfold read_file
    rw [hfind]
    exact ⟨rfl, rfl⟩
  · intro sb table hlt
    exact list_entries_short table sb.total_direntries 0 [] (by omega) (Nat.zero_le _)

/-- C14 as stated fails: failure to allocate the block buffer is status 7
in read_file and status 4 in recover_files, and status 4 stands for a seek
failure in read_file and list_information but for an allocation failure in
recover_files. -/
theorem exit_status_inconsistent :
    exit_status .read_file .allocate = some 7 ∧
    exit_status .recover_files .allocate = some 4 ∧
    exit_status .read_file .seek_directory = some 4 ∧
    exit_status .list_information .seek_directory = some 4 ∧
    failure_class .seek_directory ≠ failure_class .allocate ∧
    (recover_files_main false demoLayout (demoCarveSb 4) demoCarveImage
      (List.replicate 6 0)).1 = 4 ∧
    read_file demoLayout ⟨true, false⟩ demoDirSb demoTable demoChainImage [97] 5
      = some ⟨7, some [], []⟩ := by
  refine ⟨rfl, rfl, rfl, rfl, by decide, rfl, rfl⟩

/-! ## Carver: emission without an end marker, and where emission stops -/

theorem payload_stream_length (img : List Nat) (data_offset block_size total_blocks : Nat)
    (h3 : 3 ≤ block_size)
    (hwf : data_offset + total_blocks * block_size ≤ img.length) (n : Nat) :
    ∀ c, c + n ≤ total_blocks →
    (payload_stream img data_offset block_size n c).length = n * (block_size - 3) := by
  induction n with
  | zero =>
      intro c _
      simp [payload_stream]
  | succ n ih =>
      intro c hc
      rw [payload_stream, List.length_append, ih (c + 1) (by omega),
        payload_region_length img data_offset block_size c h3
          (block_bytes_length img data_offset block_size total_blocks c hwf (by omega)),
        Nat.add_mul, Nat.one_mul]
      omega

theorem payload_stream_add (img : List Nat) (data_offset block_size : Nat) (a b : Nat) :
    ∀ c, payload_stream img data_offset block_size (a + b) c
      = payload_stream img data_offset block_size a c
        ++ payload_stream img data_offset block_size b (c + a) := by
  induction a with
  | zero =>
      intro c
      simp [payload_stream]
  | succ a ih =>
      intro c
      rw [show a + 1 + b = (a + b) + 1 by omega, payload_stream, payload_stream, ih (c + 1),
        List.append_assoc, show c + 1 + a = c + (a + 1) by omega]

theorem emit_list_no_end_prev (S : List Nat) : ∀ (s : EmitState),
    s.has_prev = true →
    (∀ t, t < S.length → ¬ ((s.prev :: S)[t]? = some 0xFF ∧ S[t]? = some 0xD9)) →
    (emit_list S s).out = s.out ++ S ∧ (emit_list S s).found_end = s.found_end := by
  induction S with
  | nil =>
      intro s _ _
      simp [emit_list]
  | cons x S ih =>
      intro s hp hno
      have hne : ¬ (s.prev = 0xFF ∧ x = 0xD9) := by
        intro hc
        apply hno 0 (by simp)
        simp [hc.1, hc.2]
      have he : (s.has_prev && is_jpg_end s.prev x) = false := by
        rw [hp, Bool.true_and]
        unfold is_jpg_end
        by_cases ha : s.prev = 0xFF
        · have hb : x ≠ 0xD9 := fun hb => hne ⟨ha, hb⟩
          simp [ha, hb]
        · simp [ha]
      simp only [emit_list, he, Bool.false_eq_true, if_false]
      obtain ⟨r1, r2⟩ := ih ⟨s.out ++ [x], x, true, s.found_end⟩ rfl
        (fun t ht hc => hno (t + 1) (by simp; omega) (by simpa using hc))
      refine ⟨?_, r2⟩
      rw [r1]
      simp

theorem emit_list_no_end (S : List Nat) (h : no_end_marker S) :
    (emit_list S ⟨[], 0, false, false⟩).out = S ∧
    (emit_list S ⟨[], 0, false, false⟩).found_end = false := by
  cases S with
  | nil => exact ⟨rfl, rfl⟩
  | cons x S =>
      have he : ((false : Bool) && is_jpg_end 0 x) = false := rfl
      simp only [emit_list, he, Bool.false_eq_true, if_false]
      obtain ⟨r1, r2⟩ := emit_list_no_end_prev S ⟨[] ++ [x], x, true, false⟩ rfl
        (fun t ht hc => h (t + 1) (by simp; omega) (by omega) (by simpa using hc))
      refine ⟨?_, r2⟩
      rw [r1]
      simp

theorem emit_list_out_take_prev (S : List Nat) : ∀ (s : EmitState),
    ∃ m, (emit_list S s).out = s.out ++ S.take m ∧ min 1 S.length ≤ m := by
  induction S with
  | nil =>
      intro s
      exact ⟨0, by simp [emit_list], by simp⟩
  | cons x S ih =>
      intro s
      by_cases he : (s.has_prev && is_jpg_end s.prev x) = true
      · refine ⟨1, ?_, by simp⟩
        simp [emit_list, he]
      · obtain ⟨m, hm, _⟩ := ih ⟨s.out ++ [x], x, true, s.found_end⟩
        refine ⟨m + 1, ?_, by simp⟩
        simp only [emit_list, he, Bool.false_eq_true, if_false]
        rw [hm]
        simp

theorem emit_list_out_take (S : List Nat) :
    ∃ m, (emit_list S ⟨[], 0, false, false⟩).out = S.take m ∧ min 2 S.length ≤ m := by
  cases S with
  | nil => exact ⟨0, rfl, by simp⟩
  | cons x S =>
      have he : ((false : Bool) && is_jpg_end 0 x) = false := rfl
      obtain ⟨m, hm, hle⟩ := emit_list_out_take_prev S ⟨[] ++ [x], x, true, false⟩
      refine ⟨m + 1, ?_, ?_⟩
      · simp only [emit_list, he, Bool.false_eq_true, if_false]
        rw [hm]
        simp
      · simp only [List.length_cons]
        omega

theorem scan_blocks_outs_prefix (img : List Nat)
    (block_size total_blocks data_offset payload_len : Nat) (fuel : Nat) :
    ∀ (b : Nat) (buffer : List Nat) (outs : List (List Nat)),
    ∃ rest, scan_blocks img block_size total_blocks data_offset payload_len fuel b buffer outs
      = outs ++ rest := by
  induction fuel with
  | zero =>
      intro b buffer outs
      exact ⟨[], by simp [scan_blocks]⟩
  | succ fuel ih =>
      intro b buffer outs
      rw [scan_blocks]
      by_cases hb : total_blocks ≤ b
      · exact ⟨[], by simp [hb]⟩
      · simp only [ge_iff_le, hb, if_false]
        cases hfind : find_start
            (fread_into buffer (file_bytes img (data_offset + b * block_size) block_size))
            (payload_len - 1) 0 with
        | none =>
            exact ih _ _ _
        | some i =>
            obtain ⟨rest, hrest⟩ := ih
              ((emit_blocks img block_size data_offset payload_len i (total_blocks - b) b b
                (fread_into buffer (file_bytes img (data_offset + b * block_size) block_size))
                ⟨[], 0, false, false⟩).2.2 + 1)
              (emit_blocks img block_size data_offset payload_len i (total_blocks - b) b b
                (fread_into buffer (file_bytes img (data_offset + b * block_size) block_size))
                ⟨[], 0, false, false⟩).2.1
              (outs ++ [(emit_blocks img block_size data_offset payload_len i
                (total_blocks - b) b b
                (fread_into buffer (file_bytes img (data_offset + b * block_size) block_size))
                ⟨[], 0, false, false⟩).1.out])
            refine ⟨[(emit_blocks img block_size data_offset payload_len i
                (total_blocks - b) b b
                (fread_into buffer (file_bytes img (data_offset + b * block_size) block_size))
                ⟨[], 0, false, false⟩).1.out] ++ rest, ?_⟩
            simp only []
            rw [hrest, List.append_assoc]

theorem emit_blocks_b_unchanged (img : List Nat) (block_size data_offset payload_len i n : Nat) :
    ∀ (cur b : Nat) (buffer : List Nat) (s : EmitState), s.found_end = false →
    (emit_blocks img block_size data_offset payload_len i n cur b buffer s).1.found_end = false →
    (emit_blocks img block_size data_offset payload_len i n cur b buffer s).2.2 = b := by
  induction n with
  | zero =>
      intro cur b buffer s _ _
      rfl
  | succ n ih =>
      intro cur b buffer s hs hres
      rw [emit_blocks] at hres ⊢
      simp only [hs, Bool.false_eq_true, if_false] at hres ⊢
      by_cases hf : (emit_bytes
          (if cur ≠ b then
            fread_into buffer (file_bytes img (data_offset + cur * block_size) block_size)
          else buffer)
          (payload_len - if cur = b then i else 0) (if cur = b then i else 0) s).found_end
          = true
      · rw [emit_blocks_found _ _ _ _ _ _ _ _ _ _ hf] at hres
        rw [hf] at hres
        cases hres
      · have hf' : (emit_bytes
            (if cur ≠ b then
              fread_into buffer (file_bytes img (data_offset + cur * block_size) block_size)
            else buffer)
            (payload_len - if cur = b then i else 0) (if cur = b then i else 0) s).found_end
            = false := by
          simpa using hf
        simp only [hf', Bool.false_eq_true, if_false] at hres ⊢
        exact ih _ _ _ _ hf' hres

theorem emit_blocks_later_stop (img : List Nat) (data_offset block_size total_blocks i : Nat)
    (h3 : 3 ≤ block_size)
    (hwf : data_offset + total_blocks * block_size ≤ img.length) (m : Nat) :
    ∀ (n cur b : Nat) (buffer : List Nat) (s : EmitState),
    b < cur → cur + n ≤ total_blocks → m < n → s.found_end = false →
    (emit_list (payload_stream img data_offset block_size m cur) s).found_end = false →
    (emit_list (payload_stream img data_offset block_size (m + 1) cur) s).found_end = true →
    (emit_blocks img block_size data_offset (block_size - 3) i n cur b buffer s).2.2
      = cur + m := by
  induction m with
  | zero =>
      intro n cur b buffer s hbc hle hmn hs _ hfound
      obtain ⟨n', rfl⟩ : ∃ n', n = n' + 1 := ⟨n - 1, by omega⟩
      have hcur : cur < total_blocks := by omega
      have hs1 := emit_bytes_payload img
        (fread_into buffer (file_bytes img (data_offset + cur * block_size) block_size))
        data_offset block_size total_blocks cur 0 s h3 hwf hcur (Nat.zero_le _)
        (payloadEq_fread img buffer data_offset block_size total_blocks cur h3 hwf hcur)
      rw [List.drop_zero] at hs1
      have hf : (emit_list (payload_region img data_offset block_size cur) s).found_end
          = true := by
        simpa [payload_stream] using hfound
      rw [emit_blocks_succ_ne img block_size data_offset (block_size - 3) i n' cur b buffer s
        hs (by omega), hs1, if_pos hf, emit_blocks_found _ _ _ _ _ _ _ _ _ _ hf]
      rfl
  | succ m ih =>
      intro n cur b buffer s hbc hle hmn hs hnot hfound
      obtain ⟨n', rfl⟩ : ∃ n', n = n' + 1 := ⟨n - 1, by omega⟩
      have hcur : cur < total_blocks := by omega
      have hs1 := emit_bytes_payload img
        (fread_into buffer (file_bytes img (data_offset + cur * block_size) block_size))
        data_offset block_size total_blocks cur 0 s h3 hwf hcur (Nat.zero_le _)
        (payloadEq_fread img buffer data_offset block_size total_blocks cur h3 hwf hcur)
      rw [List.drop_zero] at hs1
      rw [payload_stream, emit_list_append _ _ s hs] at hnot hfound
      have hf : (emit_list (payload_region img data_offset block_size cur) s).found_end
          = false := by
        cases hv : (emit_list (payload_region img data_offset block_size cur) s).found_end
        · rfl
        · rw [if_pos hv, hv] at hnot
          cases hnot
      rw [if_neg (by simp [hf])] at hnot hfound
      rw [emit_blocks_succ_ne img block_size data_offset (block_size - 3) i n' cur b buffer s
        hs (by omega), hs1, if_neg (by simp [hf]),
        ih n' (cur + 1) b _ _ (by omega) (by omega) (by omega) hf hnot hfound]
      omega

theorem emit_blocks_first_stop (img : List Nat) (data_offset block_size total_blocks i : Nat)
    (h3 : 3 ≤ block_size)
    (hwf : data_offset + total_blocks * block_size ≤ img.length) (n b m : Nat)
    (buffer : List Nat) (s : EmitState)
    (hle : b + (n + 1) ≤ total_blocks) (hi : i ≤ block_size - 3) (hs : s.found_end = false)
    (hb : PayloadEq (block_size - 3) buffer (block_bytes img data_offset block_size b))
    (hmn : m ≤ n)
    (hnot : ∀ m', m' < m →
      (emit_list ((payload_region img data_offset block_size b).drop i
        ++ payload_stream img data_offset block_size m' (b + 1)) s).found_end = false)
    (hfound : (emit_list ((payload_region img data_offset block_size b).drop i
        ++ payload_stream img data_offset block_size m (b + 1)) s).found_end = true) :
    (emit_blocks img block_size data_offset (block_size - 3) i (n + 1) b b buffer s).2.2
      = b + m := by
  have hcur : b < total_blocks := by omega
  rw [emit_blocks_succ_eq img block_size data_offset (block_size - 3) i n b buffer s hs,
    emit_bytes_payload img buffer data_offset block_size total_blocks b i s h3 hwf hcur hi hb]
  cases m with
  | zero =>
      have hf : (emit_list ((payload_region img data_offset block_size b).drop i) s).found_end
          = true := by
        simpa [payload_stream] using hfound
      rw [emit_blocks_found _ _ _ _ _ _ _ _ _ _ hf]
      rfl
  | succ m =>
      have hf : (emit_list ((payload_region img data_offset block_size b).drop i) s).found_end
          = false := by
        simpa [payload_stream] using hnot 0 (by omega)
      have hnot' := hnot m (by omega)
      rw [emit_list_append _ _ s hs, if_neg (by simp [hf])] at hnot' hfound
      rw [emit_blocks_later_stop img data_offset block_size total_blocks i h3 hwf m n (b + 1) b
        buffer _ (by omega) (by omega) (by omega) hf hnot' hfound]
      omega

theorem first_end_part_found (S1 S2 : List Nat) (t : Nat) (h : first_end_at (S1 ++ S2) t)
    (ht : t < S1.length) :
    (emit_list S1 ⟨[], 0, false, false⟩).found_end = true := by
  obtain ⟨h0, h1, h2, hfirst⟩ := h
  have e : ∀ k, k < S1.length → (S1 ++ S2)[k]? = S1[k]? :=
    fun k hk => List.getElem?_append_left hk
  apply (emit_list_first_end S1 t _).2
  refine ⟨h0, (e (t - 1) (by omega)).symm.trans h1, (e t ht).symm.trans h2, ?_⟩
  intro t' h3 h4 hc
  exact hfirst t' h3 h4 ⟨(e (t' - 1) (by omega)).trans hc.1, (e t' (by omega)).trans hc.2⟩

theorem first_end_part_not_found (S1 S2 : List Nat) (t : Nat) (h : first_end_at (S1 ++ S2) t)
    (ht : S1.length ≤ t) :
    (emit_list S1 ⟨[], 0, false, false⟩).found_end = false := by
  obtain ⟨-, -, -, hfirst⟩ := h
  have e : ∀ k, k < S1.length → (S1 ++ S2)[k]? = S1[k]? :=
    fun k hk => List.getElem?_append_left hk
  apply (emit_list_no_end S1 _).2
  intro t' h3 h4 hc
  exact hfirst t' (by omega) h4
    ⟨(e (t' - 1) (by omega)).trans hc.1, (e t' h3).trans hc.2⟩

/-! ## Carver: closing an output and resuming the scan -/

theorem start_index_lt (img : List Nat) (data_offset block_size total_blocks N i : Nat)
    (h3 : 3 ≤ block_size)
    (hwf : data_offset + total_blocks * block_size ≤ img.length) (hN : N < total_blocks)
    (hstart : (payload_region img data_offset block_size N)[i]? = some 0xFF ∧
      (payload_region img data_offset block_size N)[i + 1]? = some 0xD8) :
    i + 1 < block_size - 3 := by
  have hplen := payload_region_length img data_offset block_size N h3
    (block_bytes_length img data_offset block_size total_blocks N hwf hN)
  by_contra hc
  have h2 := hstart.2
  rw [List.getElem?_eq_none (by omega)] at h2
  cases h2

theorem scan_blocks_carve (img : List Nat) (data_offset block_size total_blocks : Nat)
    (h3 : 3 ≤ block_size)
    (hwf : data_offset + total_blocks * block_size ≤ img.length)
    (fuel N i t m : Nat) (buffer : List Nat) (outs : List (List Nat))
    (hm : N + m < total_blocks)
    (hstart : (payload_region img data_offset block_size N)[i]? = some 0xFF ∧
      (payload_region img data_offset block_size N)[i + 1]? = some 0xD8)
    (hno : ∀ j, j < i → ¬ ((payload_region img data_offset block_size N)[j]? = some 0xFF ∧
      (payload_region img data_offset block_size N)[j + 1]? = some 0xD8))
    (hend : first_end_at
      ((payload_region img data_offset block_size N).drop i
        ++ payload_stream img data_offset block_size (total_blocks - N - 1) (N + 1)) t)
    (hpos1 : m * (block_size - 3) ≤ t + i) (hpos2 : t + i < (m + 1) * (block_size - 3)) :
    ∃ buffer',
      scan_blocks img block_size total_blocks data_offset (block_size - 3) (fuel + 1) N
          buffer outs
        = scan_blocks img block_size total_blocks data_offset (block_size - 3) fuel
            (N + m + 1) buffer'
            (outs ++ [((payload_region img data_offset block_size N).drop i
              ++ payload_stream img data_offset block_size (total_blocks - N - 1)
                  (N + 1)).take (t + 1)]) := by
  have hN : N < total_blocks := by omega
  have hi := start_index_lt img data_offset block_size total_blocks N i h3 hwf hN hstart
  have hplen := payload_region_length img data_offset block_size N h3
    (block_bytes_length img data_offset block_size total_blocks N hwf hN)
  obtain ⟨n, hn⟩ : ∃ n, total_blocks - N - 1 = n := ⟨_, rfl⟩
  rw [hn] at hend ⊢
  have e1 : total_blocks - N = n + 1 := by omega
  have hpe := payloadEq_fread img buffer data_offset block_size total_blocks N h3 hwf hN
  have hlenA : ∀ m', N + 1 + m' ≤ total_blocks →
      ((payload_region img data_offset block_size N).drop i
        ++ payload_stream img data_offset block_size m' (N + 1)).length
        = (block_size - 3 - i) + m' * (block_size - 3) := by
    intro m' hm'
    rw [List.length_append, List.length_drop, hplen,
      payload_stream_length img data_offset block_size total_blocks h3 hwf m' (N + 1) hm']
  have hsplit : ∀ m', m' ≤ n →
      (payload_region img data_offset block_size N).drop i
        ++ payload_stream img data_offset block_size n (N + 1)
      = ((payload_region img data_offset block_size N).drop i
          ++ payload_stream img data_offset block_size m' (N + 1))
        ++ payload_stream img data_offset block_size (n - m') (N + 1 + m') := by
    intro m' hm'
    rw [List.append_assoc, ← payload_stream_add, show m' + (n - m') = n by omega]
  have hstop := emit_blocks_first_stop img data_offset block_size total_blocks i h3 hwf n N m
    (fread_into buffer (file_bytes img (data_offset + N * block_size) block_size))
    ⟨[], 0, false, false⟩ (by omega) (by omega) rfl hpe (by omega)
    (fun m' hm' => by
      have hmul : (m' + 1) * (block_size - 3) ≤ m * (block_size - 3) :=
        Nat.mul_le_mul_right _ (by omega)
      rw [Nat.add_mul, Nat.one_mul] at hmul
      apply first_end_part_not_found _ _ t (by rw [← hsplit m' (by omega)]; exact hend)
      rw [hlenA m' (by omega)]
      omega)
    (by
      have hmul : (m + 1) * (block_size - 3) = m * (block_size - 3) + (block_size - 3) := by
        rw [Nat.add_mul, Nat.one_mul]
      apply first_end_part_found _ _ t (by rw [← hsplit m (by omega)]; exact hend)
      rw [hlenA m (by omega)]
      omega)
  have hfirst := emit_blocks_first img data_offset block_size total_blocks i h3 hwf n N
    (fread_into buffer (file_bytes img (data_offset + N * block_size) block_size))
    ⟨[], 0, false, false⟩ (by omega) (by omega) rfl hpe
  rw [scan_blocks_hit img data_offset block_size total_blocks h3 hwf fuel N i buffer outs hN hi
    hstart hno, e1, hstop, hfirst.1, (emit_list_first_end _ t hend).1]
  exact ⟨_, rfl⟩

theorem scan_blocks_carve_open (img : List Nat) (data_offset block_size total_blocks : Nat)
    (h3 : 3 ≤ block_size)
    (hwf : data_offset + total_blocks * block_size ≤ img.length)
    (fuel N i : Nat) (buffer : List Nat) (outs : List (List Nat))
    (hN : N < total_blocks)
    (hstart : (payload_region img data_offset block_size N)[i]? = some 0xFF ∧
      (payload_region img data_offset block_size N)[i + 1]? = some 0xD8)
    (hno : ∀ j, j < i → ¬ ((payload_region img data_offset block_size N)[j]? = some 0xFF ∧
      (payload_region img data_offset block_size N)[j + 1]? = some 0xD8))
    (hnoend : no_end_marker
      ((payload_region img data_offset block_size N).drop i
        ++ payload_stream img data_offset block_size (total_blocks - N - 1) (N + 1))) :
    ∃ buffer',
      scan_blocks img block_size total_blocks data_offset (block_size - 3) (fuel + 1) N
          buffer outs
        = scan_blocks img block_size total_blocks data_offset (block_size - 3) fuel
            (N + 1) buffer'
            (outs ++ [(payload_region img data_offset block_size N).drop i
              ++ payload_stream img data_offset block_size (total_blocks - N - 1)
                  (N + 1)]) := by
  have hi := start_index_lt img data_offset block_size total_blocks N i h3 hwf hN hstart
  obtain ⟨n, hn⟩ : ∃ n, total_blocks - N - 1 = n := ⟨_, rfl⟩
  rw [hn] at hnoend ⊢
  have e1 : total_blocks - N = n + 1 := by omega
  have hpe := payloadEq_fread img buffer data_offset block_size total_blocks N h3 hwf hN
  have hfirst := emit_blocks_first img data_offset block_size total_blocks i h3 hwf n N
    (fread_into buffer (file_bytes img (data_offset + N * block_size) block_size))
    ⟨[], 0, false, false⟩ (by omega) (by omega) rfl hpe
  have hres := emit_list_no_end _ hnoend
  have hb := emit_blocks_b_unchanged img block_size data_offset (block_size - 3) i (n + 1) N N
    (fread_into buffer (file_bytes img (data_offset + N * block_size) block_size))
    ⟨[], 0, false, false⟩ rfl (by rw [hfirst.1]; exact hres.2)
  rw [scan_blocks_hit img data_offset block_size total_blocks h3 hwf fuel N i buffer outs hN hi
    hstart hno, e1, hb, hfirst.1, hres.1]
  exact ⟨_, rfl⟩

theorem no_marker_all (img : List Nat) (data_offset block_size total_blocks c : Nat)
    (h3 : 3 ≤ block_size)
    (hwf : data_offset + total_blocks * block_size ≤ img.length) (hc : c < total_blocks)
    (h : ∀ j, j < block_size - 3 →
      ¬ ((payload_region img data_offset block_size c)[j]? = some 0xFF ∧
        (payload_region img data_offset block_size c)[j + 1]? = some 0xD8)) :
    ∀ j, ¬ ((payload_region img data_offset block_size c)[j]? = some 0xFF ∧
      (payload_region img data_offset block_size c)[j + 1]? = some 0xD8) := by
  intro j hj
  have := start_index_lt img data_offset block_size total_blocks c j h3 hwf hc hj
  exact h j (by omega) hj

/-- C18: in an image that holds all its blocks, when the scan is at block
`N`, the first start marker of that block is at payload position `i`, and
the payload stream from there to the end of the last block completes no end
marker, the run still produces an output for it: the outputs so far are
followed by that whole stream, as the output with the next number.  When no
block before `N` holds a start marker, it is `recovered_file_0`. -/
theorem recover_files_unterminated (L : Layout) (sb : Superblock) (img : List Nat) (N i : Nat)
    (h3 : 3 ≤ sb.bytes_per_block) (h16 : sb.bytes_per_block < 65536)
    (hwf : data_region_offset L sb + sb.total_blocks * sb.bytes_per_block ≤ img.length)
    (hN : N < sb.total_blocks)
    (hstart : (payload_region img (data_region_offset L sb) sb.bytes_per_block N)[i]?
        = some 0xFF ∧
      (payload_region img (data_region_offset L sb) sb.bytes_per_block N)[i + 1]? = some 0xD8)
    (hno : ∀ j, j < i →
      ¬ ((payload_region img (data_region_offset L sb) sb.bytes_per_block N)[j]? = some 0xFF ∧
        (payload_region img (data_region_offset L sb) sb.bytes_per_block N)[j + 1]?
          = some 0xD8))
    (hnoend : no_end_marker
      ((payload_region img (data_region_offset L sb) sb.bytes_per_block N).drop i
        ++ payload_stream img (data_region_offset L sb) sb.bytes_per_block
            (sb.total_blocks - N - 1) (N + 1))) :
    (∀ (fuel : Nat) (buffer : List Nat) (outs : List (List Nat)),
      ∃ rest, scan_blocks img sb.bytes_per_block sb.total_blocks (data_region_offset L sb)
          (to_uint32 ((sb.bytes_per_block : Int) - 3)) (fuel + 1) N buffer outs
        = outs ++ [(payload_region img (data_region_offset L sb) sb.bytes_per_block N).drop i
            ++ payload_stream img (data_region_offset L sb) sb.bytes_per_block
                (sb.total_blocks - N - 1) (N + 1)] ++ rest) ∧
    ((∀ c, c < N → ∀ j, j < sb.bytes_per_block - 3 →
        ¬ ((payload_region img (data_region_offset L sb) sb.bytes_per_block c)[j]?
            = some 0xFF ∧
          (payload_region img (data_region_offset L sb) sb.bytes_per_block c)[j + 1]?
            = some 0xD8)) →
      ∀ buffer0 : List Nat, ∃ rest, recover_files L sb img buffer0
        = ((payload_region img (data_region_offset L sb) sb.bytes_per_block N).drop i
            ++ payload_stream img (data_region_offset L sb) sb.bytes_per_block
                (sb.total_blocks - N - 1) (N + 1)) :: rest) := by
  have hP := to_uint32_sub_three sb.bytes_per_block h3 h16
  have part1 : ∀ (fuel : Nat) (buffer : List Nat) (outs : List (List Nat)),
      ∃ rest, scan_blocks img sb.bytes_per_block sb.total_blocks (data_region_offset L sb)
          (sb.bytes_per_block - 3) (fuel + 1) N buffer outs
        = outs ++ [(payload_region img (data_region_offset L sb) sb.bytes_per_block N).drop i
            ++ payload_stream img (data_region_offset L sb) sb.bytes_per_block
                (sb.total_blocks - N - 1) (N + 1)] ++ rest := by
    intro fuel buffer outs
    obtain ⟨buffer', hb⟩ := scan_blocks_carve_open img (data_region_offset L sb)
      sb.bytes_per_block sb.total_blocks h3 hwf fuel N i buffer outs hN hstart hno hnoend
    obtain ⟨rest, hrest⟩ := scan_blocks_outs_prefix img sb.bytes_per_block sb.total_blocks
      (data_region_offset L sb) (sb.bytes_per_block - 3) fuel (N + 1) buffer'
      (outs ++ [(payload_region img (data_region_offset L sb) sb.bytes_per_block N).drop i
        ++ payload_stream img (data_region_offset L sb) sb.bytes_per_block
            (sb.total_blocks - N - 1) (N + 1)])
    exact ⟨rest, by rw [hb, hrest]⟩
  rw [hP]
  refine ⟨part1, ?_⟩
  intro hbefore buffer0
  unfold recover_files
  simp only [hP]
  obtain ⟨buffer', hskip⟩ := scan_blocks_skip_to img (data_region_offset L sb) sb.bytes_per_block
    sb.total_blocks h3 hwf (sb.total_blocks - N) N [] (le_of_lt hN)
    (fun c hc => no_marker_all img (data_region_offset L sb) sb.bytes_per_block sb.total_blocks
      c h3 hwf (by omega) (hbefore c hc))
    N 0 buffer0 (by omega)
  rw [show sb.total_blocks - N + N = sb.total_blocks by omega] at hskip
  obtain ⟨rest, hrest⟩ := part1 (sb.total_blocks - N - 1) buffer' []
  rw [show sb.total_blocks - N - 1 + 1 = sb.total_blocks - N by omega] at hrest
  exact ⟨rest, by rw [hskip, hrest]; rfl⟩

/-- Witness of C18 on `demoOpenImage`: the stream from the start marker of
block 1 to the end of block 2 is output 0, although it is never closed by an
end marker; the scan then goes on with block 2. -/
theorem recover_files_unterminated_witness :
    (∃ rest, recover_files demoLayout (demoCarveSb 3) demoOpenImage (List.replicate 6 0)
      = ((payload_region demoOpenImage (data_region_offset demoLayout (demoCarveSb 3))
            (demoCarveSb 3).bytes_per_block 1).drop 0
          ++ payload_stream demoOpenImage (data_region_offset demoLayout (demoCarveSb 3))
              (demoCarveSb 3).bytes_per_block ((demoCarveSb 3).total_blocks - 1 - 1) (1 + 1))
        :: rest) ∧
    recover_files demoLayout (demoCarveSb 3) demoOpenImage (List.replicate 6 0)
      = [[0xFF, 0xD8, 6, 0xFF, 0xD8, 9], [0xFF, 0xD8, 9]] :=
  ⟨(recover_files_unterminated demoLayout (demoCarveSb 3) demoOpenImage 1 0 (by decide)
      (by decide) (by decide) (by decide) (by decide) (by decide) (by decide)).2 (by decide)
      (List.replicate 6 0),
   by decide⟩

/-- C15: in an image that holds all its blocks, when the scan is at block
`N`, the first start marker of that block is at payload position `i`, and
the first end marker of the stream from there is completed at stream
position `t`, which lies in block `N + m`, then the output is closed with the
end marker and the scan goes on with block `N + m + 1`, whatever follows the
end marker in block `N + m`.  So when no block after `N + m` holds a start
marker no further output is opened, also when a start marker follows the end
marker inside block `N + m`; and when block `N + m + 1` holds a start
marker, the first one at payload position `i2`, the next output is the
stream from that position (at least its first two bytes). -/
theorem recover_files_resume (L : Layout) (sb : Superblock) (img : List Nat) (N i t m : Nat)
    (h3 : 3 ≤ sb.bytes_per_block) (h16 : sb.bytes_per_block < 65536)
    (hwf : data_region_offset L sb + sb.total_blocks * sb.bytes_per_block ≤ img.length)
    (hm : N + m < sb.total_blocks)
    (hstart : (payload_region img (data_region_offset L sb) sb.bytes_per_block N)[i]?
        = some 0xFF ∧
      (payload_region img (data_region_offset L sb) sb.bytes_per_block N)[i + 1]? = some 0xD8)
    (hno : ∀ j, j < i →
      ¬ ((payload_region img (data_region_offset L sb) sb.bytes_per_block N)[j]? = some 0xFF ∧
        (payload_region img (data_region_offset L sb) sb.bytes_per_block N)[j + 1]?
          = some 0xD8))
    (hend : first_end_at
      ((payload_region img (data_region_offset L sb) sb.bytes_per_block N).drop i
        ++ payload_stream img (data_region_offset L sb) sb.bytes_per_block
            (sb.total_blocks - N - 1) (N + 1)) t)
    (hpos1 : m * (sb.bytes_per_block - 3) ≤ t + i)
    (hpos2 : t + i < (m + 1) * (sb.bytes_per_block - 3)) :
    (∀ (fuel : Nat) (buffer : List Nat) (outs : List (List Nat)),
      ∃ buffer', scan_blocks img sb.bytes_per_block sb.total_blocks (data_region_offset L sb)
          (to_uint32 ((sb.bytes_per_block : Int) - 3)) (fuel + 1) N buffer outs
        = scan_blocks img sb.bytes_per_block sb.total_blocks (data_region_offset L sb)
            (to_uint32 ((sb.bytes_per_block : Int) - 3)) fuel (N + m + 1) buffer'
            (outs ++ [((payload_region img (data_region_offset L sb) sb.bytes_per_block
                N).drop i
              ++ payload_stream img (data_region_offset L sb) sb.bytes_per_block
                  (sb.total_blocks - N - 1) (N + 1)).take (t + 1)])) ∧
    ((∀ c, c < sb.total_blocks → N + m < c → ∀ j, j < sb.bytes_per_block - 3 →
        ¬ ((payload_region img (data_region_offset L sb) sb.bytes_per_block c)[j]?
            = some 0xFF ∧
          (payload_region img (data_region_offset L sb) sb.bytes_per_block c)[j + 1]?
            = some 0xD8)) →
      (∀ (fuel : Nat) (buffer : List Nat) (outs : List (List Nat)),
        scan_blocks img sb.bytes_per_block sb.total_blocks (data_region_offset L sb)
            (to_uint32 ((sb.bytes_per_block : Int) - 3)) (fuel + 1) N buffer outs
          = outs ++ [((payload_region img (data_region_offset L sb) sb.bytes_per_block
                N).drop i
              ++ payload_stream img (data_region_offset L sb) sb.bytes_per_block
                  (sb.total_blocks - N - 1) (N + 1)).take (t + 1)]) ∧
      ((∀ c, c < N → ∀ j, j < sb.bytes_per_block - 3 →
          ¬ ((payload_region img (data_region_offset L sb) sb.bytes_per_block c)[j]?
              = some 0xFF ∧
            (payload_region img (data_region_offset L sb) sb.bytes_per_block c)[j + 1]?
              = some 0xD8)) →
        ∀ buffer0 : List Nat, recover_files L sb img buffer0
          = [((payload_region img (data_region_offset L sb) sb.bytes_per_block N).drop i
              ++ payload_stream img (data_region_offset L sb) sb.bytes_per_block
                  (sb.total_blocks - N - 1) (N + 1)).take (t + 1)])) ∧
    (∀ i2, N + m + 1 < sb.total_blocks →
      ((payload_region img (data_region_offset L sb) sb.bytes_per_block (N + m + 1))[i2]?
          = some 0xFF ∧
        (payload_region img (data_region_offset L sb) sb.bytes_per_block (N + m + 1))[i2 + 1]?
          = some 0xD8) →
      (∀ j, j < i2 →
        ¬ ((payload_region img (data_region_offset L sb) sb.bytes_per_block (N + m + 1))[j]?
            = some 0xFF ∧
          (payload_region img (data_region_offset L sb) sb.bytes_per_block
            (N + m + 1))[j + 1]? = some 0xD8)) →
      ∀ (fuel : Nat) (buffer : List Nat) (outs : List (List Nat)),
        ∃ k rest, 2 ≤ k ∧
          scan_blocks img sb.bytes_per_block sb.total_blocks (data_region_offset L sb)
              (to_uint32 ((sb.bytes_per_block : Int) - 3)) (fuel + 2) N buffer outs
            = outs ++ [((payload_region img (data_region_offset L sb) sb.bytes_per_block
                  N).drop i
                ++ payload_stream img (data_region_offset L sb) sb.bytes_per_block
                    (sb.total_blocks - N - 1) (N + 1)).take (t + 1)]
              ++ [((payload_region img (data_region_offset L sb) sb.bytes_per_block
                  (N + m + 1)).drop i2
                ++ payload_stream img (data_region_offset L sb) sb.bytes_per_block
                    (sb.total_blocks - (N + m + 1) - 1) (N + m + 1 + 1)).take k]
              ++ rest) := by
  have hP := to_uint32_sub_three sb.bytes_per_block h3 h16
  have hN : N < sb.total_blocks := by omega
  rw [hP]
  have part1 : ∀ (fuel : Nat) (buffer : List Nat) (outs : List (List Nat)),
      ∃ buffer', scan_blocks img sb.bytes_per_block sb.total_blocks (data_region_offset L sb)
          (sb.bytes_per_block - 3) (fuel + 1) N buffer outs
        = scan_blocks img sb.bytes_per_block sb.total_blocks (data_region_offset L sb)
            (sb.bytes_per_block - 3) fuel (N + m + 1) buffer'
            (outs ++ [((payload_region img (data_region_offset L sb) sb.bytes_per_block
                N).drop i
              ++ payload_stream img (data_region_offset L sb) sb.bytes_per_block
                  (sb.total_blocks - N - 1) (N + 1)).take (t + 1)]) :=
    fun fuel buffer outs => scan_blocks_carve img (data_region_offset L sb) sb.bytes_per_block
      sb.total_blocks h3 hwf fuel N i t m buffer outs hm hstart hno hend hpos1 hpos2
  refine ⟨part1, ?_, ?_⟩
  · intro hafter
    have part2 : ∀ (fuel : Nat) (buffer : List Nat) (outs : List (List Nat)),
        scan_blocks img sb.bytes_per_block sb.total_blocks (data_region_offset L sb)
            (sb.bytes_per_block - 3) (fuel + 1) N buffer outs
          = outs ++ [((payload_region img (data_region_offset L sb) sb.bytes_per_block
                N).drop i
              ++ payload_stream img (data_region_offset L sb) sb.bytes_per_block
                  (sb.total_blocks - N - 1) (N + 1)).take (t + 1)] := by
      intro fuel buffer outs
      obtain ⟨buffer', hb⟩ := part1 fuel buffer outs
      rw [hb, scan_blocks_no_marker img (data_region_offset L sb) sb.bytes_per_block
        sb.total_blocks h3 hwf fuel (N + m + 1) buffer' _
        (fun c hc1 hc2 => no_marker_all img (data_region_offset L sb) sb.bytes_per_block
          sb.total_blocks c h3 hwf hc2 (hafter c hc2 (by omega)))]
    refine ⟨part2, ?_⟩
    intro hbefore buffer0
    unfold recover_files
    simp only [hP]
    obtain ⟨buffer', hskip⟩ := scan_blocks_skip_to img (data_region_offset L sb)
      sb.bytes_per_block sb.total_blocks h3 hwf (sb.total_blocks - N) N [] (le_of_lt hN)
      (fun c hc => no_marker_all img (data_region_offset L sb) sb.bytes_per_block
        sb.total_blocks c h3 hwf (by omega) (hbefore c hc))
      N 0 buffer0 (by omega)
    rw [show sb.total_blocks - N + N = sb.total_blocks by omega] at hskip
    have h2 := part2 (sb.total_blocks - N - 1) buffer' []
    rw [show sb.total_blocks - N - 1 + 1 = sb.total_blocks - N by omega] at h2
    rw [hskip, h2]
    rfl
  · intro i2 hk hstart2 hno2 fuel buffer outs
    obtain ⟨buffer', hb⟩ := part1 (fuel + 1) buffer outs
    have hi2 := start_index_lt img (data_region_offset L sb) sb.bytes_per_block sb.total_blocks
      (N + m + 1) i2 h3 hwf hk hstart2
    have hplen := payload_region_length img (data_region_offset L sb) sb.bytes_per_block
      (N + m + 1) h3
      (block_bytes_length img (data_region_offset L sb) sb.bytes_per_block sb.total_blocks
        (N + m + 1) hwf hk)
    obtain ⟨n, hn⟩ : ∃ n, sb.total_blocks - (N + m + 1) - 1 = n := ⟨_, rfl⟩
    rw [hn]
    have e1 : sb.total_blocks - (N + m + 1) = n + 1 := by omega
    have hfirst := emit_blocks_first img (data_region_offset L sb) sb.bytes_per_block
      sb.total_blocks i2 h3 hwf n (N + m + 1)
      (fread_into buffer' (file_bytes img
        (data_region_offset L sb + (N + m + 1) * sb.bytes_per_block) sb.bytes_per_block))
      ⟨[], 0, false, false⟩ (by omega) (by omega) rfl
      (payloadEq_fread img buffer' (data_region_offset L sb) sb.bytes_per_block
        sb.total_blocks (N + m + 1) h3 hwf hk)
    obtain ⟨k, hk1, hk2⟩ := emit_list_out_take
      ((payload_region img (data_region_offset L sb) sb.bytes_per_block (N + m + 1)).drop i2
        ++ payload_stream img (data_region_offset L sb) sb.bytes_per_block n (N + m + 1 + 1))
    have hlen2 : 2 ≤ ((payload_region img (data_region_offset L sb) sb.bytes_per_block
        (N + m + 1)).drop i2
        ++ payload_stream img (data_region_offset L sb) sb.bytes_per_block n
            (N + m + 1 + 1)).length := by
      rw [List.length_append, List.length_drop, hplen]
      omega
    rw [hb,
      scan_blocks_hit img (data_region_offset L sb) sb.bytes_per_block sb.total_blocks h3 hwf
        fuel (N + m + 1) i2 buffer' _ hk hi2 hstart2 hno2, e1, hfirst.1, hk1]
    obtain ⟨rest, hrest⟩ := scan_blocks_outs_prefix img sb.bytes_per_block sb.total_blocks
      (data_region_offset L sb) (sb.bytes_per_block - 3) fuel
      ((emit_blocks img sb.bytes_per_block (data_region_offset L sb) (sb.bytes_per_block - 3)
        i2 (n + 1) (N + m + 1) (N + m + 1)
        (fread_into buffer' (file_bytes img
          (data_region_offset L sb + (N + m + 1) * sb.bytes_per_block) sb.bytes_per_block))
        ⟨[], 0, false, false⟩).2.2 + 1)
      (emit_blocks img sb.bytes_per_block (data_region_offset L sb) (sb.bytes_per_block - 3)
        i2 (n + 1) (N + m + 1) (N + m + 1)
        (fread_into buffer' (file_bytes img
          (data_region_offset L sb + (N + m + 1) * sb.bytes_per_block) sb.bytes_per_block))
        ⟨[], 0, false, false⟩).2.1
      (outs ++ [((payload_region img (data_region_offset L sb) sb.bytes_per_block N).drop i
          ++ payload_stream img (data_region_offset L sb) sb.bytes_per_block
              (sb.total_blocks - N - 1) (N + 1)).take (t + 1)]
        ++ [((payload_region img (data_region_offset L sb) sb.bytes_per_block
            (N + m + 1)).drop i2
          ++ payload_stream img (data_region_offset L sb) sb.bytes_per_block n
              (N + m + 1 + 1)).take k])
    exact ⟨k, rest, by omega, hrest⟩

/-- Witness of C15.  In `demoResumeImage2` block 0 holds FF D8 01 FF D9
followed by a second start marker, and no later block holds a marker: the
run gives the single output FF D8 01 FF D9.  In `demoResumeImage` block 1
also holds a start marker, at payload position 1, and it opens the next
output. -/
theorem recover_files_resume_witness :
    recover_files demoLayout demoResumeSb demoResumeImage2 (List.replicate 11 0)
      = [[0xFF, 0xD8, 1, 0xFF, 0xD9]] ∧
    (∃ k rest, 2 ≤ k ∧
      scan_blocks demoResumeImage demoResumeSb.bytes_per_block demoResumeSb.total_blocks
          (data_region_offset demoLayout demoResumeSb)
          (to_uint32 ((demoResumeSb.bytes_per_block : Int) - 3)) (1 + 2) 0
          (List.replicate 11 0) []
        = [] ++ [((payload_region demoResumeImage (data_region_offset demoLayout demoResumeSb)
              demoResumeSb.bytes_per_block 0).drop 0
            ++ payload_stream demoResumeImage (data_region_offset demoLayout demoResumeSb)
                demoResumeSb.bytes_per_block (demoResumeSb.total_blocks - 0 - 1)
                (0 + 1)).take (4 + 1)]
          ++ [((payload_region demoResumeImage (data_region_offset demoLayout demoResumeSb)
              demoResumeSb.bytes_per_block (0 + 0 + 1)).drop 1
            ++ payload_stream demoResumeImage (data_region_offset demoLayout demoResumeSb)
                demoResumeSb.bytes_per_block (demoResumeSb.total_blocks - (0 + 0 + 1) - 1)
                (0 + 0 + 1 + 1)).take k]
          ++ rest) ∧
    recover_files demoLayout demoResumeSb demoResumeImage (List.replicate 11 0)
      = [[0xFF, 0xD8, 1, 0xFF, 0xD9], [0xFF, 0xD8, 2, 3, 0xFF, 0xD9]] :=
  ⟨Eq.trans
      (((recover_files_resume demoLayout demoResumeSb demoResumeImage2 0 0 4 0 (by decide)
        (by decide) (by decide) (by decide) (by decide) (by decide) (by decide) (by decide)
        (by decide)).2.1 (by decide)).2 (by decide) (List.replicate 11 0))
      (by decide),
   (recover_files_resume demoLayout demoResumeSb demoResumeImage 0 0 4 0 (by decide)
      (by decide) (by decide) (by decide) (by decide) (by decide) (by decide) (by decide)
      (by decide)).2.2 1 (by decide) (by decide) (by decide) 1 (List.replicate 11 0) [],
   by decide⟩

end QFS
